import Mathlib

/-!
UltraThink core components: worker, worker pool and scheduler.

A shallow embedding of `scripts/ultrathink-core-components.mjs`.

Modelling conventions.

* JavaScript numbers that hold times are rationals (`ℚ`) and arithmetic on them is exact;
  counters are naturals. Where the rounding of the program's doubles matters it is
  `roundDouble`.
* `null` / `undefined` is `none`.
* A value thrown by a routine is represented by its `message` (`Except String _`).
* An `async` function is cut at its `await` points: every piece between two `await`s runs
  without interleaving and is one Lean function.
* `performance.now()` is an oracle `clock : Nat → ℚ`; the `n`-th reading made by the pool is
  `clock n`.
* A pool is driven by events (`PoolEvent`): a caller submits a task, the routine of a busy
  worker settles, a suspended `runTask` resumes, `shutdown()` evaluates its loop condition.
  Events may come in any order; one that finds nothing to do leaves the pool unchanged.
* The scheduler's `Map` is the list of its entries in insertion order; `JSON.stringify` is a
  parameter of the functions that build a cache key; a number that may be `NaN` is an `Option`.
-/

namespace UltraThink

/-! ## Data model -/

/-- The `resourceRequirements` object of a task. -/
structure ResourceRequirements where
  cpu : ℚ
  memory : ℚ
  io : String
deriving DecidableEq, Repr

/-- The optional `context` object of a task. -/
structure TaskContext where
  urgency : Option String
deriving DecidableEq, Repr

/-- The object returned by `predictScalingNeeds`. -/
structure ScalingRecommendation where
  action : String
  reason : String
  recommendedWorkers : Nat
deriving DecidableEq, Repr

/-- The `decisions` object built by `makeSchedulingDecision`. -/
structure SchedulingDecision where
  workerAssignment : String
  priority : String
  resourceStrategy : String
  scalingRecommendation : ScalingRecommendation
deriving DecidableEq, Repr

/-- The `taskData` object handed to the worker, the pool and the scheduler.
`id` is `none` when the property is `null` or missing; `schedulingDecision` is the property the
scheduler adds with `{ ...taskData, schedulingDecision }`. -/
structure TaskData where
  id : Option String
  type : String
  estimatedDuration : ℚ
  resourceRequirements : ResourceRequirements
  context : Option TaskContext := none
  taskType : Option String := none
  schedulingDecision : Option SchedulingDecision := none
deriving DecidableEq, Repr

/-- The `stats` object of a worker. -/
structure WorkerStats where
  tasksCompleted : Nat
  totalExecutionTime : ℚ
  averageTaskTime : ℚ
  errors : Nat
deriving DecidableEq, Repr

/-- The fields of an `UltraThinkWorker` instance. -/
structure UltraThinkWorker where
  workerId : String
  busy : Bool
  currentTask : Option String
  stats : WorkerStats
deriving DecidableEq, Repr

/-- The object a `simulate*` routine returns. Fields filled from `Math.random()` are left out;
a field a routine does not set has its default. -/
structure RoutineOutput where
  taskType : String
  result : Option String := none
  executionTime : Option ℚ := none
  workerId : Option String := none
  findings : List String := []
  sources : List String := []
  recommendations : List String := []
  components : List String := []
  files : List String := []
deriving DecidableEq, Repr

/-- The object `UltraThinkWorker.executeTask` returns. -/
structure Result where
  success : Bool
  data : Option RoutineOutput
  error : Option String
  executionTime : ℚ
  workerId : String
deriving DecidableEq, Repr

/-! ## UltraThinkWorker -/

/-- The `constructor(workerId)`. -/
def UltraThinkWorker.new (workerId : String) : UltraThinkWorker :=
  { workerId := workerId
    busy := false
    currentTask := none
    stats := { tasksCompleted := 0, totalExecutionTime := 0, averageTaskTime := 0, errors := 0 } }

/-- The method `updateStats(duration, success)`. -/
def UltraThinkWorker.updateStats (w : UltraThinkWorker) (duration : ℚ) (success : Bool) :
    UltraThinkWorker :=
  let tasksCompleted := w.stats.tasksCompleted + 1
  let totalExecutionTime := w.stats.totalExecutionTime + duration
  let averageTaskTime := totalExecutionTime / (tasksCompleted : ℚ)
  let errors := if !success then w.stats.errors + 1 else w.stats.errors
  { w with stats := { tasksCompleted := tasksCompleted
                      totalExecutionTime := totalExecutionTime
                      averageTaskTime := averageTaskTime
                      errors := errors } }

/-- The routine `simulateAnalysis`. Building the `result` literal reads `resourceRequirements.cpu`,
and no binding of that name is in scope in this method (the module is strict code), so the read
throws a `ReferenceError` before the first `sleep`. -/
def UltraThinkWorker.simulateAnalysis (_w : UltraThinkWorker) (_taskData : TaskData)
    (_duration : ℚ) : Except String RoutineOutput :=
  .error "resourceRequirements is not defined"

/-- The routine `simulateResearch`: one finding and one source per topic. -/
def UltraThinkWorker.simulateResearch (_w : UltraThinkWorker) (_taskData : TaskData)
    (_duration : ℚ) : Except String RoutineOutput :=
  let researchTopics := ["Current best practices", "Library and framework options",
    "Performance optimization techniques", "Security considerations", "Testing strategies"]
  .ok { taskType := "research"
        findings := researchTopics.map (fun topic => "Research findings for " ++ topic)
        sources := researchTopics.map (fun topic => "Research source for " ++ topic)
        recommendations := ["Use React with TypeScript for type safety",
          "Implement comprehensive testing with Jest",
          "Consider modern bundling tools for optimization"] }

/-- The routine `simulateImplementation`: only the phase `Writing core components` contains one
of the words `components`, `files`, `quality`. -/
def UltraThinkWorker.simulateImplementation (_w : UltraThinkWorker) (_taskData : TaskData)
    (_duration : ℚ) : Except String RoutineOutput :=
  .ok { taskType := "implementation"
        components := ["TodoItem component", "TodoList component", "AddTodo component"]
        files := [] }

/-- The routine `simulateTesting`; every field but `taskType` comes from `Math.random()`. -/
def UltraThinkWorker.simulateTesting (_w : UltraThinkWorker) (_taskData : TaskData)
    (_duration : ℚ) : Except String RoutineOutput :=
  .ok { taskType := "testing" }

/-- The routine `simulateGenericTask`. -/
def UltraThinkWorker.simulateGenericTask (w : UltraThinkWorker) (taskData : TaskData)
    (duration : ℚ) : Except String RoutineOutput :=
  .ok { taskType := "generic"
        result := some ("Completed " ++ taskData.type ++ " task successfully")
        executionTime := some duration
        workerId := some w.workerId }

/-- The method `simulateTaskExecution`: the `switch` on `type`. -/
def UltraThinkWorker.simulateTaskExecution (w : UltraThinkWorker) (taskData : TaskData) :
    Except String RoutineOutput :=
  if taskData.type = "analysis" then w.simulateAnalysis taskData taskData.estimatedDuration
  else if taskData.type = "research" then w.simulateResearch taskData taskData.estimatedDuration
  else if taskData.type = "implementation" then
    w.simulateImplementation taskData taskData.estimatedDuration
  else if taskData.type = "testing" then w.simulateTesting taskData taskData.estimatedDuration
  else w.simulateGenericTask taskData taskData.estimatedDuration

/-- The part of `executeTask` before the `await`: `busy = true; currentTask = taskData.id`. -/
def UltraThinkWorker.beginTask (w : UltraThinkWorker) (taskData : TaskData) : UltraThinkWorker :=
  { w with busy := true, currentTask := taskData.id }

/-- The `finally` block of `executeTask`. -/
def UltraThinkWorker.release (w : UltraThinkWorker) : UltraThinkWorker :=
  { w with busy := false, currentTask := none }

/-- The part of `executeTask` after the `await`, given how the awaited routine settled:
the rest of the `try` block or the `catch` block, then `finally`. The outer `Except` is the
completion of `executeTask` itself (`.error` would be a rejected promise). -/
def UltraThinkWorker.finishTask (w : UltraThinkWorker) (outcome : Except String RoutineOutput)
    (duration : ℚ) : Except String (UltraThinkWorker × Result) :=
  match outcome with
  | .ok result =>
    let w1 := w.updateStats duration true
    .ok (w1.release, { success := true, data := some result, error := none,
                       executionTime := duration, workerId := w1.workerId })
  | .error message =>
    let w1 := w.updateStats duration false
    .ok (w1.release, { success := false, data := none, error := some message,
                       executionTime := duration, workerId := w1.workerId })

/-- The method `executeTask(taskData)` run from start to end on a worker no other call touches
in between; `startTime` and `endTime` are its two readings of `performance.now()`. -/
def UltraThinkWorker.executeTask (w : UltraThinkWorker) (taskData : TaskData)
    (startTime endTime : ℚ) : Except String (UltraThinkWorker × Result) :=
  let w1 := w.beginTask taskData
  w1.finishTask (w1.simulateTaskExecution taskData) (endTime - startTime)

/-- What can happen to a worker: a call of `executeTask` starts (runs up to its `await`), or a
pending call resumes after its routine settled as `outcome`, `duration` after it started. Calls
may overlap when the worker is driven directly. -/
inductive WorkerEvent where
  | start (taskData : TaskData)
  | settle (outcome : Except String RoutineOutput) (duration : ℚ)

/-- The worker after one event. -/
def UltraThinkWorker.step (w : UltraThinkWorker) : WorkerEvent → UltraThinkWorker
  | .start taskData => w.beginTask taskData
  | .settle outcome duration =>
    match w.finishTask outcome duration with
    | .ok (w1, _) => w1
    | .error _ => w

/-- The worker after a sequence of events. -/
def UltraThinkWorker.run (w : UltraThinkWorker) (evs : List WorkerEvent) : UltraThinkWorker :=
  evs.foldl UltraThinkWorker.step w

/-- The measured durations of the tasks completed in a sequence of events, in completion order. -/
def completedDurations : List WorkerEvent → List ℚ
  | [] => []
  | .start _ :: evs => completedDurations evs
  | .settle _ duration :: evs => duration :: completedDurations evs

/-- The identifier of every task started in a sequence of events is present. -/
def startsHaveId : List WorkerEvent → Bool
  | [] => true
  | .start taskData :: evs => taskData.id.isSome && startsHaveId evs
  | .settle _ _ :: evs => startsHaveId evs

/-! ## AdvancedWorkerPool -/

/-- The object `executeTask` pushes on `taskQueue`. `handle` stands for the pair
`resolve`/`reject`: it is the identity of the promise made by that call, numbered in the order
the calls are made. -/
structure TaskWrapper where
  taskData : TaskData
  priority : String
  handle : Nat
  startTime : ℚ
  waitTime : ℚ
deriving DecidableEq, Repr

/-- The `stats` object of the pool. -/
structure PoolStats where
  totalTasks : Nat
  completedTasks : Nat
  averageWaitTime : ℚ
  peakConcurrency : Nat
  resourceUtilization : ℚ
deriving DecidableEq, Repr

/-- A call of `runTask(worker, taskWrapper)` suspended at `await worker.executeTask(taskData)`.
`startTime` is the local of the worker's `executeTask`. `result` is `none` while the worker's
routine is pending, and the completion of the worker's `executeTask` once it has returned. -/
structure RunTask where
  worker : Nat
  taskWrapper : TaskWrapper
  startTime : ℚ
  result : Option (Except String Result)

/-- History record of one iteration of the loop of `processTaskQueue` (a ghost value, read by no
operation): the task taken, the worker it went to, and what was left in the queue. -/
structure Dispatch where
  task : TaskWrapper
  worker : Nat
  stillQueued : List TaskWrapper

/-- The fields of an `AdvancedWorkerPool` instance, followed by the part of the runtime the pool
lives in. Workers are objects: `heap` holds them and the pool's collections hold their
positions in `heap`. `busyWorkers` is a `Set`, kept as a list without repetition in insertion
order. `running` are the suspended `runTask` calls; `resolved` / `rejected` log the calls of
`resolve` / `reject` with the handle they settle; `promises` counts the handles made;
`clockReads` counts the readings of `performance.now()`; `dispatchLog` is the history of the
admission loop (a ghost field). `maxSize` is a natural number. -/
structure AdvancedWorkerPool where
  maxSize : Nat
  workers : List Nat
  availableWorkers : List Nat
  busyWorkers : List Nat
  taskQueue : List TaskWrapper
  stats : PoolStats
  heap : List UltraThinkWorker
  running : List RunTask
  resolved : List (Nat × Result)
  rejected : List (Nat × String)
  promises : Nat
  clockReads : Nat
  dispatchLog : List Dispatch

/-- The `constructor(maxSize)`. -/
def AdvancedWorkerPool.new (maxSize : Nat) : AdvancedWorkerPool :=
  { maxSize := maxSize
    workers := []
    availableWorkers := []
    busyWorkers := []
    taskQueue := []
    stats := { totalTasks := 0, completedTasks := 0, averageWaitTime := 0,
               peakConcurrency := 0, resourceUtilization := 0 }
    heap := []
    running := []
    resolved := []
    rejected := []
    promises := 0
    clockReads := 0
    dispatchLog := [] }

/-- One iteration of the loop of `initialize`: make `worker-i` and push it on both arrays. -/
def AdvancedWorkerPool.addWorker (p : AdvancedWorkerPool) (i : Nat) : AdvancedWorkerPool :=
  let worker := p.heap.length
  { p with heap := p.heap ++ [UltraThinkWorker.new ("worker-" ++ toString i)]
           workers := p.workers ++ [worker]
           availableWorkers := p.availableWorkers ++ [worker] }

/-- The method `initialize()`. -/
def AdvancedWorkerPool.initialise (p : AdvancedWorkerPool) : AdvancedWorkerPool :=
  (List.range p.maxSize).foldl AdvancedWorkerPool.addWorker p

/-- The names every object inherits from `Object.prototype`: a lookup `values[name]` on an
object literal finds a function for each of them (for `__proto__` the prototype object), also
when the literal has no such key. -/
def inheritedNames : List String :=
  ["constructor", "toString", "valueOf", "hasOwnProperty", "isPrototypeOf",
   "propertyIsEnumerable", "toLocaleString", "__proto__", "__defineGetter__",
   "__defineSetter__", "__lookupGetter__", "__lookupSetter__"]

/-- The method `getPriorityValue(priority)`: `values[priority] || 2`, where `values` is the
object literal with the keys `critical`, `high`, `normal`, `low`. For a string that is no key
and no inherited name the lookup is `undefined` and the method returns `2`. For an inherited
name the lookup finds a function or an object, which is truthy, so the method returns it and
not `2`: that value is `none` here, since it is not a number and every subtraction with it is
`NaN`. -/
def getPriorityValue (priority : String) : Option Nat :=
  if priority = "critical" then some 4
  else if priority = "high" then some 3
  else if priority = "normal" then some 2
  else if priority = "low" then some 1
  else if priority ∈ inheritedNames then none
  else some 2

/-- The comparator of the `sort` in `executeTask`:
`getPriorityValue(b.priority) - getPriorityValue(a.priority)`, with `none` for `NaN`. -/
def comparePriority (a b : TaskWrapper) : Option Int :=
  match getPriorityValue b.priority, getPriorityValue a.priority with
  | some vb, some va => some ((vb : Int) - (va : Int))
  | _, _ => none

/-- The comparator is not positive on `(a, b)`, so the sort does not move `b` before `a`;
`sort` takes a comparator value `NaN` for `+0`. -/
def priorityGE (a b : TaskWrapper) : Prop :=
  (comparePriority a b).getD 0 ≤ 0

instance : DecidableRel priorityGE := fun a b =>
  inferInstanceAs (Decidable ((comparePriority a b).getD 0 ≤ 0))

/-- The call `taskQueue.sort(...)`: `Array.prototype.sort` is a stable sort. When a label with
no number makes the comparator inconsistent (`NaN` against every other task), the language
leaves the order to the implementation; the insertion sort here then leaves a queue of two
tasks as it is, as the engines do, the comparator being `+0` on the pair. -/
def sortQueue (q : List TaskWrapper) : List TaskWrapper :=
  q.insertionSort priorityGE

/-- The call `Set.prototype.add`. -/
def setAdd (s : List Nat) (x : Nat) : List Nat :=
  if x ∈ s then s else s ++ [x]

/-- The call `Set.prototype.delete`. -/
def setDelete (s : List Nat) (x : Nat) : List Nat :=
  s.filter (fun y => y ≠ x)

/-- Apply a method to the worker object at a position of the heap. -/
def updateWorker (heap : List UltraThinkWorker) (worker : Nat)
    (f : UltraThinkWorker → UltraThinkWorker) : List UltraThinkWorker :=
  match heap[worker]? with
  | some w => heap.set worker (f w)
  | none => heap

/-- The call `this.runTask(worker, taskWrapper)` up to its first `await`: the worker's
`executeTask` reads the clock, marks itself busy and starts its routine, and both calls
suspend. -/
def AdvancedWorkerPool.startRunTask (clock : Nat → ℚ) (p : AdvancedWorkerPool) (worker : Nat)
    (taskWrapper : TaskWrapper) : AdvancedWorkerPool :=
  let startTime := clock p.clockReads
  { p with clockReads := p.clockReads + 1
           heap := updateWorker p.heap worker (fun w => w.beginTask taskWrapper.taskData)
           running := p.running ++ [{ worker := worker, taskWrapper := taskWrapper,
                                      startTime := startTime, result := none }] }

/-- One iteration of the loop of `processTaskQueue`, entered with `taskWrapper` at the head of
the queue, `rest` behind it and `worker` last in `availableWorkers`: shift the task, pop the
worker, add it to `busyWorkers`, set `waitTime`, call `runTask`. -/
def AdvancedWorkerPool.dispatch (clock : Nat → ℚ) (p : AdvancedWorkerPool)
    (taskWrapper : TaskWrapper) (rest : List TaskWrapper) (worker : Nat) : AdvancedWorkerPool :=
  let waited : TaskWrapper :=
    { taskWrapper with waitTime := clock p.clockReads - taskWrapper.startTime }
  let p1 : AdvancedWorkerPool :=
    { p with taskQueue := rest
             availableWorkers := p.availableWorkers.dropLast
             busyWorkers := setAdd p.busyWorkers worker
             clockReads := p.clockReads + 1
             dispatchLog := p.dispatchLog ++
               [{ task := waited, worker := worker, stillQueued := rest }] }
  p1.startRunTask clock worker waited

/-- The `while` loop of `processTaskQueue`, by recursion on the queue: it ends when the queue
or `availableWorkers` is empty. -/
def AdvancedWorkerPool.admissionLoop (clock : Nat → ℚ) :
    List TaskWrapper → AdvancedWorkerPool → AdvancedWorkerPool
  | [], p => { p with taskQueue := [] }
  | taskWrapper :: rest, p =>
    match p.availableWorkers.getLast? with
    | none => { p with taskQueue := taskWrapper :: rest }
    | some worker => admissionLoop clock rest (p.dispatch clock taskWrapper rest worker)

/-- The two gauges `processTaskQueue` sets after its loop. -/
def AdvancedWorkerPool.updateGauges (p : AdvancedWorkerPool) : AdvancedWorkerPool :=
  let currentConcurrency := p.busyWorkers.length
  { p with stats := { p.stats with
      peakConcurrency := max p.stats.peakConcurrency currentConcurrency
      resourceUtilization := ((currentConcurrency : ℚ) / (p.maxSize : ℚ)) * 100 } }

/-- The method `processTaskQueue()`: the loop, then the two gauges. -/
def AdvancedWorkerPool.processTaskQueue (clock : Nat → ℚ) (p : AdvancedWorkerPool) :
    AdvancedWorkerPool :=
  (AdvancedWorkerPool.admissionLoop clock p.taskQueue p).updateGauges

/-- The start of the pool's `executeTask`: count the task, wrap it, push it, sort the queue. -/
def AdvancedWorkerPool.enqueue (clock : Nat → ℚ) (p : AdvancedWorkerPool)
    (taskData : TaskData) (priority : String) : AdvancedWorkerPool :=
  let startTime := clock p.clockReads
  let taskWrapper : TaskWrapper :=
    { taskData := taskData, priority := priority, handle := p.promises,
      startTime := startTime, waitTime := 0 }
  { p with clockReads := p.clockReads + 1
           stats := { p.stats with totalTasks := p.stats.totalTasks + 1 }
           promises := p.promises + 1
           taskQueue := sortQueue (p.taskQueue ++ [taskWrapper]) }

/-- The method `executeTask(taskData, priority)` of the pool; it runs to its end without
suspending and leaves a pending promise, numbered `handle`. -/
def AdvancedWorkerPool.executeTask (clock : Nat → ℚ) (p : AdvancedWorkerPool)
    (taskData : TaskData) (priority : String) : AdvancedWorkerPool :=
  (p.enqueue clock taskData priority).processTaskQueue clock

/-- The routine awaited by the `executeTask` of `worker` settles and that call runs to its
end: it reads the clock, updates the worker and returns to the suspended `runTask`. -/
def AdvancedWorkerPool.workerSettles (clock : Nat → ℚ) (p : AdvancedWorkerPool) (worker : Nat) :
    AdvancedWorkerPool :=
  match p.running.find? (fun r => r.worker = worker && r.result.isNone), p.heap[worker]? with
  | some r, some w =>
    let duration := clock p.clockReads - r.startTime
    let completion := w.finishTask (w.simulateTaskExecution r.taskWrapper.taskData) duration
    { p with clockReads := p.clockReads + 1
             heap := match completion with
               | .ok (w1, _) => p.heap.set worker w1
               | .error _ => p.heap
             running := p.running.map (fun x =>
               if x.worker = worker then { x with result := some (completion.map Prod.snd) }
               else x) }
  | _, _ => p

/-- The `try` / `catch` part of `runTask` after its `await` returned `r.result`: count the
task, update the average wait and `resolve(result)`; or `reject(error)`. -/
def AdvancedWorkerPool.complete (p : AdvancedWorkerPool) (r : RunTask) : AdvancedWorkerPool :=
  match r.result with
  | some (.ok result) =>
    let completedTasks := p.stats.completedTasks + 1
    { p with
      stats := { p.stats with
        completedTasks := completedTasks
        averageWaitTime :=
          (p.stats.averageWaitTime * ((completedTasks : ℚ) - 1) + r.taskWrapper.waitTime) /
            (completedTasks : ℚ) }
      resolved := p.resolved ++ [(r.taskWrapper.handle, result)] }
  | some (.error message) =>
    { p with rejected := p.rejected ++ [(r.taskWrapper.handle, message)] }
  | none => p

/-- The `finally` block of `runTask` before its call of `processTaskQueue`; the `runTask` call
of `worker` ends here and leaves `running`. -/
def AdvancedWorkerPool.releaseWorker (p : AdvancedWorkerPool) (worker : Nat) :
    AdvancedWorkerPool :=
  { p with running := p.running.filter (fun x => x.worker ≠ worker)
           busyWorkers := setDelete p.busyWorkers worker
           availableWorkers := p.availableWorkers ++ [worker] }

/-- The suspended `runTask` of `worker` resumes with the completion of the worker's
`executeTask` and runs to its end. -/
def AdvancedWorkerPool.runTaskResumes (clock : Nat → ℚ) (p : AdvancedWorkerPool) (worker : Nat) :
    AdvancedWorkerPool :=
  match p.running.find? (fun r => r.worker = worker && r.result.isSome) with
  | none => p
  | some r => ((p.complete r).releaseWorker worker).processTaskQueue clock

/-- One evaluation of the loop condition of `shutdown()`: while a worker is busy it sleeps and
nothing changes; otherwise the four collections are cleared. -/
def AdvancedWorkerPool.shutdown (p : AdvancedWorkerPool) : AdvancedWorkerPool :=
  if p.busyWorkers.length > 0 then p
  else { p with workers := [], availableWorkers := [], busyWorkers := [], taskQueue := [] }

/-- What can happen to a pool after `initialize()`. -/
inductive PoolEvent where
  | executeTask (taskData : TaskData) (priority : String)
  | workerSettles (worker : Nat)
  | runTaskResumes (worker : Nat)
  | shutdown

/-- The pool after one event. -/
def AdvancedWorkerPool.step (clock : Nat → ℚ) (p : AdvancedWorkerPool) :
    PoolEvent → AdvancedWorkerPool
  | .executeTask taskData priority => p.executeTask clock taskData priority
  | .workerSettles worker => p.workerSettles clock worker
  | .runTaskResumes worker => p.runTaskResumes clock worker
  | .shutdown => p.shutdown

/-- The pool after a sequence of events. -/
def AdvancedWorkerPool.run (clock : Nat → ℚ) (p : AdvancedWorkerPool) (evs : List PoolEvent) :
    AdvancedWorkerPool :=
  evs.foldl (AdvancedWorkerPool.step clock) p

/-- A pool of size `maxSize` right after `new AdvancedWorkerPool(maxSize)` and `initialize()`. -/
def AdvancedWorkerPool.fresh (maxSize : Nat) : AdvancedWorkerPool :=
  (AdvancedWorkerPool.new maxSize).initialise

/-- An event that completes work: neither a submission nor a shutdown. -/
def PoolEvent.isCompletion : PoolEvent → Bool
  | .workerSettles _ => true
  | .runTaskResumes _ => true
  | _ => false

/-- A task of a type the `switch` of `simulateTaskExecution` does not name. -/
def TaskData.isGeneric (taskData : TaskData) : Bool :=
  taskData.type ≠ "analysis" ∧ taskData.type ≠ "research" ∧
    taskData.type ≠ "implementation" ∧ taskData.type ≠ "testing"

/-- A clock that always reads zero, for examples. -/
def zeroClock : Nat → ℚ := fun _ => 0

/-- A task for examples: generic type `job`, 50 ms. -/
def exampleTask (id : String) : TaskData :=
  { id := some id, type := "job", estimatedDuration := 50,
    resourceRequirements := { cpu := 1, memory := 64, io := "low" } }

/-! ## Invariants of the pool -/

/-- The workers are split between `availableWorkers` and `busyWorkers`, the suspended `runTask`
calls are those of the busy workers, and every worker is an object of the heap. -/
structure Partitioned (p : AdvancedWorkerPool) : Prop where
  nodup : (p.availableWorkers ++ p.busyWorkers).Nodup
  perm : (p.availableWorkers ++ p.busyWorkers).Perm p.workers
  running : p.running.map (fun r => r.worker) = p.busyWorkers
  size : p.workers.length ≤ p.maxSize
  valid : ∀ w ∈ p.workers, w < p.heap.length

/-- Either the pool still holds the workers `initialize()` made, or `shutdown()` has cleared
it and nothing is running. -/
def Lifecycle (N : Nat) (p : AdvancedWorkerPool) : Prop :=
  p.workers = List.range N ∨
    (p.workers = [] ∧ p.availableWorkers = [] ∧ p.busyWorkers = [] ∧ p.running = [])

/-- What holds whenever no code of the pool is running: the admission pass left no task
queued beside an available worker, and the recorded peak covers the busy workers. -/
structure Settled (p : AdvancedWorkerPool) : Prop where
  conserving : p.taskQueue ≠ [] → p.availableWorkers = []
  peak : p.busyWorkers.length ≤ p.stats.peakConcurrency

/-- The number a label stands for, for the labels that stand for one (and `2` for the
others, which no statement below uses). -/
def priorityRank (priority : String) : Nat :=
  (getPriorityValue priority).getD 2

/-- The comparator order on labels that stand for a number. -/
def rankGE (a b : TaskWrapper) : Prop :=
  priorityRank b.priority ≤ priorityRank a.priority

instance : DecidableRel rankGE := fun a b =>
  inferInstanceAs (Decidable (priorityRank b.priority ≤ priorityRank a.priority))

instance : IsTotal TaskWrapper rankGE :=
  ⟨fun a b => Nat.le_total (priorityRank b.priority) (priorityRank a.priority)⟩

instance : IsTrans TaskWrapper rankGE :=
  ⟨fun _ _ _ hab hbc => Nat.le_trans hbc hab⟩

/-- The order the queue is kept in when every label stands for a number: `a` stands before
`b` when its priority value is greater, or equal with `a` submitted earlier (handles are
numbered in submission order). -/
def queueBefore (a b : TaskWrapper) : Prop :=
  priorityRank b.priority < priorityRank a.priority ∨
    (priorityRank b.priority = priorityRank a.priority ∧ a.handle < b.handle)

/-- The handles of the tasks a `runTask` call holds or has settled. -/
def AdvancedWorkerPool.dispatchedHandles (p : AdvancedWorkerPool) : List Nat :=
  p.running.map (fun r => r.taskWrapper.handle) ++
    (p.resolved.map Prod.fst ++ p.rejected.map Prod.fst)

/-- The handles the pool knows: queued, in flight, resolved, rejected. -/
def AdvancedWorkerPool.handles (p : AdvancedWorkerPool) : List Nat :=
  p.taskQueue.map (fun t => t.handle) ++ p.dispatchedHandles

/-- No handle is in two places; the dispatch log lists the tasks that left the queue; no
worker call has thrown and no handle was rejected. -/
structure Ordered (p : AdvancedWorkerPool) : Prop where
  nodup : p.handles.Nodup
  bound : ∀ h ∈ p.handles, h < p.promises
  log : (p.dispatchLog.map (fun d => d.task.handle)).Perm p.dispatchedHandles
  noThrow : ∀ r ∈ p.running, ∀ e, r.result ≠ some (.error e)
  rejected : p.rejected = []

/-- Every label the pool has seen stands for a number, the queue is in priority order, first
come first served within a priority, and each entry of the dispatch log was taken from the
front of that order. -/
structure Prioritised (p : AdvancedWorkerPool) : Prop where
  plain : ∀ t ∈ p.taskQueue, (getPriorityValue t.priority).isSome = true
  sorted : p.taskQueue.Pairwise queueBefore
  logPlain : ∀ d ∈ p.dispatchLog, (getPriorityValue d.task.priority).isSome = true ∧
    ∀ u ∈ d.stillQueued, (getPriorityValue u.priority).isSome = true
  logOrder : ∀ d ∈ p.dispatchLog, ∀ u ∈ d.stillQueued, queueBefore d.task u

/-- An event that is a call of the pool's `executeTask`. -/
def PoolEvent.isSubmission : PoolEvent → Bool
  | .executeTask _ _ => true
  | _ => false

/-- The state a pool of size `N`, initialised once, is in after the events `evs`. -/
@[reducible]
def reached (N : Nat) (clock : Nat → ℚ) (evs : List PoolEvent) : AdvancedWorkerPool :=
  (AdvancedWorkerPool.fresh N).run clock evs

/-- A task for examples whose routine throws: type `analysis`. -/
def failingTask (id : String) : TaskData :=
  { id := some id, type := "analysis", estimatedDuration := 50,
    resourceRequirements := { cpu := 1, memory := 64, io := "low" } }

/-- A pool without any worker to give a task to: nothing is available, busy or in flight. -/
structure Stuck (p : AdvancedWorkerPool) : Prop where
  available : p.availableWorkers = []
  busy : p.busyWorkers = []
  running : p.running = []

/-- The counters of a pool that `shutdown()` has not cleared: every submitted task is
completed, in flight or queued; every completed task was resolved; the recorded peak is
bounded by the number of tasks and by the size; handles count the submissions. -/
structure Accounted (p : AdvancedWorkerPool) : Prop where
  total : p.stats.totalTasks = p.stats.completedTasks + p.running.length + p.taskQueue.length
  resolved : p.resolved.length = p.stats.completedTasks
  peakTotal : p.stats.peakConcurrency ≤ p.stats.totalTasks
  peakSize : p.stats.peakConcurrency ≤ p.maxSize
  promises : p.promises = p.stats.totalTasks

/-- Every task in the pool is of a generic type, and every result so far is a success. -/
structure AllGeneric (p : AdvancedWorkerPool) : Prop where
  queue : ∀ t ∈ p.taskQueue, t.taskData.isGeneric = true
  running : ∀ r ∈ p.running, r.taskWrapper.taskData.isGeneric = true ∧
    ∀ c, r.result = some c → ∃ res, c = .ok res ∧ res.success = true
  resolved : ∀ x ∈ p.resolved, x.2.success = true

/-- An event of a run in which only generic tasks are submitted and no shutdown is polled. -/
def PoolEvent.isGenericWork : PoolEvent → Bool
  | .executeTask taskData _ => taskData.isGeneric
  | .workerSettles _ => true
  | .runTaskResumes _ => true
  | .shutdown => false

/-- The submissions of a list of tasks with their priorities, in order. -/
def submissions (tasks : List (TaskData × String)) : List PoolEvent :=
  tasks.map (fun t => PoolEvent.executeTask t.1 t.2)

/-- Four generic tasks of 50 ms, for the end-to-end example. -/
def fourTasks : List (TaskData × String) :=
  [(exampleTask "t1", "normal"), (exampleTask "t2", "normal"),
   (exampleTask "t3", "normal"), (exampleTask "t4", "normal")]

/-- One order in which the four tasks of the example complete in a pool of size 2. -/
def fourCompletions : List PoolEvent :=
  [.workerSettles 1, .runTaskResumes 1, .workerSettles 0, .runTaskResumes 0,
   .workerSettles 1, .runTaskResumes 1, .workerSettles 0, .runTaskResumes 0]

/-- The greatest number of busy workers among the states a pool goes through from `p` along
the events `evs`, `p` and the last state included. -/
def maxBusy (clock : Nat → ℚ) : AdvancedWorkerPool → List PoolEvent → Nat
  | p, [] => p.busyWorkers.length
  | p, e :: evs => max p.busyWorkers.length (maxBusy clock (p.step clock e) evs)

/-- The `waitTime` the admission loop set on the task with the given handle when it was
dispatched (zero for a handle never dispatched). -/
def AdvancedWorkerPool.waitTimeOf (p : AdvancedWorkerPool) (handle : Nat) : ℚ :=
  match p.dispatchLog.find? (fun d => d.task.handle = handle) with
  | some d => d.task.waitTime
  | none => 0

/-- The wait times of the completed tasks, in completion order. -/
def AdvancedWorkerPool.completedWaitTimes (p : AdvancedWorkerPool) : List ℚ :=
  p.resolved.map (fun x => p.waitTimeOf x.1)

/-- The running average of the pool: `averageWaitTime` times `completedTasks` is the sum of the
wait times of the completed tasks; every task in flight is in the dispatch log; a queued task
carries the clock reading of its submission, a dispatched one the time from that reading to
the reading of its dispatch. -/
structure WaitAveraged (clock : Nat → ℚ) (p : AdvancedWorkerPool) : Prop where
  count : p.resolved.length = p.stats.completedTasks
  mean : p.stats.averageWaitTime * (p.stats.completedTasks : ℚ) = p.completedWaitTimes.sum
  logged : ∀ r ∈ p.running, ∃ d ∈ p.dispatchLog, d.task = r.taskWrapper
  queued : ∀ t ∈ p.taskQueue, ∃ i, i < p.clockReads ∧ t.startTime = clock i
  measured : ∀ d ∈ p.dispatchLog, ∃ i j, i < j ∧ j < p.clockReads ∧
    d.task.startTime = clock i ∧ d.task.waitTime = clock j - clock i

/-! ## Status objects -/

/-- The object `UltraThinkWorker.getStatus()` returns, by value. -/
structure WorkerStatus where
  workerId : String
  busy : Bool
  currentTask : Option String
  stats : WorkerStats
deriving DecidableEq, Repr

/-- The method `getStatus()`: the values of the four properties at the time of the call. -/
def UltraThinkWorker.getStatus (w : UltraThinkWorker) : WorkerStatus :=
  { workerId := w.workerId
    busy := w.busy
    currentTask := w.currentTask
    stats := { tasksCompleted := w.stats.tasksCompleted
               totalExecutionTime := w.stats.totalExecutionTime
               averageTaskTime := w.stats.averageTaskTime
               errors := w.stats.errors } }

/-- The object `getPoolStatus()` returns. It has these six properties and no other. -/
structure PoolStatus where
  totalWorkers : Nat
  availableWorkers : Nat
  busyWorkers : Nat
  queuedTasks : Nat
  stats : PoolStats
  workers : List WorkerStatus
deriving DecidableEq, Repr

/-- The method `getPoolStatus()`; `this.workers.map(worker => worker.getStatus())` reads each
worker object of `workers` from the heap. -/
def AdvancedWorkerPool.getPoolStatus (p : AdvancedWorkerPool) : PoolStatus :=
  { totalWorkers := p.maxSize
    availableWorkers := p.availableWorkers.length
    busyWorkers := p.busyWorkers.length
    queuedTasks := p.taskQueue.length
    stats := p.stats
    workers := p.workers.filterMap (fun worker =>
      (p.heap[worker]?).map UltraThinkWorker.getStatus) }

/-- The read `poolStatus.resourceUtilization`. The object `getPoolStatus()` builds has no
property of that name (the gauge is at `poolStatus.stats.resourceUtilization`), so the read
yields `undefined`, here `none`. -/
def PoolStatus.resourceUtilization (_poolStatus : PoolStatus) : Option ℚ :=
  none

/-- The comparison `x > y` where `x` may be `undefined`: `undefined` converts to `NaN` and the
comparison is false. -/
def jsGreater (x : Option ℚ) (y : ℚ) : Bool :=
  match x with
  | some q => decide (q > y)
  | none => false

/-- The comparison `x < y` where `x` may be `undefined`. -/
def jsLess (x : Option ℚ) (y : ℚ) : Bool :=
  match x with
  | some q => decide (q < y)
  | none => false

/-! ## IntelligentScheduler -/

/-- The object `recordExecution` pushes on `taskHistory`. -/
structure ExecutionRecord where
  timestamp : Nat
  taskData : TaskData
  schedulingDecision : SchedulingDecision
  result : Result
  totalDuration : ℚ
  success : Bool
deriving DecidableEq, Repr

/-- A value of the `performanceCache` map. -/
structure PerformanceCacheEntry where
  averageDuration : ℚ
  successRate : ℚ
  executions : Nat
deriving DecidableEq, Repr

/-- The fields of an `IntelligentScheduler` instance the methods read or write; the map
`performanceCache` is kept as the list of its entries in insertion order. -/
structure IntelligentScheduler where
  workerPool : AdvancedWorkerPool
  taskHistory : List ExecutionRecord
  performanceCache : List (String × PerformanceCacheEntry)

/-- The `constructor(workerPool)`. -/
def IntelligentScheduler.new (workerPool : AdvancedWorkerPool) : IntelligentScheduler :=
  { workerPool := workerPool, taskHistory := [], performanceCache := [] }

/-- The method `calculateWorkerScore(worker, taskData)`; `worker` is a status object. -/
def IntelligentScheduler.calculateWorkerScore (s : IntelligentScheduler) (worker : WorkerStatus)
    (_taskData : TaskData) : ℚ :=
  let score : ℚ := 0
  let score : ℚ :=
    if worker.stats.averageTaskTime > 0 then
      let avgTime := worker.stats.averageTaskTime
      score + max 0 (100 - avgTime) * 0.3
    else score
  let reliability : ℚ :=
    if worker.stats.tasksCompleted > 0 then
      1 - (worker.stats.errors : ℚ) / (worker.stats.tasksCompleted : ℚ)
    else 1
  let score : ℚ := score + reliability * 100 * 0.4
  let loadFactor : ℚ :=
    (worker.stats.tasksCompleted : ℚ) / ((max 1 s.taskHistory.length : Nat) : ℚ)
  score + (1 - loadFactor) * 100 * 0.3

/-- One iteration of the `for` loop of `selectOptimalWorker` on the pair
`(optimalWorker, bestScore)`. -/
def IntelligentScheduler.considerWorker (s : IntelligentScheduler) (taskData : TaskData)
    (best : Option WorkerStatus × ℚ) (worker : WorkerStatus) : Option WorkerStatus × ℚ :=
  if worker.busy then best
  else
    let score := s.calculateWorkerScore worker taskData
    if score > best.2 then (some worker, score) else best

/-- The loop of `selectOptimalWorker` over the workers of a pool status, started with
`optimalWorker = null` and `bestScore = -1`. -/
def IntelligentScheduler.scanWorkers (s : IntelligentScheduler) (taskData : TaskData)
    (workers : List WorkerStatus) : Option WorkerStatus × ℚ :=
  workers.foldl (s.considerWorker taskData) (none, -1)

/-- The value `optimalWorker?.workerId || 'any'`. -/
def workerHint (optimalWorker : Option WorkerStatus) : String :=
  match optimalWorker with
  | some worker => if worker.workerId = "" then "any" else worker.workerId
  | none => "any"

/-- The method `selectOptimalWorker(taskData)` on a given pool status. -/
def IntelligentScheduler.selectOptimalWorkerIn (s : IntelligentScheduler) (taskData : TaskData)
    (poolStatus : PoolStatus) : String :=
  workerHint (s.scanWorkers taskData poolStatus.workers).1

/-- The method `selectOptimalWorker(taskData)`. -/
def IntelligentScheduler.selectOptimalWorker (s : IntelligentScheduler) (taskData : TaskData) :
    String :=
  s.selectOptimalWorkerIn taskData s.workerPool.getPoolStatus

/-- The value of `context?.urgency`. -/
def TaskData.urgency (taskData : TaskData) : Option String :=
  match taskData.context with
  | some context => context.urgency
  | none => none

/-- The method `calculateTaskPriority(taskData)`: three `if` statements in a row, each
assigning `priority`. -/
def IntelligentScheduler.calculateTaskPriority (_s : IntelligentScheduler) (taskData : TaskData) :
    String :=
  let priority := "normal"
  let priority :=
    if taskData.estimatedDuration < 5000 ∧ taskData.resourceRequirements.cpu ≤ 2 then "high"
    else priority
  let priority :=
    if taskData.urgency = some "urgent" ∨ taskData.urgency = some "critical" then "critical"
    else priority
  let priority :=
    if taskData.estimatedDuration > 60000 ∨ taskData.resourceRequirements.cpu ≤ 1 then "low"
    else priority
  priority

/-- The method `predictScalingNeeds(taskData)` on a given pool status. -/
def predictScalingNeedsIn (poolStatus : PoolStatus) : ScalingRecommendation :=
  let utilizationRate := poolStatus.resourceUtilization
  if jsGreater utilizationRate 80 then
    { action := "scale_up", reason := "High resource utilization"
      recommendedWorkers := min (poolStatus.totalWorkers + 2) 16 }
  else if jsLess utilizationRate 20 ∧ poolStatus.totalWorkers > 4 then
    { action := "scale_down", reason := "Low resource utilization"
      recommendedWorkers := max (poolStatus.totalWorkers - 2) 2 }
  else
    { action := "maintain", reason := "Optimal resource utilization"
      recommendedWorkers := poolStatus.totalWorkers }

/-- The method `predictScalingNeeds(taskData)`. -/
def IntelligentScheduler.predictScalingNeeds (s : IntelligentScheduler) (_taskData : TaskData) :
    ScalingRecommendation :=
  predictScalingNeedsIn s.workerPool.getPoolStatus

/-- The score the worker-score formula gives: `0.30 * max(0, 100 - averageTaskTime) +
0.40 * reliability + 0.30 * (1 - tasksCompleted / max(1, h)) * 100`, where `reliability` is
`(1 - errors / tasksCompleted) * 100` if `tasksCompleted > 0` and `100` otherwise. -/
def formulaWorkerScore (averageTaskTime : ℚ) (tasksCompleted errors h : Nat) : ℚ :=
  let reliability : ℚ :=
    if tasksCompleted > 0 then (1 - (errors : ℚ) / (tasksCompleted : ℚ)) * 100 else 100
  0.30 * max 0 (100 - averageTaskTime) + 0.40 * reliability +
    0.30 * (1 - (tasksCompleted : ℚ) / ((max 1 h : Nat) : ℚ)) * 100

/-- A task for examples: urgent, short, one CPU. -/
def urgentSmallTask : TaskData :=
  { id := some "u", type := "job", estimatedDuration := 1000,
    resourceRequirements := { cpu := 1, memory := 64, io := "low" },
    context := some { urgency := some "urgent" } }

/-- The status of a worker that has completed no task. -/
def idleNewStatus : WorkerStatus :=
  (UltraThinkWorker.new "worker-0").getStatus

/-- Three tasks given one after the other to a pool of size 1 by `executeTask`, each completed
before the next is submitted. -/
def threeDirect : List PoolEvent :=
  [.executeTask (exampleTask "a") "normal", .workerSettles 0, .runTaskResumes 0,
   .executeTask (exampleTask "b") "normal", .workerSettles 0, .runTaskResumes 0,
   .executeTask (exampleTask "c") "normal", .workerSettles 0, .runTaskResumes 0]

/-- Three rounds of two tasks given to a pool of size 2 by `executeTask`, both completed before
the next round. -/
def sixDirect : List PoolEvent :=
  [.executeTask (exampleTask "a") "normal", .executeTask (exampleTask "b") "normal",
   .workerSettles 1, .runTaskResumes 1, .workerSettles 0, .runTaskResumes 0,
   .executeTask (exampleTask "c") "normal", .executeTask (exampleTask "d") "normal",
   .workerSettles 1, .runTaskResumes 1, .workerSettles 0, .runTaskResumes 0,
   .executeTask (exampleTask "e") "normal", .executeTask (exampleTask "f") "normal",
   .workerSettles 1, .runTaskResumes 1, .workerSettles 0, .runTaskResumes 0]

/-- The status of an idle worker that has completed three tasks without error in no time. -/
def idleUsedStatus (workerId : String) : WorkerStatus :=
  { workerId := workerId, busy := false, currentTask := none,
    stats := { tasksCompleted := 3, totalExecutionTime := 0, averageTaskTime := 0, errors := 0 } }

/-! ## Objects and references: what `getStatus()` shares with the worker -/

/-- A value a property of a worker, of its `stats` or of a status object holds; an object is
held by reference, as its address in the store. -/
inductive JsValue where
  | undefined
  | null
  | boolean (b : Bool)
  | number (q : ℚ)
  | string (s : String)
  | object (address : Nat)
deriving DecidableEq, Repr

/-- An object: its own properties with their values, in creation order. -/
abbrev JsObject := List (String × JsValue)

/-- The store: the objects created so far; the address of an object is its position. -/
abbrev JsHeap := List JsObject

/-- The read `o.key`. -/
def getProperty (o : JsObject) (key : String) : JsValue :=
  match o.lookup key with
  | some v => v
  | none => .undefined

/-- The object `o` after `o.key = v`. -/
def putProperty (o : JsObject) (key : String) (v : JsValue) : JsObject :=
  if o.any (fun kv => kv.1 == key) then o.map (fun kv => if kv.1 = key then (key, v) else kv)
  else o ++ [(key, v)]

/-- The store after the assignment `x.key = v`, where `x` is the object at `address`. -/
def assignProperty (h : JsHeap) (address : Nat) (key : String) (v : JsValue) : JsHeap :=
  match h[address]? with
  | some o => h.set address (putProperty o key v)
  | none => h

/-- The store after a sequence of assignments `(address, key, value)`. -/
def assignAll (h : JsHeap) (writes : List (Nat × String × JsValue)) : JsHeap :=
  writes.foldl (fun h x => assignProperty h x.1 x.2.1 x.2.2) h

/-- The value of a `currentTask` property: a task id or `null`. -/
def currentTaskValue : Option String → JsValue
  | some id => .string id
  | none => .null

/-- The object `this.stats` of a worker with the statistics `stats`. -/
def statsObject (stats : WorkerStats) : JsObject :=
  [("tasksCompleted", .number stats.tasksCompleted),
   ("totalExecutionTime", .number stats.totalExecutionTime),
   ("averageTaskTime", .number stats.averageTaskTime),
   ("errors", .number stats.errors)]

/-- The worker object with the fields of `w`, its `stats` property referring to the object at
`statsAddress`. -/
def workerObject (w : UltraThinkWorker) (statsAddress : Nat) : JsObject :=
  [("workerId", .string w.workerId), ("busy", .boolean w.busy),
   ("currentTask", currentTaskValue w.currentTask), ("stats", .object statsAddress)]

/-- The object with the properties of the status `status`, its `stats` property referring to
the object at `statsAddress`. -/
def statusObject (status : WorkerStatus) (statsAddress : Nat) : JsObject :=
  [("workerId", .string status.workerId), ("busy", .boolean status.busy),
   ("currentTask", currentTaskValue status.currentTask), ("stats", .object statsAddress)]

/-- The method `getStatus()` on the worker object at address `this`: the store after the call
and the address of the object returned. The spread `{ ...this.stats }` creates an object with
the own properties of `this.stats`; the object literal around it creates the object returned,
whose other properties are read from `this`. Nothing is assigned to an existing object. -/
def getStatusObject (h : JsHeap) (this : Nat) : JsHeap × Nat :=
  let worker : JsObject := (h[this]?).getD []
  let statsCopy : JsObject :=
    match getProperty worker "stats" with
    | .object a => (h[a]?).getD []
    | _ => []
  let status : JsObject :=
    [("workerId", getProperty worker "workerId"), ("busy", getProperty worker "busy"),
     ("currentTask", getProperty worker "currentTask"), ("stats", .object h.length)]
  (h ++ [statsCopy, status], h.length + 1)

/-- The assignments by which calls of `executeTask` bring the worker object at `this`, with its
`stats` at `statsAddress`, to the fields of `w`: `executeTask` assigns `this.busy` and
`this.currentTask`, `updateStats` assigns the four properties of `this.stats`, and nothing else
is assigned. -/
def workerWrites (this statsAddress : Nat) (w : UltraThinkWorker) :
    List (Nat × String × JsValue) :=
  [(this, "busy", .boolean w.busy), (this, "currentTask", currentTaskValue w.currentTask),
   (statsAddress, "tasksCompleted", .number w.stats.tasksCompleted),
   (statsAddress, "totalExecutionTime", .number w.stats.totalExecutionTime),
   (statsAddress, "averageTaskTime", .number w.stats.averageTaskTime),
   (statsAddress, "errors", .number w.stats.errors)]

/-- A store with one worker: its `stats` at address 0 and the worker object at address 1. -/
def oneWorkerHeap : JsHeap :=
  [statsObject (UltraThinkWorker.new "worker-0").stats,
   workerObject (UltraThinkWorker.new "worker-0") 0]

/-! ## IntelligentScheduler: strategy, history and cache -/

/-- The method `selectResourceStrategy(taskData)`: it destructures `taskType` from the task
and compares that value. -/
def IntelligentScheduler.selectResourceStrategy (_s : IntelligentScheduler)
    (taskData : TaskData) : String :=
  if taskData.taskType = some "testing" then "parallel_optimized"
  else if taskData.taskType = some "research" then "io_optimized"
  else if taskData.taskType = some "implementation" then "cpu_intensive"
  else "balanced"

/-- The method `makeSchedulingDecision(taskData)`, for a call nothing else runs in between of. -/
def IntelligentScheduler.makeSchedulingDecision (s : IntelligentScheduler)
    (taskData : TaskData) : SchedulingDecision :=
  { workerAssignment := s.selectOptimalWorker taskData
    priority := s.calculateTaskPriority taskData
    resourceStrategy := s.selectResourceStrategy taskData
    scalingRecommendation := s.predictScalingNeeds taskData }

/-- The array `array.slice(-n)`: the last `n` elements, or all of them if there are fewer. -/
def sliceLast {α : Type} (n : Nat) (array : List α) : List α :=
  array.drop (array.length - n)

/-- The key of a task in `performanceCache`: the template string
`type-JSON.stringify(resourceRequirements)`. The serialiser `JSON.stringify` is a built-in of
the language and is taken as the parameter `stringify`. -/
def cacheKey (stringify : ResourceRequirements → String) (taskData : TaskData) : String :=
  taskData.type ++ "-" ++ stringify taskData.resourceRequirements

/-- The call `map.has(key)`. -/
def mapHas (map : List (String × PerformanceCacheEntry)) (key : String) : Bool :=
  map.any (fun kv => kv.1 == key)

/-- The call `map.get(key)`; `none` is `undefined`. -/
def mapGet (map : List (String × PerformanceCacheEntry)) (key : String) :
    Option PerformanceCacheEntry :=
  (map.find? (fun kv => kv.1 == key)).map (fun kv => kv.2)

/-- The map after `map.set(key, value)`: the value of an existing key is replaced in place, a
new key is added at the end. -/
def mapSet (map : List (String × PerformanceCacheEntry)) (key : String)
    (value : PerformanceCacheEntry) : List (String × PerformanceCacheEntry) :=
  if mapHas map key then map.map (fun kv => if kv.1 == key then (key, value) else kv)
  else map ++ [(key, value)]

/-- The three assignments `updatePerformanceCache` makes to the entry `cache` of the key, with
the arithmetic done exactly, over the rationals. The program's numbers are doubles and each
operation rounds: the `successRate` the program itself holds is `successRateInDoubles`, and
what is proved of this definition is proved of the exact values only. -/
def PerformanceCacheEntry.update (cache : PerformanceCacheEntry) (result : Result) :
    PerformanceCacheEntry :=
  let executions := cache.executions + 1
  let averageDuration :=
    (cache.averageDuration * ((executions : ℚ) - 1) + result.executionTime) / (executions : ℚ)
  let successRate := cache.successRate * 0.9 + (if result.success then 1 else 0) * 0.1
  { averageDuration := averageDuration, successRate := successRate, executions := executions }

/-- The method `updatePerformanceCache(taskData, result)`. The entry is an object held by the
map, so the assignments to it are seen through the map. -/
def IntelligentScheduler.updatePerformanceCache (stringify : ResourceRequirements → String)
    (s : IntelligentScheduler) (taskData : TaskData) (result : Result) : IntelligentScheduler :=
  let key := cacheKey stringify taskData
  let performanceCache :=
    if !mapHas s.performanceCache key then
      mapSet s.performanceCache key { averageDuration := 0, successRate := 0, executions := 0 }
    else s.performanceCache
  match mapGet performanceCache key with
  | some cache => { s with performanceCache := mapSet performanceCache key (cache.update result) }
  | none => { s with performanceCache := performanceCache }

/-- The arguments of one call of `recordExecution`, with the reading of `Date.now()` it makes. -/
structure RecordCall where
  taskData : TaskData
  schedulingDecision : SchedulingDecision
  result : Result
  totalDuration : ℚ
  timestamp : Nat
deriving DecidableEq, Repr

/-- The object `executionRecord` a call of `recordExecution` builds. -/
def RecordCall.executionRecord (call : RecordCall) : ExecutionRecord :=
  { timestamp := call.timestamp, taskData := call.taskData
    schedulingDecision := call.schedulingDecision, result := call.result
    totalDuration := call.totalDuration, success := call.result.success }

/-- The method `recordExecution(taskData, schedulingDecision, result, totalDuration)`. -/
def IntelligentScheduler.recordExecution (stringify : ResourceRequirements → String)
    (s : IntelligentScheduler) (call : RecordCall) : IntelligentScheduler :=
  let taskHistory := s.taskHistory ++ [call.executionRecord]
  let taskHistory := if taskHistory.length > 1000 then sliceLast 500 taskHistory else taskHistory
  ({ s with taskHistory := taskHistory }).updatePerformanceCache stringify call.taskData
    call.result

/-- The scheduler after a sequence of `recordExecution` calls. -/
def IntelligentScheduler.recordAll (stringify : ResourceRequirements → String)
    (s : IntelligentScheduler) (calls : List RecordCall) : IntelligentScheduler :=
  calls.foldl (IntelligentScheduler.recordExecution stringify) s

/-- The scheduler after a sequence of `updatePerformanceCache` calls. -/
def IntelligentScheduler.updateAll (stringify : ResourceRequirements → String)
    (s : IntelligentScheduler) (updates : List (TaskData × Result)) : IntelligentScheduler :=
  updates.foldl (fun s u => s.updatePerformanceCache stringify u.1 u.2) s

/-- The method `calculateCacheHitRate()`. -/
def IntelligentScheduler.calculateCacheHitRate (stringify : ResourceRequirements → String)
    (s : IntelligentScheduler) : ℚ :=
  let recentExecutions := sliceLast 50 s.taskHistory
  let hits : Nat := recentExecutions.foldl (fun hits execution =>
    if mapHas s.performanceCache (cacheKey stringify execution.taskData) then hits + 1
    else hits) 0
  (hits : ℚ) / ((max 1 recentExecutions.length : Nat) : ℚ)

/-- The method `calculateSchedulingEfficiency()`. A number that may be `NaN` is an `Option`:
arithmetic on the `undefined` read of `poolStatus.resourceUtilization` gives `NaN`, and so does
all arithmetic on `NaN`. -/
def IntelligentScheduler.calculateSchedulingEfficiency (s : IntelligentScheduler) : Option ℚ :=
  let poolStatus := s.workerPool.getPoolStatus
  let loadBalance : Option ℚ :=
    poolStatus.resourceUtilization.map (fun utilization => 1 - |50 - utilization| / 50)
  let taskSuccessRate : ℚ :=
    (poolStatus.stats.completedTasks : ℚ) / ((max 1 poolStatus.stats.totalTasks : Nat) : ℚ)
  let averageWaitTime : ℚ := max 0 (100 - poolStatus.stats.averageWaitTime / 10)
  loadBalance.map (fun loadBalance => (loadBalance + taskSuccessRate + averageWaitTime / 100) / 3)

/-- A task of type `testing`, as the data model has it: no property `taskType`. -/
def testingTask : TaskData :=
  { id := some "t", type := "testing", estimatedDuration := 4000,
    resourceRequirements := { cpu := 2, memory := 512, io := "medium" } }

/-- The entry a key has after the results `results` were recorded for it, starting from the
entry `updatePerformanceCache` creates for a new key. -/
def entryAfter (results : List Result) : PerformanceCacheEntry :=
  results.foldl PerformanceCacheEntry.update
    { averageDuration := 0, successRate := 0, executions := 0 }

/-- The results recorded for the key `key` among a sequence of updates, in order. -/
def resultsFor (stringify : ResourceRequirements → String) (key : String)
    (updates : List (TaskData × Result)) : List Result :=
  (updates.filter (fun u => cacheKey stringify u.1 = key)).map (fun u => u.2)

/-- The recurrence `r_0 = 0`, `r_i = 0.9 * r_(i-1) + 0.1 * s_i` on a sequence of outcomes
(`true` is 1, `false` is 0): the value `r_n`. -/
def successRateRecurrence (outcomes : List Bool) : ℚ :=
  outcomes.foldl (fun r s => 0.9 * r + 0.1 * (if s then 1 else 0)) 0

/-- A serialiser for examples: the three values of the profile, separated by commas. -/
def exampleStringify (r : ResourceRequirements) : String :=
  toString r.cpu ++ "," ++ toString r.memory ++ "," ++ r.io

/-- A successful result for examples, with the given execution time. -/
def okResult (executionTime : ℚ) : Result :=
  { success := true, data := none, error := none, executionTime := executionTime,
    workerId := "worker-0" }

/-- A failed result for examples, with the given execution time. -/
def failedResult (executionTime : ℚ) : Result :=
  { success := false, data := none, error := some "failed", executionTime := executionTime,
    workerId := "worker-0" }

/-- Ten updates for one signature: eight successes, then two failures. -/
def tenUpdates : List (TaskData × Result) :=
  List.replicate 8 (exampleTask "a", okResult 50) ++
    List.replicate 2 (exampleTask "a", failedResult 50)

/-- The average of the three terms of the scheduling-efficiency formula: `1 - |50 - u| / 50`,
the task success rate `completed / max(1, total)`, and
`max(0, 100 - averageWaitTime / 10) / 100`. -/
def formulaSchedulingEfficiency (u : ℚ) (completed total : Nat) (averageWaitTime : ℚ) : ℚ :=
  ((1 - |50 - u| / 50) + (completed : ℚ) / ((max 1 total : Nat) : ℚ) +
    max 0 (100 - averageWaitTime / 10) / 100) / 3

/-- The accounting equation of the pool on the suspended `runTask` calls: every submitted task
is completed, in flight or queued. -/
def Tallied (p : AdvancedWorkerPool) : Prop :=
  p.stats.totalTasks = p.stats.completedTasks + p.running.length + p.taskQueue.length

/-! ## IntelligentScheduler: scheduleTask -/

/-- A call of `scheduleTask(taskData)` suspended at `await this.workerPool.executeTask(...)`:
its locals and the handle of the promise it waits for. -/
structure ScheduleCall where
  taskData : TaskData
  startTime : ℚ
  schedulingDecision : SchedulingDecision
  handle : Nat
deriving DecidableEq, Repr

/-- The method `scheduleTask(taskData)` up to its `await` of the pool's promise, for a call
nothing else runs in between of: it makes the decision and gives the pool the task with the
decision added, at the priority decided. `startTime` is its reading of `performance.now()`. -/
def IntelligentScheduler.scheduleTaskSubmit (clock : Nat → ℚ) (s : IntelligentScheduler)
    (taskData : TaskData) (startTime : ℚ) : IntelligentScheduler × ScheduleCall :=
  let schedulingDecision := s.makeSchedulingDecision taskData
  let handle := s.workerPool.promises
  let workerPool := s.workerPool.executeTask clock
    { taskData with schedulingDecision := some schedulingDecision } schedulingDecision.priority
  ({ s with workerPool := workerPool },
   { taskData := taskData, startTime := startTime, schedulingDecision := schedulingDecision,
     handle := handle })

/-- Events of the pool of a scheduler. -/
def IntelligentScheduler.poolEvents (clock : Nat → ℚ) (s : IntelligentScheduler)
    (evs : List PoolEvent) : IntelligentScheduler :=
  { s with workerPool := s.workerPool.run clock evs }

/-- The rest of `scheduleTask` once the pool has settled the promise of the call: on a
resolved promise it records the execution and returns the result (`endTime` and `timestamp`
are its readings of `performance.now()` and `Date.now()`); on a rejected one it throws. While
the promise is pending the call stays suspended (`none`). -/
def IntelligentScheduler.scheduleTaskResume (stringify : ResourceRequirements → String)
    (s : IntelligentScheduler) (call : ScheduleCall) (endTime : ℚ) (timestamp : Nat) :
    Option (Except String (IntelligentScheduler × Result)) :=
  match s.workerPool.resolved.find? (fun x => x.1 = call.handle) with
  | some (_, result) =>
    some (.ok (s.recordExecution stringify
      { taskData := call.taskData, schedulingDecision := call.schedulingDecision
        result := result, totalDuration := endTime - call.startTime, timestamp := timestamp },
      result))
  | none =>
    match s.workerPool.rejected.find? (fun x => x.1 = call.handle) with
    | some (_, message) => some (.error message)
    | none => none

/-! ## The arithmetic of the program: IEEE 754 doubles -/

/-- The IEEE 754 double (binary64) nearest to the rational `q`, the tie going to the even
significand, as a rational: with `e` the binary exponent of `q` (not below that of the smallest
normal double), `q` is rounded to a multiple of `2 ^ (e - 52)`. Beyond the range of the
doubles, where the program's number is an infinity, the value is not meant. -/
def roundDouble (q : ℚ) : ℚ :=
  if q = 0 then 0
  else
    let e : ℤ := max (Int.log 2 |q|) (-1022)
    let ulp : ℚ := 2 ^ (e - 52)
    let n : ℚ := q / ulp
    let f : ℤ := ⌊n⌋
    let r : ℚ := n - f
    let m : ℤ := if r < 1 / 2 then f else if 1 / 2 < r then f + 1
      else if f % 2 = 0 then f else f + 1
    (m : ℚ) * ulp

/-- The assignment `cache.successRate = cache.successRate * 0.9 + (result.success ? 1 : 0) *
0.1` as the program computes it: `0.9` and `0.1` are the doubles nearest to them, and each
product and the sum are rounded to a double. -/
def successRateInDoubles (successRate : ℚ) (success : Bool) : ℚ :=
  roundDouble (roundDouble (successRate * roundDouble 0.9) +
    roundDouble ((if success then 1 else 0) * roundDouble 0.1))

/-- The `successRate` the program holds for a new signature after the outcomes `outcomes`
were recorded for it, in order. -/
def cachedRateInDoubles (outcomes : List Bool) : ℚ :=
  outcomes.foldl successRateInDoubles 0

/-- A clock for examples whose successive readings differ: the `n`-th reading is `n ^ 2`. -/
def squareClock : Nat → ℚ := fun n => (n : ℚ) ^ 2

/-- The wrapper `t` is the one made by a call of `executeTask` of the run `evs`: the call was
made in the state reached by the events `evs1` before it, `t` has the handle, the task data
and the priority of that call, and `t.startTime` is the clock reading the call made, the
reading numbered by the count of readings made before it. -/
def SubmittedIn (N : Nat) (clock : Nat → ℚ) (evs : List PoolEvent) (t : TaskWrapper) : Prop :=
  ∃ evs1 td pr evs2, evs = evs1 ++ PoolEvent.executeTask td pr :: evs2 ∧
    t.handle = (reached N clock evs1).promises ∧ t.taskData = td ∧ t.priority = pr ∧
    t.startTime = clock (reached N clock evs1).clockReads

/-- The entry `d` of the dispatch log was made by the admission pass of one event `e` of the
run `evs` (it is in the log after `e` and not before), and the wait time it carries is the
clock reading that pass made for it minus the task's `startTime`: the pass of a submission
reads the clock after the submission has read it, the pass of a resumed `runTask` reads it
first. -/
def DispatchedIn (N : Nat) (clock : Nat → ℚ) (evs : List PoolEvent) (d : Dispatch) : Prop :=
  ∃ evs3 e evs4, evs = evs3 ++ e :: evs4 ∧
    d ∉ (reached N clock evs3).dispatchLog ∧ d ∈ (reached N clock (evs3 ++ [e])).dispatchLog ∧
    d.task.waitTime =
      clock ((reached N clock evs3).clockReads + (if e.isSubmission then 1 else 0)) -
        d.task.startTime

end UltraThink

/-! # Theorems -/

namespace UltraThink

/-! ## The worker -/

theorem UltraThinkWorker.worker_run_cons (w : UltraThinkWorker) (e : WorkerEvent)
    (evs : List WorkerEvent) : w.run (e :: evs) = (w.step e).run evs := rfl

theorem UltraThinkWorker.step_start_stats (w : UltraThinkWorker) (taskData : TaskData) :
    (w.step (.start taskData)).stats = w.stats := rfl

theorem UltraThinkWorker.step_settle_stats (w : UltraThinkWorker)
    (outcome : Except String RoutineOutput) (duration : ℚ) :
    (w.step (.settle outcome duration)).stats.tasksCompleted = w.stats.tasksCompleted + 1 ∧
    (w.step (.settle outcome duration)).stats.totalExecutionTime =
      w.stats.totalExecutionTime + duration ∧
    (w.step (.settle outcome duration)).stats.averageTaskTime =
      (w.step (.settle outcome duration)).stats.totalExecutionTime /
        ((w.step (.settle outcome duration)).stats.tasksCompleted : ℚ) := by
  cases outcome <;>
    simp [UltraThinkWorker.step, UltraThinkWorker.finishTask, UltraThinkWorker.updateStats,
      UltraThinkWorker.release]

/-- Counters after a run: every settled call adds one task and its duration. -/
theorem UltraThinkWorker.run_counters (evs : List WorkerEvent) :
    ∀ w : UltraThinkWorker,
      (w.run evs).stats.tasksCompleted =
        w.stats.tasksCompleted + (completedDurations evs).length ∧
      (w.run evs).stats.totalExecutionTime =
        w.stats.totalExecutionTime + (completedDurations evs).sum := by
  induction evs with
  | nil => intro w; simp [UltraThinkWorker.run, completedDurations]
  | cons e evs ih =>
    intro w
    rw [UltraThinkWorker.worker_run_cons]
    cases e with
    | start taskData =>
      have h := ih (w.step (.start taskData))
      rw [UltraThinkWorker.step_start_stats] at h
      simpa [completedDurations] using h
    | settle outcome duration =>
      have h := ih (w.step (.settle outcome duration))
      obtain ⟨h1, h2, _⟩ := UltraThinkWorker.step_settle_stats w outcome duration
      rw [h1, h2] at h
      refine ⟨?_, ?_⟩
      · rw [h.1]; simp [completedDurations]; omega
      · rw [h.2]; simp [completedDurations]; ring

/-- The average is the quotient of the two counters, once it holds it keeps holding. -/
theorem UltraThinkWorker.run_average_keeps (evs : List WorkerEvent) :
    ∀ w : UltraThinkWorker,
      w.stats.averageTaskTime = w.stats.totalExecutionTime / (w.stats.tasksCompleted : ℚ) →
      (w.run evs).stats.averageTaskTime =
        (w.run evs).stats.totalExecutionTime / ((w.run evs).stats.tasksCompleted : ℚ) := by
  induction evs with
  | nil => intro w h; exact h
  | cons e evs ih =>
    intro w h
    rw [UltraThinkWorker.worker_run_cons]
    cases e with
    | start taskData => exact ih _ (by rw [UltraThinkWorker.step_start_stats]; exact h)
    | settle outcome duration =>
      exact ih _ (UltraThinkWorker.step_settle_stats w outcome duration).2.2

/-- After at least one settled call the average is the quotient of the two counters. -/
theorem UltraThinkWorker.run_average (evs : List WorkerEvent) :
    ∀ w : UltraThinkWorker, completedDurations evs ≠ [] →
      (w.run evs).stats.averageTaskTime =
        (w.run evs).stats.totalExecutionTime / ((w.run evs).stats.tasksCompleted : ℚ) := by
  induction evs with
  | nil => intro w h; exact absurd rfl h
  | cons e evs ih =>
    intro w h
    rw [UltraThinkWorker.worker_run_cons]
    cases e with
    | start taskData => exact ih _ (by simpa [completedDurations] using h)
    | settle outcome duration =>
      exact UltraThinkWorker.run_average_keeps evs _
        (UltraThinkWorker.step_settle_stats w outcome duration).2.2

/-- The flag and the current task agree after any run whose started tasks carry an id. -/
theorem UltraThinkWorker.run_busy_iff (evs : List WorkerEvent) :
    ∀ w : UltraThinkWorker, (w.busy = true ↔ w.currentTask ≠ none) → startsHaveId evs = true →
      ((w.run evs).busy = true ↔ (w.run evs).currentTask ≠ none) := by
  induction evs with
  | nil => intro w h _; exact h
  | cons e evs ih =>
    intro w h hs
    rw [UltraThinkWorker.worker_run_cons]
    cases e with
    | start taskData =>
      simp only [startsHaveId, Bool.and_eq_true] at hs
      refine ih _ ?_ hs.2
      have hid : taskData.id ≠ none := by
        intro hn; rw [hn] at hs; simp at hs
      simp [UltraThinkWorker.step, UltraThinkWorker.beginTask, hid]
    | settle outcome duration =>
      simp only [startsHaveId] at hs
      refine ih _ ?_ hs
      cases outcome <;>
        simp [UltraThinkWorker.step, UltraThinkWorker.finishTask, UltraThinkWorker.updateStats,
          UltraThinkWorker.release]

/-- C8. Worker statistics consistency: after a worker, starting from its constructor, has
completed `k >= 1` tasks (whether they succeeded or failed, and however the calls overlap) with
measured durations `d_1..d_k`, `tasksCompleted` is `k`, `totalExecutionTime` is the sum of the
durations and `averageTaskTime` is `totalExecutionTime / tasksCompleted` over the rationals. -/
theorem worker_stats_consistent (workerId : String) (evs : List WorkerEvent)
    (hk : 1 ≤ (completedDurations evs).length) :
    ((UltraThinkWorker.new workerId).run evs).stats.tasksCompleted =
        (completedDurations evs).length ∧
    ((UltraThinkWorker.new workerId).run evs).stats.totalExecutionTime =
        (completedDurations evs).sum ∧
    ((UltraThinkWorker.new workerId).run evs).stats.averageTaskTime =
        ((UltraThinkWorker.new workerId).run evs).stats.totalExecutionTime /
          (((UltraThinkWorker.new workerId).run evs).stats.tasksCompleted : ℚ) ∧
    ((UltraThinkWorker.new workerId).run evs).stats.averageTaskTime =
        (completedDurations evs).sum / ((completedDurations evs).length : ℚ) := by
  have hc := UltraThinkWorker.run_counters evs (UltraThinkWorker.new workerId)
  have hne : completedDurations evs ≠ [] := by
    intro h; rw [h] at hk; simp at hk
  have ha := UltraThinkWorker.run_average evs (UltraThinkWorker.new workerId) hne
  have h1 : ((UltraThinkWorker.new workerId).run evs).stats.tasksCompleted =
      (completedDurations evs).length := by
    rw [hc.1]; simp [UltraThinkWorker.new]
  have h2 : ((UltraThinkWorker.new workerId).run evs).stats.totalExecutionTime =
      (completedDurations evs).sum := by
    rw [hc.2]; simp [UltraThinkWorker.new]
  refine ⟨h1, h2, ha, ?_⟩
  rw [ha, h1, h2]

/-- C8 at a concrete run: a success of 30 ms and a failure of 50 ms. -/
theorem worker_stats_consistent_witness :
    1 ≤ (completedDurations
          [.start (exampleTask "a"), .settle (.ok { taskType := "generic" }) 30,
           .start (exampleTask "b"), .settle (.error "boom") 50]).length ∧
    ((UltraThinkWorker.new "worker-0").run
          [.start (exampleTask "a"), .settle (.ok { taskType := "generic" }) 30,
           .start (exampleTask "b"), .settle (.error "boom") 50]).stats.tasksCompleted = 2 :=
  ⟨by decide,
   (worker_stats_consistent "worker-0"
      [.start (exampleTask "a"), .settle (.ok { taskType := "generic" }) 30,
       .start (exampleTask "b"), .settle (.error "boom") 50] (by decide)).1⟩

/-- C9. Task failure is a value: for every worker, task and pair of clock readings,
`executeTask` completes normally (it does not throw) and `tasksCompleted` grows by exactly one.
When the routine it runs for the task throws a value with message `e`, its result is
`{success: false, error: e, executionTime, workerId}` and `errors` grows by exactly one; when
the routine returns `data`, its result is `{success: true, data, executionTime, workerId}` and
`errors` is unchanged; `executionTime` is the difference of the two readings. Both cases occur:
a task of type `analysis` gives the first, a task of type `job` the second. The same holds of
the part of `executeTask` after its `await` for every outcome a routine may have. -/
theorem worker_executeTask_never_throws (w : UltraThinkWorker) (taskData : TaskData)
    (outcome : Except String RoutineOutput) (duration startTime endTime : ℚ) :
    (∃ w1 r, (w.beginTask taskData).finishTask outcome duration = .ok (w1, r) ∧
      w1.stats.tasksCompleted = w.stats.tasksCompleted + 1 ∧
      match outcome with
      | .error e =>
        r = { success := false, data := none, error := some e, executionTime := duration,
              workerId := w.workerId } ∧
        w1.stats.errors = w.stats.errors + 1
      | .ok data =>
        r = { success := true, data := some data, error := none, executionTime := duration,
              workerId := w.workerId } ∧
        w1.stats.errors = w.stats.errors) ∧
    (∃ w1 r, w.executeTask taskData startTime endTime = .ok (w1, r) ∧
      w1.stats.tasksCompleted = w.stats.tasksCompleted + 1 ∧
      w1.stats.totalExecutionTime = w.stats.totalExecutionTime + (endTime - startTime) ∧
      w1.busy = false ∧ w1.currentTask = none ∧
      match (w.beginTask taskData).simulateTaskExecution taskData with
      | .error e =>
        r = { success := false, data := none, error := some e,
              executionTime := endTime - startTime, workerId := w.workerId } ∧
        w1.stats.errors = w.stats.errors + 1
      | .ok data =>
        r = { success := true, data := some data, error := none,
              executionTime := endTime - startTime, workerId := w.workerId } ∧
        w1.stats.errors = w.stats.errors) ∧
    (∃ w1 r, w.executeTask (failingTask "a") startTime endTime = .ok (w1, r) ∧
      r.success = false ∧ r.error = some "resourceRequirements is not defined" ∧
      w1.stats.errors = w.stats.errors + 1) ∧
    (∃ w1 r data, w.executeTask (exampleTask "a") startTime endTime = .ok (w1, r) ∧
      r.success = true ∧ r.data = some data ∧ data.taskType = "generic" ∧
      w1.stats.errors = w.stats.errors) := by
  have hfinish : ∀ (td : TaskData) (out : Except String RoutineOutput) (d : ℚ),
      ∃ w1 r, (w.beginTask td).finishTask out d = .ok (w1, r) ∧
        w1.stats.tasksCompleted = w.stats.tasksCompleted + 1 ∧
        w1.stats.totalExecutionTime = w.stats.totalExecutionTime + d ∧
        w1.busy = false ∧ w1.currentTask = none ∧
        match out with
        | .error e =>
          r = { success := false, data := none, error := some e, executionTime := d,
                workerId := w.workerId } ∧
          w1.stats.errors = w.stats.errors + 1
        | .ok data =>
          r = { success := true, data := some data, error := none, executionTime := d,
                workerId := w.workerId } ∧
          w1.stats.errors = w.stats.errors := by
    intro td out d
    cases out with
    | error e => exact ⟨_, _, rfl, rfl, rfl, rfl, rfl, rfl, by
        simp [UltraThinkWorker.updateStats, UltraThinkWorker.release,
          UltraThinkWorker.beginTask]⟩
    | ok data => exact ⟨_, _, rfl, rfl, rfl, rfl, rfl, rfl, by
        simp [UltraThinkWorker.updateStats, UltraThinkWorker.release,
          UltraThinkWorker.beginTask]⟩
  refine ⟨?_, ?_, ?_, ?_⟩
  · obtain ⟨w1, r, h1, h2, _, _, _, h6⟩ := hfinish taskData outcome duration
    exact ⟨w1, r, h1, h2, h6⟩
  · exact hfinish taskData ((w.beginTask taskData).simulateTaskExecution taskData)
      (endTime - startTime)
  · obtain ⟨w1, r, h1, _, _, _, _, h6⟩ := hfinish (failingTask "a")
      ((w.beginTask (failingTask "a")).simulateTaskExecution (failingTask "a"))
      (endTime - startTime)
    have hs : (w.beginTask (failingTask "a")).simulateTaskExecution (failingTask "a") =
        .error "resourceRequirements is not defined" := rfl
    rw [hs] at h6
    refine ⟨w1, r, h1, ?_, ?_, h6.2⟩
    · rw [h6.1]
    · rw [h6.1]
  · obtain ⟨w1, r, h1, _, _, _, _, h6⟩ := hfinish (exampleTask "a")
      ((w.beginTask (exampleTask "a")).simulateTaskExecution (exampleTask "a"))
      (endTime - startTime)
    have hs : (w.beginTask (exampleTask "a")).simulateTaskExecution (exampleTask "a") =
        .ok { taskType := "generic"
              result := some ("Completed " ++ (exampleTask "a").type ++ " task successfully")
              executionTime := some (exampleTask "a").estimatedDuration
              workerId := some (w.beginTask (exampleTask "a")).workerId } := by
      simp [UltraThinkWorker.simulateTaskExecution, UltraThinkWorker.simulateGenericTask,
        exampleTask]
    rw [hs] at h6
    refine ⟨w1, r,
      { taskType := "generic"
        result := some ("Completed " ++ (exampleTask "a").type ++ " task successfully")
        executionTime := some (exampleTask "a").estimatedDuration
        workerId := some (w.beginTask (exampleTask "a")).workerId },
      h1, ?_, ?_, rfl, h6.2⟩
    · rw [h6.1]
    · rw [h6.1]

/-- C10. Busy flag consistency: for every worker made by the constructor and every sequence of
`executeTask` calls (overlapping or not) on tasks with a non-null id, in the state after every
step `busy` is true exactly when `currentTask` is not null; and right after a call returns,
whether its routine succeeded or threw, `busy` is false and `currentTask` is null. -/
theorem worker_busy_consistent (workerId : String) (evs : List WorkerEvent)
    (hid : startsHaveId evs = true) :
    (((UltraThinkWorker.new workerId).run evs).busy = true ↔
      ((UltraThinkWorker.new workerId).run evs).currentTask ≠ none) ∧
    ∀ (outcome : Except String RoutineOutput) (duration : ℚ),
      (((UltraThinkWorker.new workerId).run evs).step (.settle outcome duration)).busy = false ∧
      (((UltraThinkWorker.new workerId).run evs).step (.settle outcome duration)).currentTask =
        none := by
  refine ⟨UltraThinkWorker.run_busy_iff evs _ (by simp [UltraThinkWorker.new]) hid, ?_⟩
  intro outcome duration
  cases outcome <;>
    simp [UltraThinkWorker.step, UltraThinkWorker.finishTask, UltraThinkWorker.updateStats,
      UltraThinkWorker.release]

/-- C10 at a concrete run: while the task is in flight the worker is busy with it. -/
theorem worker_busy_consistent_witness :
    startsHaveId [.start (exampleTask "a")] = true ∧
    (((UltraThinkWorker.new "worker-0").run [.start (exampleTask "a")]).busy = true ↔
      ((UltraThinkWorker.new "worker-0").run [.start (exampleTask "a")]).currentTask ≠ none) :=
  ⟨by decide, (worker_busy_consistent "worker-0" [.start (exampleTask "a")] (by decide)).1⟩

end UltraThink

namespace UltraThink

/-! ## The pool: generic induction principles -/

theorem AdvancedWorkerPool.run_nil (clock : Nat → ℚ) (p : AdvancedWorkerPool) :
    p.run clock [] = p := rfl

theorem AdvancedWorkerPool.run_cons (clock : Nat → ℚ) (p : AdvancedWorkerPool) (e : PoolEvent)
    (evs : List PoolEvent) : p.run clock (e :: evs) = (p.step clock e).run clock evs := rfl

theorem AdvancedWorkerPool.run_append (clock : Nat → ℚ) (p : AdvancedWorkerPool)
    (evs evs2 : List PoolEvent) :
    p.run clock (evs ++ evs2) = (p.run clock evs).run clock evs2 := by
  simp [AdvancedWorkerPool.run, List.foldl_append]

/-- A property kept by every iteration of the admission loop is kept by the loop. -/
theorem AdvancedWorkerPool.admissionLoop_induct {P : AdvancedWorkerPool → Prop} (clock : Nat → ℚ)
    (hd : ∀ p tw rest w, P p → p.taskQueue = tw :: rest → p.availableWorkers.getLast? = some w →
      P (p.dispatch clock tw rest w)) :
    ∀ q p, p.taskQueue = q → P p → P (AdvancedWorkerPool.admissionLoop clock q p) := by
  intro q
  induction q with
  | nil =>
    intro p hq hp
    have : ({ p with taskQueue := [] } : AdvancedWorkerPool) = p := by
      cases p; simp_all
    simpa [AdvancedWorkerPool.admissionLoop, this] using hp
  | cons tw rest ih =>
    intro p hq hp
    unfold AdvancedWorkerPool.admissionLoop
    cases hw : p.availableWorkers.getLast? with
    | none =>
      have : ({ p with taskQueue := tw :: rest } : AdvancedWorkerPool) = p := by
        cases p; simp_all
      simpa [this] using hp
    | some w =>
      exact ih _ rfl (hd p tw rest w hp hq hw)

/-- A property kept by the loop iteration and by the gauges is kept by `processTaskQueue`. -/
theorem AdvancedWorkerPool.processTaskQueue_induct {P : AdvancedWorkerPool → Prop}
    (clock : Nat → ℚ)
    (hd : ∀ p tw rest w, P p → p.taskQueue = tw :: rest → p.availableWorkers.getLast? = some w →
      P (p.dispatch clock tw rest w))
    (hg : ∀ p, P p → P p.updateGauges) (p : AdvancedWorkerPool) (hp : P p) :
    P (p.processTaskQueue clock) :=
  hg _ (AdvancedWorkerPool.admissionLoop_induct clock hd _ p rfl hp)

/-- A property kept by each piece of the pool's code is kept by every event. -/
theorem AdvancedWorkerPool.step_induct {P : AdvancedWorkerPool → Prop} (clock : Nat → ℚ)
    (he : ∀ p td pr, P p → P (p.enqueue clock td pr))
    (hd : ∀ p tw rest w, P p → p.taskQueue = tw :: rest → p.availableWorkers.getLast? = some w →
      P (p.dispatch clock tw rest w))
    (hg : ∀ p, P p → P p.updateGauges)
    (hs : ∀ p w, P p → P (p.workerSettles clock w))
    (hc : ∀ p r, P p → r ∈ p.running → r.result.isSome = true →
      P ((p.complete r).releaseWorker r.worker))
    (hx : ∀ p, P p → P p.shutdown) :
    ∀ p e, P p → P (p.step clock e) := by
  intro p e hp
  cases e with
  | executeTask td pr =>
    exact AdvancedWorkerPool.processTaskQueue_induct clock hd hg _ (he p td pr hp)
  | workerSettles w => exact hs p w hp
  | runTaskResumes w =>
    show P (p.runTaskResumes clock w)
    unfold AdvancedWorkerPool.runTaskResumes
    cases hf : p.running.find? (fun r => r.worker = w && r.result.isSome) with
    | none => exact hp
    | some r =>
      have hmem := List.mem_of_find?_eq_some hf
      have hpr := List.find?_some hf
      simp only [Bool.and_eq_true, decide_eq_true_eq] at hpr
      have := hc p r hp hmem hpr.2
      rw [hpr.1] at this
      exact AdvancedWorkerPool.processTaskQueue_induct clock hd hg _ this
  | shutdown => exact hx p hp

/-- The induction principle of `step_induct` for one given event. -/
theorem AdvancedWorkerPool.step_induct_at {P : AdvancedWorkerPool → Prop} (clock : Nat → ℚ)
    (e : PoolEvent)
    (he : ∀ p td pr, e = .executeTask td pr → P p → P (p.enqueue clock td pr))
    (hd : ∀ p tw rest w, P p → p.taskQueue = tw :: rest → p.availableWorkers.getLast? = some w →
      P (p.dispatch clock tw rest w))
    (hg : ∀ p, P p → P p.updateGauges)
    (hs : ∀ p w, e = .workerSettles w → P p → P (p.workerSettles clock w))
    (hc : ∀ p r, e = .runTaskResumes r.worker → P p → r ∈ p.running → r.result.isSome = true →
      P ((p.complete r).releaseWorker r.worker))
    (hx : ∀ p, e = .shutdown → P p → P p.shutdown) :
    ∀ p, P p → P (p.step clock e) := by
  intro p hp
  cases e with
  | executeTask td pr =>
    exact AdvancedWorkerPool.processTaskQueue_induct clock hd hg _ (he p td pr rfl hp)
  | workerSettles w => exact hs p w rfl hp
  | runTaskResumes w =>
    show P (p.runTaskResumes clock w)
    unfold AdvancedWorkerPool.runTaskResumes
    cases hf : p.running.find? (fun r => r.worker = w && r.result.isSome) with
    | none => exact hp
    | some r =>
      have hmem := List.mem_of_find?_eq_some hf
      have hpr := List.find?_some hf
      simp only [Bool.and_eq_true, decide_eq_true_eq] at hpr
      have := hc p r (by rw [hpr.1]) hp hmem hpr.2
      rw [hpr.1] at this
      exact AdvancedWorkerPool.processTaskQueue_induct clock hd hg _ this
  | shutdown => exact hx p rfl hp

/-- A property kept by every event holds after every run. -/
theorem AdvancedWorkerPool.run_induct {P : AdvancedWorkerPool → Prop} (clock : Nat → ℚ)
    (hstep : ∀ p e, P p → P (p.step clock e)) :
    ∀ evs p, P p → P (p.run clock evs) := by
  intro evs
  induction evs with
  | nil => intro p hp; exact hp
  | cons e evs ih => intro p hp; exact ih _ (hstep p e hp)

/-- The pool right after `initialize()`, field by field. -/
theorem AdvancedWorkerPool.initialise_fold (N : Nat) : ∀ n,
    (List.range n).foldl AdvancedWorkerPool.addWorker (AdvancedWorkerPool.new N) =
      { AdvancedWorkerPool.new N with
        workers := List.range n
        availableWorkers := List.range n
        heap := (List.range n).map (fun i => UltraThinkWorker.new ("worker-" ++ toString i)) } := by
  intro n
  induction n with
  | zero => rfl
  | succ n ih =>
    rw [List.range_succ, List.foldl_append, ih]
    simp [AdvancedWorkerPool.addWorker, AdvancedWorkerPool.new]

theorem AdvancedWorkerPool.fresh_eq (N : Nat) :
    AdvancedWorkerPool.fresh N =
      { AdvancedWorkerPool.new N with
        workers := List.range N
        availableWorkers := List.range N
        heap := (List.range N).map (fun i => UltraThinkWorker.new ("worker-" ++ toString i)) } :=
  AdvancedWorkerPool.initialise_fold N N

end UltraThink

namespace UltraThink

/-! ## The partition of the workers -/

theorem updateWorker_length (heap : List UltraThinkWorker) (w : Nat)
    (f : UltraThinkWorker → UltraThinkWorker) : (updateWorker heap w f).length = heap.length := by
  unfold updateWorker
  cases heap[w]? <;> simp

theorem setAdd_of_not_mem {s : List Nat} {x : Nat} (h : x ∉ s) : setAdd s x = s ++ [x] := by
  simp [setAdd, h]

theorem setDelete_perm {s : List Nat} {x : Nat} (hs : s.Nodup) (hx : x ∈ s) :
    (x :: setDelete s x).Perm s := by
  have : setDelete s x = s.erase x := by
    unfold setDelete
    rw [hs.erase_eq_filter]
    congr 1
    funext y
    by_cases h : y = x <;> simp [h]
  rw [this]
  exact (List.perm_cons_erase hx).symm

theorem partitioned_fresh (N : Nat) : Partitioned (AdvancedWorkerPool.fresh N) := by
  rw [AdvancedWorkerPool.fresh_eq]
  refine ⟨?_, ?_, ?_, ?_, ?_⟩
  · simpa [AdvancedWorkerPool.new] using List.nodup_range N
  · simp [AdvancedWorkerPool.new]
  · simp [AdvancedWorkerPool.new]
  · simp [AdvancedWorkerPool.new]
  · intro w hw
    simpa [AdvancedWorkerPool.new] using hw

theorem partitioned_dispatch (clock : Nat → ℚ) (p : AdvancedWorkerPool) (tw : TaskWrapper)
    (rest : List TaskWrapper) (w : Nat) (h : Partitioned p)
    (hw : p.availableWorkers.getLast? = some w) : Partitioned (p.dispatch clock tw rest w) := by
  have hav : p.availableWorkers.dropLast ++ [w] = p.availableWorkers :=
    List.dropLast_append_getLast? w hw
  have hnd := h.nodup
  rw [← hav] at hnd
  have hwb : w ∉ p.busyWorkers := by
    intro hmem
    have := (List.nodup_append.1 hnd).2.2
    exact this (by simp) hmem
  have hperm : (p.availableWorkers.dropLast ++ (p.busyWorkers ++ [w])).Perm
      (p.availableWorkers ++ p.busyWorkers) := by
    have : (p.availableWorkers.dropLast ++ (p.busyWorkers ++ [w])).Perm
        ((p.availableWorkers.dropLast ++ [w]) ++ p.busyWorkers) := by
      rw [List.append_assoc]
      exact List.Perm.append_left _ List.perm_append_comm
    rwa [hav] at this
  refine ⟨?_, ?_, ?_, h.size, ?_⟩
  · show (p.availableWorkers.dropLast ++ setAdd p.busyWorkers w).Nodup
    rw [setAdd_of_not_mem hwb]
    exact hperm.nodup_iff.2 h.nodup
  · show (p.availableWorkers.dropLast ++ setAdd p.busyWorkers w).Perm p.workers
    rw [setAdd_of_not_mem hwb]
    exact hperm.trans h.perm
  · show List.map (fun r : RunTask => r.worker) (p.running ++ [_]) = setAdd p.busyWorkers w
    rw [setAdd_of_not_mem hwb, List.map_append, h.running]
    rfl
  · intro x hx
    show x < (updateWorker p.heap w _).length
    rw [updateWorker_length]
    exact h.valid x hx

theorem partitioned_workerSettles (clock : Nat → ℚ) (p : AdvancedWorkerPool) (w : Nat)
    (h : Partitioned p) : Partitioned (p.workerSettles clock w) := by
  unfold AdvancedWorkerPool.workerSettles
  split
  · rename_i r wk _ _
    refine ⟨h.nodup, h.perm, ?_, h.size, ?_⟩
    · show List.map (fun r : RunTask => r.worker) (p.running.map _) = p.busyWorkers
      rw [List.map_map, ← h.running]
      apply List.map_congr_left
      intro x _
      by_cases hx : x.worker = w <;> simp [hx]
    · intro x hx
      have := h.valid x hx
      show x < List.length (match wk.finishTask _ _ with
        | .ok (w1, _) => p.heap.set w w1
        | .error _ => p.heap)
      split <;> simpa using this
  · exact h

theorem partitioned_release (p : AdvancedWorkerPool) (r : RunTask) (h : Partitioned p)
    (hr : r ∈ p.running) : Partitioned ((p.complete r).releaseWorker r.worker) := by
  have hfields : (p.complete r).availableWorkers = p.availableWorkers ∧
      (p.complete r).busyWorkers = p.busyWorkers ∧ (p.complete r).running = p.running ∧
      (p.complete r).workers = p.workers ∧ (p.complete r).maxSize = p.maxSize ∧
      (p.complete r).heap = p.heap := by
    unfold AdvancedWorkerPool.complete
    split <;> simp
  obtain ⟨h1, h2, h3, h4, h5, h6⟩ := hfields
  have hwb : r.worker ∈ p.busyWorkers := by
    rw [← h.running]; exact List.mem_map_of_mem _ hr
  have hbn : p.busyWorkers.Nodup := (List.nodup_append.1 h.nodup).2.1
  have hperm : ((p.availableWorkers ++ [r.worker]) ++ setDelete p.busyWorkers r.worker).Perm
      (p.availableWorkers ++ p.busyWorkers) := by
    rw [List.append_assoc]
    exact List.Perm.append_left _ (setDelete_perm hbn hwb)
  refine ⟨?_, ?_, ?_, ?_, ?_⟩
  · show ((p.complete r).availableWorkers ++ [r.worker] ++
      setDelete (p.complete r).busyWorkers r.worker).Nodup
    rw [h1, h2]
    exact hperm.nodup_iff.2 h.nodup
  · show ((p.complete r).availableWorkers ++ [r.worker] ++
      setDelete (p.complete r).busyWorkers r.worker).Perm (p.complete r).workers
    rw [h1, h2, h4]
    exact hperm.trans h.perm
  · show List.map (fun r : RunTask => r.worker)
        ((p.complete r).running.filter (fun x => x.worker ≠ r.worker)) =
      setDelete (p.complete r).busyWorkers r.worker
    rw [h3, h2, ← h.running]
    unfold setDelete
    rw [List.filter_map]
    rfl
  · show (p.complete r).workers.length ≤ (p.complete r).maxSize
    rw [h4, h5]; exact h.size
  · show ∀ w ∈ (p.complete r).workers, w < (p.complete r).heap.length
    rw [h4, h6]; exact h.valid

theorem partitioned_shutdown (p : AdvancedWorkerPool) (h : Partitioned p) :
    Partitioned p.shutdown := by
  unfold AdvancedWorkerPool.shutdown
  split
  · exact h
  · rename_i hb
    have hb0 : p.busyWorkers = [] := by
      cases hbw : p.busyWorkers with
      | nil => rfl
      | cons a l => rw [hbw] at hb; simp at hb
    refine ⟨by simp, by simp, ?_, by simp, by simp⟩
    show p.running.map (fun r => r.worker) = []
    rw [h.running, hb0]

theorem partitioned_step (clock : Nat → ℚ) :
    ∀ p e, Partitioned p → Partitioned (p.step clock e) :=
  AdvancedWorkerPool.step_induct clock
    (fun _ _ _ h => ⟨h.nodup, h.perm, h.running, h.size, h.valid⟩)
    (fun p tw rest w h _ hw => partitioned_dispatch clock p tw rest w h hw)
    (fun _ h => ⟨h.nodup, h.perm, h.running, h.size, h.valid⟩)
    (fun p w h => partitioned_workerSettles clock p w h)
    (fun p r h hr _ => partitioned_release p r h hr)
    (fun p h => partitioned_shutdown p h)

theorem partitioned_run (clock : Nat → ℚ) (N : Nat) (evs : List PoolEvent) :
    Partitioned ((AdvancedWorkerPool.fresh N).run clock evs) :=
  AdvancedWorkerPool.run_induct clock (partitioned_step clock) evs _ (partitioned_fresh N)

theorem AdvancedWorkerPool.maxSize_step (clock : Nat → ℚ) (N : Nat) :
    ∀ (p : AdvancedWorkerPool) (e : PoolEvent), p.maxSize = N → (p.step clock e).maxSize = N :=
  @AdvancedWorkerPool.step_induct (fun p => p.maxSize = N) clock
    (fun _ _ _ h => h) (fun _ _ _ _ h _ _ => h) (fun _ h => h)
    (fun p w h => by
      unfold AdvancedWorkerPool.workerSettles
      split
      · exact h
      · exact h)
    (fun p r h _ _ => by
      show (p.complete r).maxSize = N
      unfold AdvancedWorkerPool.complete
      split <;> exact h)
    (fun p h => by
      unfold AdvancedWorkerPool.shutdown
      split <;> exact h)

theorem AdvancedWorkerPool.maxSize_run (clock : Nat → ℚ) (N : Nat) (evs : List PoolEvent) :
    ((AdvancedWorkerPool.fresh N).run clock evs).maxSize = N :=
  AdvancedWorkerPool.run_induct clock (AdvancedWorkerPool.maxSize_step clock N) evs _
    (by rw [AdvancedWorkerPool.fresh_eq]; rfl)

end UltraThink

namespace UltraThink

/-! ## Life cycle and the state between two events -/

theorem AdvancedWorkerPool.complete_frame (p : AdvancedWorkerPool) (r : RunTask) :
    (p.complete r).availableWorkers = p.availableWorkers ∧
    (p.complete r).busyWorkers = p.busyWorkers ∧ (p.complete r).running = p.running ∧
    (p.complete r).workers = p.workers ∧ (p.complete r).maxSize = p.maxSize ∧
    (p.complete r).heap = p.heap ∧ (p.complete r).taskQueue = p.taskQueue ∧
    (p.complete r).promises = p.promises ∧ (p.complete r).dispatchLog = p.dispatchLog := by
  unfold AdvancedWorkerPool.complete
  split <;> simp

theorem AdvancedWorkerPool.workerSettles_frame (clock : Nat → ℚ) (p : AdvancedWorkerPool)
    (w : Nat) :
    (p.workerSettles clock w).availableWorkers = p.availableWorkers ∧
    (p.workerSettles clock w).busyWorkers = p.busyWorkers ∧
    (p.workerSettles clock w).workers = p.workers ∧
    (p.workerSettles clock w).taskQueue = p.taskQueue ∧
    (p.workerSettles clock w).stats = p.stats ∧
    (p.workerSettles clock w).resolved = p.resolved ∧
    (p.workerSettles clock w).rejected = p.rejected ∧
    (p.workerSettles clock w).promises = p.promises ∧
    (p.workerSettles clock w).dispatchLog = p.dispatchLog ∧
    (p.workerSettles clock w).running.length = p.running.length := by
  unfold AdvancedWorkerPool.workerSettles
  split <;> simp

theorem lifecycle_step (clock : Nat → ℚ) (N : Nat) :
    ∀ (p : AdvancedWorkerPool) (e : PoolEvent), Partitioned p ∧ Lifecycle N p →
      Partitioned (p.step clock e) ∧ Lifecycle N (p.step clock e) := by
  refine @AdvancedWorkerPool.step_induct (fun p => Partitioned p ∧ Lifecycle N p) clock
    ?_ ?_ ?_ ?_ ?_ ?_
  · intro p td pr h
    exact ⟨⟨h.1.nodup, h.1.perm, h.1.running, h.1.size, h.1.valid⟩, h.2⟩
  · intro p tw rest w h _ hw
    refine ⟨partitioned_dispatch clock p tw rest w h.1 hw, ?_⟩
    rcases h.2 with hl | ⟨_, ha, _, _⟩
    · exact Or.inl hl
    · rw [ha] at hw; simp at hw
  · intro p h
    exact ⟨⟨h.1.nodup, h.1.perm, h.1.running, h.1.size, h.1.valid⟩, h.2⟩
  · intro p w h
    refine ⟨partitioned_workerSettles clock p w h.1, ?_⟩
    obtain ⟨h1, h2, h3, _, _, _, _, _, _, h4⟩ := AdvancedWorkerPool.workerSettles_frame clock p w
    rcases h.2 with hl | ⟨hw, ha, hb, hr⟩
    · exact Or.inl (by rw [h3]; exact hl)
    · refine Or.inr ⟨by rw [h3]; exact hw, by rw [h1]; exact ha, by rw [h2]; exact hb, ?_⟩
      rw [hr] at h4
      exact List.length_eq_zero.1 h4
  · intro p r h hr _
    refine ⟨partitioned_release p r h.1 hr, ?_⟩
    rcases h.2 with hl | ⟨_, _, _, hrun⟩
    · left
      show (p.complete r).workers = List.range N
      rw [(AdvancedWorkerPool.complete_frame p r).2.2.2.1]; exact hl
    · rw [hrun] at hr; simp at hr
  · intro p h
    refine ⟨partitioned_shutdown p h.1, ?_⟩
    unfold AdvancedWorkerPool.shutdown
    split
    · exact h.2
    · rename_i hb
      right
      have hb0 : p.busyWorkers = [] := by
        cases hbw : p.busyWorkers with
        | nil => rfl
        | cons a l => rw [hbw] at hb; simp at hb
      refine ⟨rfl, rfl, rfl, ?_⟩
      have := h.1.running
      rw [hb0] at this
      simpa using this

theorem lifecycle_run (clock : Nat → ℚ) (N : Nat) (evs : List PoolEvent) :
    Lifecycle N ((AdvancedWorkerPool.fresh N).run clock evs) :=
  (@AdvancedWorkerPool.run_induct (fun p => Partitioned p ∧ Lifecycle N p) clock
    (lifecycle_step clock N) evs _
    ⟨partitioned_fresh N, Or.inl (by rw [AdvancedWorkerPool.fresh_eq])⟩).2

theorem AdvancedWorkerPool.admissionLoop_post (clock : Nat → ℚ) :
    ∀ q p, (AdvancedWorkerPool.admissionLoop clock q p).taskQueue = [] ∨
      (AdvancedWorkerPool.admissionLoop clock q p).availableWorkers = [] := by
  intro q
  induction q with
  | nil => intro p; left; rfl
  | cons tw rest ih =>
    intro p
    unfold AdvancedWorkerPool.admissionLoop
    cases hw : p.availableWorkers.getLast? with
    | none => right; exact List.getLast?_eq_none_iff.1 hw
    | some w => exact ih _

theorem settled_processTaskQueue (clock : Nat → ℚ) (p : AdvancedWorkerPool) :
    Settled (p.processTaskQueue clock) := by
  constructor
  · intro hq
    rcases AdvancedWorkerPool.admissionLoop_post clock p.taskQueue p with h | h
    · exact absurd h hq
    · exact h
  · show (AdvancedWorkerPool.admissionLoop clock p.taskQueue p).busyWorkers.length ≤
      max (AdvancedWorkerPool.admissionLoop clock p.taskQueue p).stats.peakConcurrency
        (AdvancedWorkerPool.admissionLoop clock p.taskQueue p).busyWorkers.length
    exact le_max_right _ _

theorem settled_step (clock : Nat → ℚ) (p : AdvancedWorkerPool) (e : PoolEvent)
    (h : Settled p) : Settled (p.step clock e) := by
  cases e with
  | executeTask td pr => exact settled_processTaskQueue clock _
  | workerSettles w =>
    obtain ⟨h1, h2, _, h4, h5, _⟩ := AdvancedWorkerPool.workerSettles_frame clock p w
    constructor
    · show (p.workerSettles clock w).taskQueue ≠ [] → (p.workerSettles clock w).availableWorkers = []
      rw [h4, h1]; exact h.conserving
    · show (p.workerSettles clock w).busyWorkers.length ≤
        (p.workerSettles clock w).stats.peakConcurrency
      rw [h2, h5]; exact h.peak
  | runTaskResumes w =>
    show Settled (p.runTaskResumes clock w)
    unfold AdvancedWorkerPool.runTaskResumes
    split
    · exact h
    · exact settled_processTaskQueue clock _
  | shutdown =>
    show Settled p.shutdown
    unfold AdvancedWorkerPool.shutdown
    split
    · exact h
    · exact ⟨fun _ => rfl, Nat.zero_le _⟩

theorem settled_run (clock : Nat → ℚ) (N : Nat) (evs : List PoolEvent) :
    Settled ((AdvancedWorkerPool.fresh N).run clock evs) :=
  AdvancedWorkerPool.run_induct clock (fun p e h => settled_step clock p e h) evs _
    (by
      rw [AdvancedWorkerPool.fresh_eq]
      exact ⟨fun h => absurd rfl h, Nat.zero_le _⟩)

/-- C1. Concurrency bound: for every pool of size `N` initialised once and every sequence of
submissions, worker completions, `runTask` resumptions and shutdown polls, the number of busy
workers, which is the number of tasks in flight, is at most `N` in the state reached. -/
theorem pool_concurrency_bound (N : Nat) (clock : Nat → ℚ) (evs : List PoolEvent) :
    (reached N clock evs).busyWorkers.length ≤ N ∧
    (reached N clock evs).running.length =
      (reached N clock evs).busyWorkers.length := by
  have h : Partitioned (reached N clock evs) := partitioned_run clock N evs
  have hm : (reached N clock evs).maxSize = N := AdvancedWorkerPool.maxSize_run clock N evs
  have hlen := h.perm.length_eq
  have hsize := h.size
  rw [hm] at hsize
  rw [List.length_append] at hlen
  refine ⟨by omega, ?_⟩
  rw [← h.running, List.length_map]

/-- C3. Partition invariant: in every state reached from a pool initialised once,
`availableWorkers` and `busyWorkers` are disjoint, neither holds a worker twice, and a worker
is in `workers` exactly when it is in one of the two; until `shutdown()` clears the pool,
`workers` are the `N` workers made by `initialize()`. -/
theorem pool_partition (N : Nat) (clock : Nat → ℚ) (evs : List PoolEvent) :
    List.Disjoint (reached N clock evs).availableWorkers
      (reached N clock evs).busyWorkers ∧
    (reached N clock evs).availableWorkers.Nodup ∧
    (reached N clock evs).busyWorkers.Nodup ∧
    (∀ w, w ∈ (reached N clock evs).workers ↔
      (w ∈ (reached N clock evs).availableWorkers ∨
       w ∈ (reached N clock evs).busyWorkers)) ∧
    ((reached N clock evs).workers = List.range N ∨
      ((reached N clock evs).workers = [] ∧
       (reached N clock evs).availableWorkers = [] ∧
       (reached N clock evs).busyWorkers = [])) := by
  have h : Partitioned (reached N clock evs) := partitioned_run clock N evs
  have hnd := List.nodup_append.1 h.nodup
  refine ⟨hnd.2.2, hnd.1, hnd.2.1, ?_, ?_⟩
  · intro w
    rw [← h.perm.mem_iff, List.mem_append]
  · have hlife : Lifecycle N (reached N clock evs) := lifecycle_run clock N evs
    rcases hlife with hl | ⟨h1, h2, h3, _⟩
    · exact Or.inl hl
    · exact Or.inr ⟨h1, h2, h3⟩

end UltraThink

namespace UltraThink

/-- C5 fails as stated: in a pool of size 1 that `shutdown()` has cleared, a task submitted
afterwards is queued while no worker is busy, and a second `shutdown()` clears the queue with
that task in it; its handle is never resolved or rejected. -/
theorem pool_drain_without_loss_counterexample :
    (reached 1 zeroClock [.shutdown, .executeTask (exampleTask "late") "normal"]).maxSize = 1 ∧
    (reached 1 zeroClock [.shutdown, .executeTask (exampleTask "late") "normal"]).busyWorkers =
      [] ∧
    (reached 1 zeroClock [.shutdown, .executeTask (exampleTask "late") "normal"]).taskQueue.map
      (fun t => (t.handle, t.taskData.id)) = [(0, some "late")] ∧
    (reached 1 zeroClock [.shutdown, .executeTask (exampleTask "late") "normal",
      .shutdown]).taskQueue = [] ∧
    (reached 1 zeroClock [.shutdown, .executeTask (exampleTask "late") "normal",
      .shutdown]).running.map (fun r => r.taskWrapper.handle) = [] ∧
    (reached 1 zeroClock [.shutdown, .executeTask (exampleTask "late") "normal",
      .shutdown]).resolved = [] ∧
    (reached 1 zeroClock [.shutdown, .executeTask (exampleTask "late") "normal",
      .shutdown]).rejected = [] := by
  refine ⟨by decide, by decide, by decide, by decide, by decide, by decide, by decide⟩

/-- C5 as amended. Drain without loss: a shutdown poll changes nothing while a worker is busy,
so the clearing is done only in a state where `busyWorkers` is empty; and in every state
reached from a pool of size `N >= 1` initialised once that still holds its workers (no
`shutdown()` has cleared it yet), when no worker is busy `taskQueue` is empty and no `runTask`
call is pending; so the poll either waits or clears a pool with nothing queued or in flight. -/
theorem pool_drain_without_loss (N : Nat) (hN : 1 ≤ N) (clock : Nat → ℚ) (evs : List PoolEvent)
    (hlive : (reached N clock evs).workers = List.range N) :
    ((reached N clock evs).busyWorkers ≠ [] →
      (reached N clock evs).shutdown =
        reached N clock evs) ∧
    ((reached N clock evs).busyWorkers = [] →
      (reached N clock evs).taskQueue = [] ∧
      (reached N clock evs).running = []) ∧
    ((reached N clock evs).shutdown =
        reached N clock evs ∨
      ((reached N clock evs).taskQueue = [] ∧
       (reached N clock evs).running = [])) := by
  have hpart : Partitioned (reached N clock evs) := partitioned_run clock N evs
  have hset : Settled (reached N clock evs) := settled_run clock N evs
  generalize reached N clock evs = p at hlive hpart hset ⊢
  have hwait : p.busyWorkers ≠ [] → p.shutdown = p := by
    intro hb
    unfold AdvancedWorkerPool.shutdown
    rw [if_pos (List.length_pos.2 hb)]
  have hidle : p.busyWorkers = [] → p.taskQueue = [] ∧ p.running = [] := by
    intro hb
    have hperm := hpart.perm
    rw [hb, List.append_nil, hlive] at hperm
    have hav : p.availableWorkers ≠ [] := by
      intro h0
      have := hperm.length_eq
      rw [h0, List.length_range] at this
      simp at this
      omega
    constructor
    · by_contra hq
      exact hav (hset.conserving hq)
    · have := hpart.running
      rw [hb] at this
      simpa using this
  refine ⟨hwait, hidle, ?_⟩
  by_cases hb : p.busyWorkers = []
  · exact Or.inr (hidle hb)
  · exact Or.inl (hwait hb)

/-- C5 at a concrete run: one task submitted to a pool of size 1 and completed. -/
theorem pool_drain_without_loss_witness :
    (reached 1 zeroClock [.executeTask (exampleTask "a") "normal", .workerSettles 0, .runTaskResumes 0]).workers =
      List.range 1 ∧
    ((reached 1 zeroClock [.executeTask (exampleTask "a") "normal", .workerSettles 0,
         .runTaskResumes 0]).busyWorkers = [] →
      (reached 1 zeroClock [.executeTask (exampleTask "a") "normal", .workerSettles 0,
         .runTaskResumes 0]).taskQueue = [] ∧
      (reached 1 zeroClock [.executeTask (exampleTask "a") "normal", .workerSettles 0,
         .runTaskResumes 0]).running = []) :=
  ⟨by decide,
   (pool_drain_without_loss 1 (by decide) zeroClock
      [.executeTask (exampleTask "a") "normal", .workerSettles 0, .runTaskResumes 0]
      (by decide)).2.1⟩

/-! ## The order of the queue and the handles -/

theorem orderedInsert_queueBefore (a : TaskWrapper) :
    ∀ S : List TaskWrapper, S.Pairwise queueBefore →
      (∀ b ∈ S, queueBefore a b ∨
        priorityRank a.priority < priorityRank b.priority) →
      (S.orderedInsert rankGE a).Pairwise queueBefore := by
  intro S
  induction S with
  | nil => intro _ _; simp
  | cons b S ih =>
    intro hS hab
    rw [List.pairwise_cons] at hS
    by_cases hge : rankGE a b
    · rw [List.orderedInsert, if_pos hge]
      refine List.pairwise_cons.2 ⟨?_, List.pairwise_cons.2 hS⟩
      intro x hx
      rcases hab x hx with h | h
      · exact h
      · exfalso
        unfold rankGE at hge
        rcases List.mem_cons.1 hx with rfl | hxS
        · omega
        · have := hS.1 x hxS
          unfold queueBefore at this
          omega
    · rw [List.orderedInsert, if_neg hge]
      refine List.pairwise_cons.2 ⟨?_, ih hS.2 (fun x hx => hab x (List.mem_cons_of_mem _ hx))⟩
      intro y hy
      rcases (List.mem_orderedInsert rankGE).1 hy with rfl | hyS
      · left
        unfold rankGE at hge
        omega
      · exact hS.1 y hyS

/-- Pushing a task with a new, greatest handle and sorting keeps the queue in order. -/
theorem insertionSort_append_queueBefore (t : TaskWrapper) :
    ∀ q : List TaskWrapper, q.Pairwise queueBefore → (∀ a ∈ q, a.handle < t.handle) →
      ((q ++ [t]).insertionSort rankGE).Pairwise queueBefore := by
  intro q
  induction q with
  | nil => intro _ _; simp
  | cons a q ih =>
    intro hq hnew
    rw [List.pairwise_cons] at hq
    have hS := ih hq.2 (fun x hx => hnew x (List.mem_cons_of_mem _ hx))
    show (((q ++ [t]).insertionSort rankGE).orderedInsert rankGE a).Pairwise queueBefore
    refine orderedInsert_queueBefore a _ hS ?_
    intro b hb
    have hb' : b ∈ q ++ [t] := (List.perm_insertionSort rankGE _).mem_iff.1 hb
    rcases List.mem_append.1 hb' with hbq | hbt
    · exact Or.inl (hq.1 b hbq)
    · have hbt' : b = t := by simpa using hbt
      subst hbt'
      have := hnew a (List.mem_cons_self _ _)
      unfold queueBefore
      omega

/-- A label that stands for a number stands for its rank. -/
theorem getPriorityValue_eq_rank (label : String)
    (h : (getPriorityValue label).isSome = true) :
    getPriorityValue label = some (priorityRank label) := by
  unfold priorityRank
  cases hv : getPriorityValue label with
  | none => rw [hv] at h; simp at h
  | some v => rfl

/-- On two tasks whose labels stand for numbers the comparator is the order of the ranks. -/
theorem priorityGE_iff_rankGE (a b : TaskWrapper)
    (ha : (getPriorityValue a.priority).isSome = true)
    (hb : (getPriorityValue b.priority).isSome = true) : priorityGE a b ↔ rankGE a b := by
  unfold priorityGE rankGE comparePriority
  rw [getPriorityValue_eq_rank _ ha, getPriorityValue_eq_rank _ hb]
  simp only [Option.getD_some]
  omega

theorem orderedInsert_congr (r s : TaskWrapper → TaskWrapper → Prop) [DecidableRel r]
    [DecidableRel s] (a : TaskWrapper) :
    ∀ S : List TaskWrapper, (∀ b ∈ S, r a b ↔ s a b) →
      S.orderedInsert r a = S.orderedInsert s a := by
  intro S
  induction S with
  | nil => intro _; rfl
  | cons b S ih =>
    intro hab
    by_cases h : r a b
    · rw [List.orderedInsert, List.orderedInsert, if_pos h,
        if_pos ((hab b (List.mem_cons_self _ _)).1 h)]
    · rw [List.orderedInsert, List.orderedInsert, if_neg h,
        if_neg (fun hs => h ((hab b (List.mem_cons_self _ _)).2 hs)),
        ih (fun x hx => hab x (List.mem_cons_of_mem _ hx))]

/-- On a queue whose labels all stand for numbers, the sort is the sort by rank. -/
theorem sortQueue_eq_rank : ∀ q : List TaskWrapper,
    (∀ t ∈ q, (getPriorityValue t.priority).isSome = true) →
    sortQueue q = q.insertionSort rankGE := by
  intro q
  induction q with
  | nil => intro _; rfl
  | cons a q ih =>
    intro h
    have hq := ih (fun t ht => h t (List.mem_cons_of_mem _ ht))
    show (q.insertionSort priorityGE).orderedInsert priorityGE a = _
    have hq2 : q.insertionSort priorityGE = q.insertionSort rankGE := hq
    rw [hq2]
    exact orderedInsert_congr priorityGE rankGE a _ (fun b hb =>
      priorityGE_iff_rankGE a b (h a (List.mem_cons_self _ _))
        (h b (List.mem_cons_of_mem _ ((List.perm_insertionSort rankGE q).mem_iff.1 hb))))

/-- Pushing a task with a new, greatest handle and sorting keeps the queue in order, when
every label stands for a number. -/
theorem sortQueue_append_queueBefore (t : TaskWrapper) (q : List TaskWrapper)
    (hplain : ∀ a ∈ q ++ [t], (getPriorityValue a.priority).isSome = true)
    (hq : q.Pairwise queueBefore) (hnew : ∀ a ∈ q, a.handle < t.handle) :
    (sortQueue (q ++ [t])).Pairwise queueBefore := by
  rw [sortQueue_eq_rank _ hplain]
  exact insertionSort_append_queueBefore t q hq hnew

theorem running_split (l : List RunTask) (r : RunTask)
    (hnd : (l.map (fun x => x.worker)).Nodup) (hr : r ∈ l) :
    l.Perm (r :: l.filter (fun x => x.worker ≠ r.worker)) := by
  induction l with
  | nil => simp at hr
  | cons a l ih =>
    rw [List.map_cons, List.nodup_cons] at hnd
    rcases List.mem_cons.1 hr with rfl | hrl
    · have hall : l.filter (fun x => x.worker ≠ r.worker) = l := by
        apply List.filter_eq_self.2
        intro x hx
        have : x.worker ≠ r.worker := by
          intro he
          exact hnd.1 (he ▸ List.mem_map_of_mem (fun x => x.worker) hx)
        simpa using this
      have hf : (r :: l).filter (fun x => x.worker ≠ r.worker) =
          l.filter (fun x => x.worker ≠ r.worker) := by
        simp [List.filter_cons]
      rw [hf, hall]
    · have hne : a.worker ≠ r.worker := by
        intro he
        exact hnd.1 (he ▸ List.mem_map_of_mem (fun x => x.worker) hrl)
      have hf : (a :: l).filter (fun x => x.worker ≠ r.worker) =
          a :: l.filter (fun x => x.worker ≠ r.worker) := by
        simp [List.filter_cons, hne]
      rw [hf]
      exact ((ih hnd.2 hrl).cons a).trans (List.Perm.swap r a _)

theorem UltraThinkWorker.finishTask_ok (w : UltraThinkWorker)
    (outcome : Except String RoutineOutput) (duration : ℚ) :
    ∃ w1 res, w.finishTask outcome duration = .ok (w1, res) ∧
      res.workerId = w.workerId ∧
      res.success = (match outcome with | .ok _ => true | .error _ => false) := by
  cases outcome with
  | error e => exact ⟨_, _, rfl, rfl, rfl⟩
  | ok data => exact ⟨_, _, rfl, rfl, rfl⟩

/-- The two shapes of the state after `workerSettles`. -/
theorem AdvancedWorkerPool.workerSettles_eq (clock : Nat → ℚ) (p : AdvancedWorkerPool)
    (w : Nat) :
    p.workerSettles clock w = p ∨
    ∃ r wk wk1 res, r ∈ p.running ∧ r.worker = w ∧ r.result = none ∧ p.heap[w]? = some wk ∧
      wk.finishTask (wk.simulateTaskExecution r.taskWrapper.taskData)
        (clock p.clockReads - r.startTime) = .ok (wk1, res) ∧
      p.workerSettles clock w =
        { p with clockReads := p.clockReads + 1
                 heap := p.heap.set w wk1
                 running := p.running.map (fun x =>
                   if x.worker = w then { x with result := some (.ok res) } else x) } := by
  unfold AdvancedWorkerPool.workerSettles
  split
  · rename_i r wk hf hh
    right
    obtain ⟨wk1, res, hfin, _, _⟩ := UltraThinkWorker.finishTask_ok wk
      (wk.simulateTaskExecution r.taskWrapper.taskData) (clock p.clockReads - r.startTime)
    have hmem := List.mem_of_find?_eq_some hf
    have hpr := List.find?_some hf
    simp only [Bool.and_eq_true, decide_eq_true_eq, Option.isNone_iff_eq_none] at hpr
    refine ⟨r, wk, wk1, res, hmem, hpr.1, hpr.2, hh, hfin, ?_⟩
    simp only [hfin, Except.map]
  · left; rfl

end UltraThink

namespace UltraThink

theorem ordered_fresh (N : Nat) : Ordered (AdvancedWorkerPool.fresh N) := by
  rw [AdvancedWorkerPool.fresh_eq]
  refine ⟨?_, ?_, ?_, ?_, rfl⟩
  · simp [AdvancedWorkerPool.handles, AdvancedWorkerPool.dispatchedHandles,
      AdvancedWorkerPool.new]
  · intro h hh
    simp [AdvancedWorkerPool.handles, AdvancedWorkerPool.dispatchedHandles,
      AdvancedWorkerPool.new] at hh
  · simp [AdvancedWorkerPool.dispatchedHandles, AdvancedWorkerPool.new]
  · intro r hr
    simp [AdvancedWorkerPool.new] at hr

theorem ordered_enqueue (clock : Nat → ℚ) (p : AdvancedWorkerPool) (td : TaskData)
    (pr : String) (h : Ordered p) : Ordered (p.enqueue clock td pr) := by
  have hlt : ∀ a ∈ p.taskQueue, a.handle < p.promises := by
    intro a ha
    apply h.bound
    unfold AdvancedWorkerPool.handles
    exact List.mem_append_left _ (List.mem_map_of_mem (fun t => t.handle) ha)
  have hperm : (p.enqueue clock td pr).handles.Perm (p.promises :: p.handles) := by
    have h1 : ((p.enqueue clock td pr).taskQueue.map (fun t => t.handle)).Perm
        (p.promises :: p.taskQueue.map (fun t => t.handle)) := by
      have := (List.perm_insertionSort priorityGE (p.taskQueue ++
        [{ taskData := td, priority := pr, handle := p.promises,
           startTime := clock p.clockReads, waitTime := 0 }])).map (fun t => t.handle)
      refine this.trans ?_
      rw [List.map_append]
      exact List.perm_append_singleton _ _
    exact h1.append_right _
  refine ⟨?_, ?_, h.log, h.noThrow, h.rejected⟩
  · refine hperm.nodup_iff.2 (List.nodup_cons.2 ⟨?_, h.nodup⟩)
    intro hmem
    exact absurd (h.bound _ hmem) (lt_irrefl _)
  · intro x hx
    show x < p.promises + 1
    rcases List.mem_cons.1 (hperm.mem_iff.1 hx) with rfl | hx'
    · exact Nat.lt_succ_self _
    · exact Nat.lt_succ_of_lt (h.bound x hx')

theorem ordered_dispatch (clock : Nat → ℚ) (p : AdvancedWorkerPool) (tw : TaskWrapper)
    (rest : List TaskWrapper) (w : Nat) (h : Ordered p) (hq : p.taskQueue = tw :: rest) :
    Ordered (p.dispatch clock tw rest w) := by
  have hrun : (p.dispatch clock tw rest w).dispatchedHandles =
      (p.running.map (fun r => r.taskWrapper.handle) ++ [tw.handle]) ++
        (p.resolved.map Prod.fst ++ p.rejected.map Prod.fst) := by
    simp [AdvancedWorkerPool.dispatchedHandles, AdvancedWorkerPool.dispatch,
      AdvancedWorkerPool.startRunTask]
  have hperm : (p.dispatch clock tw rest w).handles.Perm p.handles := by
    unfold AdvancedWorkerPool.handles
    rw [hrun, hq]
    show (rest.map (fun t => t.handle) ++ _).Perm _
    unfold AdvancedWorkerPool.dispatchedHandles
    rw [List.perm_iff_count]
    intro a
    simp only [List.map_cons, List.count_append, List.count_cons, List.count_nil]
    omega
  refine ⟨hperm.nodup_iff.2 h.nodup, ?_, ?_, ?_, h.rejected⟩
  · intro x hx
    exact h.bound x (hperm.mem_iff.1 hx)
  · rw [hrun]
    show (List.map (fun d : Dispatch => d.task.handle) (p.dispatchLog ++ [_])).Perm _
    have hl := h.log
    unfold AdvancedWorkerPool.dispatchedHandles at hl
    rw [List.perm_iff_count] at hl ⊢
    intro a
    have := hl a
    simp only [List.map_append, List.map_cons, List.map_nil, List.count_append,
      List.count_cons, List.count_nil] at this ⊢
    omega
  · intro r hr e
    simp only [AdvancedWorkerPool.dispatch, AdvancedWorkerPool.startRunTask,
      List.mem_append, List.mem_singleton] at hr
    rcases hr with hold | hnew
    · exact h.noThrow r hold e
    · subst hnew
      simp

theorem ordered_workerSettles (clock : Nat → ℚ) (p : AdvancedWorkerPool) (w : Nat)
    (h : Ordered p) : Ordered (p.workerSettles clock w) := by
  rcases AdvancedWorkerPool.workerSettles_eq clock p w with heq | ⟨r, wk, wk1, res, _, _, _, _, _, heq⟩
  · rw [heq]; exact h
  · rw [heq]
    have hrun : (List.map (fun r : RunTask => r.taskWrapper.handle)
        (p.running.map (fun x =>
          if x.worker = w then { x with result := some (.ok res) } else x))) =
        p.running.map (fun r => r.taskWrapper.handle) := by
      rw [List.map_map]
      apply List.map_congr_left
      intro x _
      by_cases hx : x.worker = w <;> simp [hx]
    refine ⟨?_, ?_, ?_, ?_, h.rejected⟩
    · have : AdvancedWorkerPool.handles { p with
          clockReads := p.clockReads + 1
          heap := p.heap.set w wk1
          running := p.running.map (fun x =>
            if x.worker = w then { x with result := some (.ok res) } else x) } = p.handles := by
        unfold AdvancedWorkerPool.handles AdvancedWorkerPool.dispatchedHandles
        simp only [hrun]
      rw [this]; exact h.nodup
    · intro x hx
      apply h.bound
      unfold AdvancedWorkerPool.handles AdvancedWorkerPool.dispatchedHandles at hx ⊢
      simp only [hrun] at hx
      exact hx
    · have hl := h.log
      unfold AdvancedWorkerPool.dispatchedHandles at hl ⊢
      simp only [hrun]
      exact hl
    · intro x hx e
      obtain ⟨y, hy, hxy⟩ := List.mem_map.1 hx
      by_cases hyw : y.worker = w
      · rw [if_pos hyw] at hxy
        rw [← hxy]
        simp
      · rw [if_neg hyw] at hxy
        rw [← hxy]
        exact h.noThrow y hy e

theorem ordered_release (p : AdvancedWorkerPool) (r : RunTask) (h : Ordered p)
    (hpart : Partitioned p) (hr : r ∈ p.running) (hsome : r.result.isSome = true) :
    Ordered ((p.complete r).releaseWorker r.worker) := by
  obtain ⟨res, hres⟩ : ∃ res, r.result = some (.ok res) := by
    cases hrr : r.result with
    | none => rw [hrr] at hsome; simp at hsome
    | some c =>
      cases c with
      | ok res => exact ⟨res, rfl⟩
      | error e => exact absurd hrr (h.noThrow r hr e)
  have hc : p.complete r =
      { p with
        stats := { p.stats with
          completedTasks := p.stats.completedTasks + 1
          averageWaitTime :=
            (p.stats.averageWaitTime * (((p.stats.completedTasks + 1 : Nat) : ℚ) - 1) +
              r.taskWrapper.waitTime) / ((p.stats.completedTasks + 1 : Nat) : ℚ) }
        resolved := p.resolved ++ [(r.taskWrapper.handle, res)] } := by
    unfold AdvancedWorkerPool.complete
    rw [hres]
  have hnd : (p.running.map (fun x => x.worker)).Nodup := by
    rw [hpart.running]; exact (List.nodup_append.1 hpart.nodup).2.1
  have hsplit := (running_split p.running r hnd hr).map (fun r => r.taskWrapper.handle)
  have hrun : ((p.complete r).releaseWorker r.worker).dispatchedHandles.Perm
      p.dispatchedHandles := by
    rw [hc]
    unfold AdvancedWorkerPool.dispatchedHandles AdvancedWorkerPool.releaseWorker
    rw [List.perm_iff_count] at hsplit ⊢
    intro a
    have := hsplit a
    simp only [List.map_append, List.map_cons, List.map_nil, List.count_append,
      List.count_cons, List.count_nil] at this ⊢
    omega
  have hperm : ((p.complete r).releaseWorker r.worker).handles.Perm p.handles := by
    unfold AdvancedWorkerPool.handles
    have hq : ((p.complete r).releaseWorker r.worker).taskQueue = p.taskQueue := by
      rw [hc]; rfl
    rw [hq]
    exact hrun.append_left _
  refine ⟨hperm.nodup_iff.2 h.nodup, ?_, ?_, ?_, ?_⟩
  · intro x hx
    have := h.bound x (hperm.mem_iff.1 hx)
    rw [hc]; exact this
  · refine List.Perm.trans ?_ hrun.symm
    rw [hc]; exact h.log
  · intro x hx e
    rw [hc] at hx
    exact h.noThrow x (List.mem_of_mem_filter hx) e
  · rw [hc]; exact h.rejected

theorem ordered_shutdown (p : AdvancedWorkerPool) (h : Ordered p) : Ordered p.shutdown := by
  unfold AdvancedWorkerPool.shutdown
  split
  · exact h
  · have hsub : List.Sublist p.dispatchedHandles p.handles :=
      List.sublist_append_right _ _
    refine ⟨?_, ?_, h.log, h.noThrow, h.rejected⟩
    · show ([] ++ p.dispatchedHandles).Nodup
      rw [List.nil_append]
      exact h.nodup.sublist hsub
    · intro x hx
      have hx' : x ∈ [] ++ p.dispatchedHandles := hx
      rw [List.nil_append] at hx'
      exact h.bound x (hsub.subset hx')

theorem ordered_step (clock : Nat → ℚ) :
    ∀ (p : AdvancedWorkerPool) (e : PoolEvent), Partitioned p ∧ Ordered p →
      Partitioned (p.step clock e) ∧ Ordered (p.step clock e) :=
  @AdvancedWorkerPool.step_induct (fun p => Partitioned p ∧ Ordered p) clock
    (fun p td pr h => ⟨⟨h.1.nodup, h.1.perm, h.1.running, h.1.size, h.1.valid⟩,
      ordered_enqueue clock p td pr h.2⟩)
    (fun p tw rest w h hq hw => ⟨partitioned_dispatch clock p tw rest w h.1 hw,
      ordered_dispatch clock p tw rest w h.2 hq⟩)
    (fun _ h => ⟨⟨h.1.nodup, h.1.perm, h.1.running, h.1.size, h.1.valid⟩,
      ⟨h.2.nodup, h.2.bound, h.2.log, h.2.noThrow, h.2.rejected⟩⟩)
    (fun p w h => ⟨partitioned_workerSettles clock p w h.1, ordered_workerSettles clock p w h.2⟩)
    (fun p r h hr hs => ⟨partitioned_release p r h.1 hr, ordered_release p r h.2 h.1 hr hs⟩)
    (fun p h => ⟨partitioned_shutdown p h.1, ordered_shutdown p h.2⟩)

theorem ordered_run (clock : Nat → ℚ) (N : Nat) (evs : List PoolEvent) :
    Ordered ((AdvancedWorkerPool.fresh N).run clock evs) :=
  (@AdvancedWorkerPool.run_induct (fun p => Partitioned p ∧ Ordered p) clock
    (ordered_step clock) evs _ ⟨partitioned_fresh N, ordered_fresh N⟩).2

end UltraThink

namespace UltraThink

/-! ## Handles count the submissions -/

theorem AdvancedWorkerPool.processTaskQueue_frame (clock : Nat → ℚ) (p : AdvancedWorkerPool) :
    (p.processTaskQueue clock).promises = p.promises ∧
    (p.processTaskQueue clock).resolved = p.resolved ∧
    (p.processTaskQueue clock).rejected = p.rejected ∧
    (p.processTaskQueue clock).stats.totalTasks = p.stats.totalTasks ∧
    (p.processTaskQueue clock).stats.completedTasks = p.stats.completedTasks ∧
    (p.processTaskQueue clock).workers = p.workers ∧
    (p.processTaskQueue clock).maxSize = p.maxSize :=
  @AdvancedWorkerPool.processTaskQueue_induct
    (fun x => x.promises = p.promises ∧ x.resolved = p.resolved ∧ x.rejected = p.rejected ∧
      x.stats.totalTasks = p.stats.totalTasks ∧ x.stats.completedTasks = p.stats.completedTasks ∧
      x.workers = p.workers ∧ x.maxSize = p.maxSize)
    clock (fun _ _ _ _ h _ _ => h) (fun _ h => h) p ⟨rfl, rfl, rfl, rfl, rfl, rfl, rfl⟩

theorem AdvancedWorkerPool.step_promises (clock : Nat → ℚ) (p : AdvancedWorkerPool)
    (e : PoolEvent) :
    (p.step clock e).promises = p.promises + (if e.isSubmission then 1 else 0) := by
  cases e with
  | executeTask td pr =>
    show ((p.enqueue clock td pr).processTaskQueue clock).promises = p.promises + 1
    rw [(AdvancedWorkerPool.processTaskQueue_frame clock _).1]
    rfl
  | workerSettles w =>
    show (p.workerSettles clock w).promises = p.promises + 0
    rw [(AdvancedWorkerPool.workerSettles_frame clock p w).2.2.2.2.2.2.2.1]
    rfl
  | runTaskResumes w =>
    show (p.runTaskResumes clock w).promises = p.promises + 0
    unfold AdvancedWorkerPool.runTaskResumes
    split
    · rfl
    · rename_i r _
      rw [(AdvancedWorkerPool.processTaskQueue_frame clock _).1]
      show (p.complete r).promises = p.promises
      exact (AdvancedWorkerPool.complete_frame p r).2.2.2.2.2.2.2.1
  | shutdown =>
    show p.shutdown.promises = p.promises + 0
    unfold AdvancedWorkerPool.shutdown
    split <;> rfl

theorem AdvancedWorkerPool.run_promises (clock : Nat → ℚ) (evs : List PoolEvent) :
    ∀ p : AdvancedWorkerPool,
      (p.run clock evs).promises = p.promises + evs.countP PoolEvent.isSubmission := by
  induction evs with
  | nil => intro p; rfl
  | cons e evs ih =>
    intro p
    rw [AdvancedWorkerPool.run_cons, ih, AdvancedWorkerPool.step_promises, List.countP_cons]
    omega

/-! ## The order of dispatch -/

theorem prioritised_fresh (N : Nat) : Prioritised (AdvancedWorkerPool.fresh N) := by
  rw [AdvancedWorkerPool.fresh_eq]
  refine ⟨?_, List.Pairwise.nil, ?_, ?_⟩
  · intro t ht
    simp [AdvancedWorkerPool.new] at ht
  · intro d hd
    simp [AdvancedWorkerPool.new] at hd
  · intro d hd
    simp [AdvancedWorkerPool.new] at hd

/-- The order of the queue and of the log only depends on the queue and the log. -/
theorem prioritised_of_eq {p q : AdvancedWorkerPool} (h : Prioritised p)
    (hq : q.taskQueue = p.taskQueue) (hl : q.dispatchLog = p.dispatchLog) : Prioritised q :=
  ⟨by rw [hq]; exact h.plain, by rw [hq]; exact h.sorted, by rw [hl]; exact h.logPlain,
   by rw [hl]; exact h.logOrder⟩

/-- An event whose label, if it is a submission, stands for a number keeps the queue in
priority order and the dispatches at its front. -/
theorem prioritised_step (clock : Nat → ℚ) (e : PoolEvent)
    (hev : ∀ td pr, e = .executeTask td pr → (getPriorityValue pr).isSome = true) :
    ∀ p : AdvancedWorkerPool, (Partitioned p ∧ Ordered p) ∧ Prioritised p →
      (Partitioned (p.step clock e) ∧ Ordered (p.step clock e)) ∧
        Prioritised (p.step clock e) := by
  refine @AdvancedWorkerPool.step_induct_at
    (fun p => (Partitioned p ∧ Ordered p) ∧ Prioritised p) clock e ?_ ?_ ?_ ?_ ?_ ?_
  · intro p td pr heq ⟨⟨hp, ho⟩, hpr⟩
    have hlt : ∀ a ∈ p.taskQueue, a.handle < p.promises := by
      intro a ha
      apply ho.bound
      unfold AdvancedWorkerPool.handles
      exact List.mem_append_left _ (List.mem_map_of_mem (fun t => t.handle) ha)
    have hplain : ∀ a ∈ p.taskQueue ++
        [{ taskData := td, priority := pr, handle := p.promises,
           startTime := clock p.clockReads, waitTime := 0 }],
        (getPriorityValue a.priority).isSome = true := by
      intro a ha
      rcases List.mem_append.1 ha with h1 | h1
      · exact hpr.plain a h1
      · rw [List.mem_singleton.1 h1]
        exact hev td pr heq
    refine ⟨⟨⟨hp.nodup, hp.perm, hp.running, hp.size, hp.valid⟩,
      ordered_enqueue clock p td pr ho⟩, ⟨?_, ?_, hpr.logPlain, hpr.logOrder⟩⟩
    · intro t ht
      exact hplain t ((List.perm_insertionSort priorityGE _).mem_iff.1 ht)
    · exact sortQueue_append_queueBefore _ _ hplain hpr.sorted hlt
  · intro p tw rest w ⟨⟨hp, ho⟩, hpr⟩ hq hw
    have hsorted := hpr.sorted
    rw [hq, List.pairwise_cons] at hsorted
    have hplain := hpr.plain
    rw [hq] at hplain
    refine ⟨⟨partitioned_dispatch clock p tw rest w hp hw,
      ordered_dispatch clock p tw rest w ho hq⟩, ⟨?_, hsorted.2, ?_, ?_⟩⟩
    · intro t ht
      exact hplain t (List.mem_cons_of_mem _ ht)
    · intro d hd
      simp only [AdvancedWorkerPool.dispatch, AdvancedWorkerPool.startRunTask,
        List.mem_append, List.mem_singleton] at hd
      rcases hd with hold | hnew
      · exact hpr.logPlain d hold
      · subst hnew
        exact ⟨hplain tw (List.mem_cons_self _ _),
          fun u hu => hplain u (List.mem_cons_of_mem _ hu)⟩
    · intro d hd u hu
      simp only [AdvancedWorkerPool.dispatch, AdvancedWorkerPool.startRunTask,
        List.mem_append, List.mem_singleton] at hd
      rcases hd with hold | hnew
      · exact hpr.logOrder d hold u hu
      · subst hnew
        exact hsorted.1 u hu
  · intro p ⟨⟨hp, ho⟩, hpr⟩
    exact ⟨⟨⟨hp.nodup, hp.perm, hp.running, hp.size, hp.valid⟩,
      ⟨ho.nodup, ho.bound, ho.log, ho.noThrow, ho.rejected⟩⟩,
      ⟨hpr.plain, hpr.sorted, hpr.logPlain, hpr.logOrder⟩⟩
  · intro p w _ ⟨⟨hp, ho⟩, hpr⟩
    obtain ⟨_, _, _, h4, _, _, _, _, h9, _⟩ := AdvancedWorkerPool.workerSettles_frame clock p w
    exact ⟨⟨partitioned_workerSettles clock p w hp, ordered_workerSettles clock p w ho⟩,
      prioritised_of_eq hpr h4 h9⟩
  · intro p r _ ⟨⟨hp, ho⟩, hpr⟩ hr hs
    obtain ⟨_, _, _, _, _, _, f7, _, f9⟩ := AdvancedWorkerPool.complete_frame p r
    exact ⟨⟨partitioned_release p r hp hr, ordered_release p r ho hp hr hs⟩,
      prioritised_of_eq hpr f7 f9⟩
  · intro p _ ⟨⟨hp, ho⟩, hpr⟩
    refine ⟨⟨partitioned_shutdown p hp, ordered_shutdown p ho⟩, ?_⟩
    unfold AdvancedWorkerPool.shutdown
    split
    · exact hpr
    · exact ⟨fun t ht => absurd ht (List.not_mem_nil _), List.Pairwise.nil, hpr.logPlain,
        hpr.logOrder⟩

theorem prioritised_run (clock : Nat → ℚ) (evs : List PoolEvent) :
    ∀ p : AdvancedWorkerPool,
      (∀ td pr, PoolEvent.executeTask td pr ∈ evs → (getPriorityValue pr).isSome = true) →
      (Partitioned p ∧ Ordered p) ∧ Prioritised p →
      (Partitioned (p.run clock evs) ∧ Ordered (p.run clock evs)) ∧
        Prioritised (p.run clock evs) := by
  induction evs with
  | nil => intro p _ h; exact h
  | cons e evs ih =>
    intro p hev h
    rw [AdvancedWorkerPool.run_cons]
    exact ih _ (fun td pr hx => hev td pr (List.mem_cons_of_mem _ hx))
      (prioritised_step clock e (fun td pr heq => hev td pr (heq ▸ List.mem_cons_self _ _)) p h)

/-- C2. Priority dispatch order, and the input at which the code leaves it. The labels
`critical`, `high`, `normal`, `low` stand for 4, 3, 2, 1 and every other label for 2, except
the names an object inherits (`constructor`, `toString`, ...): for these `getPriorityValue`
returns no number. In a pool of size 1 busy with `X`, submitting `A` with the label
`constructor` and then `B` with the label `critical` dispatches `A` before `B`: when `A` is
taken, the critical task `B` is in the queue behind it. With a label that stands for a number
in the place of `constructor` (`other`, ranking as normal) `B` is dispatched first. In every
run in which every submitted label stands for a number, every iteration of the admission loop
recorded in the dispatch log took a task whose priority value is at least that of every task
left in the queue, and that was submitted before every task left in the queue with the same
priority value, and the queue is in that order; handles number the submissions in order. In a
pool of size 1 busy with `X`, submitting `A` (normal), `B` (normal), `C` (critical) gives the
dispatch order `C`, `A`, `B`. -/
theorem pool_priority_dispatch (N : Nat) (clock : Nat → ℚ) (evs : List PoolEvent) :
    (getPriorityValue "critical" = some 4 ∧ getPriorityValue "high" = some 3 ∧
      getPriorityValue "normal" = some 2 ∧ getPriorityValue "low" = some 1 ∧
      (∀ label, label ≠ "critical" → label ≠ "high" → label ≠ "normal" → label ≠ "low" →
        label ∉ inheritedNames → getPriorityValue label = some 2) ∧
      (∀ label ∈ inheritedNames, getPriorityValue label = none)) ∧
    ((reached 1 zeroClock [.executeTask (exampleTask "X") "normal",
         .executeTask (exampleTask "A") "constructor", .executeTask (exampleTask "B") "critical",
         .workerSettles 0, .runTaskResumes 0, .workerSettles 0,
         .runTaskResumes 0]).dispatchLog.map
        (fun d => (d.task.taskData.id, d.task.priority,
          d.stillQueued.map (fun u => (u.taskData.id, u.priority)))) =
      [(some "X", "normal", []), (some "A", "constructor", [(some "B", "critical")]),
       (some "B", "critical", [])]) ∧
    ((reached 1 zeroClock [.executeTask (exampleTask "X") "normal",
         .executeTask (exampleTask "A") "other", .executeTask (exampleTask "B") "critical",
         .workerSettles 0, .runTaskResumes 0, .workerSettles 0,
         .runTaskResumes 0]).dispatchLog.map
        (fun d => (d.task.taskData.id, d.task.priority,
          d.stillQueued.map (fun u => (u.taskData.id, u.priority)))) =
      [(some "X", "normal", []), (some "B", "critical", [(some "A", "other")]),
       (some "A", "other", [])]) ∧
    ((∀ td pr, PoolEvent.executeTask td pr ∈ evs → (getPriorityValue pr).isSome = true) →
      (∀ d ∈ (reached N clock evs).dispatchLog, ∀ u ∈ d.stillQueued,
        ∃ vd vu, getPriorityValue d.task.priority = some vd ∧
          getPriorityValue u.priority = some vu ∧ vu ≤ vd ∧
          (vu = vd → d.task.handle < u.handle)) ∧
      (reached N clock evs).taskQueue.Pairwise (fun a b =>
        ∃ va vb, getPriorityValue a.priority = some va ∧
          getPriorityValue b.priority = some vb ∧
          (vb < va ∨ (vb = va ∧ a.handle < b.handle)))) ∧
    (reached N clock evs).promises =
      evs.countP PoolEvent.isSubmission ∧
    ((reached 1 zeroClock [.executeTask (exampleTask "X") "normal", .executeTask (exampleTask "A") "normal",
         .executeTask (exampleTask "B") "normal", .executeTask (exampleTask "C") "critical",
         .workerSettles 0, .runTaskResumes 0, .workerSettles 0, .runTaskResumes 0,
         .workerSettles 0, .runTaskResumes 0]).dispatchLog.map (fun d => d.task.taskData.id) =
      [some "X", some "C", some "A", some "B"]) := by
  refine ⟨⟨by decide, by decide, by decide, by decide, ?_, by decide⟩, by decide, by decide,
    ?_, ?_, by decide⟩
  · intro label h1 h2 h3 h4 h5
    simp [getPriorityValue, h1, h2, h3, h4, h5]
  · intro hev
    have h : Prioritised (reached N clock evs) :=
      (prioritised_run clock evs _ hev
        ⟨⟨partitioned_fresh N, ordered_fresh N⟩, prioritised_fresh N⟩).2
    constructor
    · intro d hd u hu
      have hord := h.logOrder d hd u hu
      have hpl := h.logPlain d hd
      refine ⟨_, _, getPriorityValue_eq_rank _ hpl.1, getPriorityValue_eq_rank _ (hpl.2 u hu),
        ?_, ?_⟩
      · unfold queueBefore at hord
        omega
      · intro heq
        unfold queueBefore at hord
        omega
    · refine h.sorted.imp_of_mem ?_
      intro a b ha hb hab
      refine ⟨_, _, getPriorityValue_eq_rank _ (h.plain a ha),
        getPriorityValue_eq_rank _ (h.plain b hb), ?_⟩
      unfold queueBefore at hab
      omega
  · show ((AdvancedWorkerPool.fresh N).run clock evs).promises = _
    rw [AdvancedWorkerPool.run_promises, AdvancedWorkerPool.fresh_eq]
    simp [AdvancedWorkerPool.new]

end UltraThink

namespace UltraThink

/-! ## Every dispatched task is settled once -/

theorem find_running (l : List RunTask) (r : RunTask) (pred : RunTask → Bool)
    (hnd : (l.map (fun x => x.worker)).Nodup) (hr : r ∈ l) (hp : pred r = true)
    (hw : ∀ x, pred x = true → x.worker = r.worker) : l.find? pred = some r := by
  cases hf : l.find? pred with
  | none =>
    have := List.find?_eq_none.1 hf r hr
    exact absurd hp this
  | some x =>
    have hx := List.mem_of_find?_eq_some hf
    have hpx := List.find?_some hf
    have := List.inj_on_of_nodup_map hnd hx hr (hw x hpx)
    rw [this]

theorem Partitioned.running_nodup {p : AdvancedWorkerPool} (h : Partitioned p) :
    (p.running.map (fun x => x.worker)).Nodup := by
  rw [h.running]; exact (List.nodup_append.1 h.nodup).2.1

theorem Partitioned.running_valid {p : AdvancedWorkerPool} (h : Partitioned p) {r : RunTask}
    (hr : r ∈ p.running) : r.worker < p.heap.length := by
  apply h.valid
  rw [← h.perm.mem_iff, List.mem_append]
  right
  rw [← h.running]
  exact List.mem_map_of_mem (fun x => x.worker) hr

/-- A suspended `runTask` whose worker has returned `res` resolves its handle with `res`. -/
theorem AdvancedWorkerPool.runTaskResumes_resolves (clock : Nat → ℚ) (p : AdvancedWorkerPool)
    (r : RunTask) (res : Result) (hpart : Partitioned p) (hr : r ∈ p.running)
    (hres : r.result = some (.ok res)) :
    (p.runTaskResumes clock r.worker).resolved = p.resolved ++ [(r.taskWrapper.handle, res)] ∧
    (p.runTaskResumes clock r.worker).rejected = p.rejected ∧
    (p.runTaskResumes clock r.worker).stats.completedTasks = p.stats.completedTasks + 1 ∧
    (p.runTaskResumes clock r.worker).stats.totalTasks = p.stats.totalTasks := by
  have hfind : p.running.find? (fun x => x.worker = r.worker && x.result.isSome) = some r := by
    apply find_running _ _ _ hpart.running_nodup hr
    · simp [hres]
    · intro x hx
      simp only [Bool.and_eq_true, decide_eq_true_eq] at hx
      exact hx.1
  unfold AdvancedWorkerPool.runTaskResumes
  rw [hfind]
  obtain ⟨h1, h2, h3, h4, h5, _⟩ := AdvancedWorkerPool.processTaskQueue_frame clock
    ((p.complete r).releaseWorker r.worker)
  refine ⟨?_, ?_, ?_, ?_⟩
  · show (((p.complete r).releaseWorker r.worker).processTaskQueue clock).resolved = _
    rw [h2]
    show (p.complete r).resolved = _
    unfold AdvancedWorkerPool.complete
    rw [hres]
  · show (((p.complete r).releaseWorker r.worker).processTaskQueue clock).rejected = _
    rw [h3]
    show (p.complete r).rejected = _
    unfold AdvancedWorkerPool.complete
    rw [hres]
  · show (((p.complete r).releaseWorker r.worker).processTaskQueue clock).stats.completedTasks = _
    rw [h5]
    show (p.complete r).stats.completedTasks = _
    unfold AdvancedWorkerPool.complete
    rw [hres]
  · show (((p.complete r).releaseWorker r.worker).processTaskQueue clock).stats.totalTasks = _
    rw [h4]
    show (p.complete r).stats.totalTasks = _
    unfold AdvancedWorkerPool.complete
    rw [hres]

/-- A worker whose routine is pending returns the result of its `executeTask`. -/
theorem AdvancedWorkerPool.workerSettles_returns (clock : Nat → ℚ) (p : AdvancedWorkerPool)
    (r : RunTask) (hpart : Partitioned p) (hr : r ∈ p.running) (hnone : r.result = none) :
    ∃ wk wk1 res, p.heap[r.worker]? = some wk ∧
      wk.finishTask (wk.simulateTaskExecution r.taskWrapper.taskData)
        (clock p.clockReads - r.startTime) = .ok (wk1, res) ∧
      p.workerSettles clock r.worker =
        { p with clockReads := p.clockReads + 1
                 heap := p.heap.set r.worker wk1
                 running := p.running.map (fun x =>
                   if x.worker = r.worker then { x with result := some (.ok res) } else x) } := by
  have hfind : p.running.find? (fun x => x.worker = r.worker && x.result.isNone) = some r := by
    apply find_running _ _ _ hpart.running_nodup hr
    · simp [hnone]
    · intro x hx
      simp only [Bool.and_eq_true, decide_eq_true_eq] at hx
      exact hx.1
  have hlt := hpart.running_valid hr
  have hheap : p.heap[r.worker]? = some (p.heap[r.worker]) := List.getElem?_eq_getElem hlt
  obtain ⟨wk1, res, hfin, _, _⟩ := UltraThinkWorker.finishTask_ok (p.heap[r.worker])
    ((p.heap[r.worker]).simulateTaskExecution r.taskWrapper.taskData)
    (clock p.clockReads - r.startTime)
  refine ⟨p.heap[r.worker], wk1, res, hheap, hfin, ?_⟩
  unfold AdvancedWorkerPool.workerSettles
  rw [hfind, hheap]
  simp only [hfin, Except.map]

/-- A task in flight is resolved by letting its worker finish and its `runTask` resume. -/
theorem AdvancedWorkerPool.settle_then_resume (clock : Nat → ℚ) (p : AdvancedWorkerPool)
    (r : RunTask) (hpart : Partitioned p) (hr : r ∈ p.running) (hnone : r.result = none) :
    ∃ wk wk1 res, p.heap[r.worker]? = some wk ∧
      wk.finishTask (wk.simulateTaskExecution r.taskWrapper.taskData)
        (clock p.clockReads - r.startTime) = .ok (wk1, res) ∧
      ((p.workerSettles clock r.worker).runTaskResumes clock r.worker).resolved =
        p.resolved ++ [(r.taskWrapper.handle, res)] ∧
      ((p.workerSettles clock r.worker).runTaskResumes clock r.worker).stats.completedTasks =
        p.stats.completedTasks + 1 := by
  obtain ⟨wk, wk1, res, hheap, hfin, heq⟩ :=
    AdvancedWorkerPool.workerSettles_returns clock p r hpart hr hnone
  refine ⟨wk, wk1, res, hheap, hfin, ?_⟩
  have hpart' : Partitioned (p.workerSettles clock r.worker) :=
    partitioned_workerSettles clock p r.worker hpart
  have hmem : ({ r with result := some (.ok res) } : RunTask) ∈
      (p.workerSettles clock r.worker).running := by
    rw [heq]
    show _ ∈ p.running.map _
    refine List.mem_map.2 ⟨r, hr, ?_⟩
    simp
  have := AdvancedWorkerPool.runTaskResumes_resolves clock (p.workerSettles clock r.worker)
    { r with result := some (.ok res) } res hpart' hmem rfl
  have hres : (p.workerSettles clock r.worker).resolved = p.resolved :=
    (AdvancedWorkerPool.workerSettles_frame clock p r.worker).2.2.2.2.2.1
  have hst : (p.workerSettles clock r.worker).stats = p.stats :=
    (AdvancedWorkerPool.workerSettles_frame clock p r.worker).2.2.2.2.1
  rw [hres, hst] at this
  exact ⟨this.1, this.2.2.1⟩

/-- C4. Exactly once, no retry: in every state reached from an initialised pool, no handle
was dispatched twice, no handle was resolved twice, no handle was rejected, no dispatched task
is back in the queue, and every dispatched task is either resolved or still in flight; a task
in flight whose worker has returned `res` is resolved with `res` when its `runTask` resumes,
and one whose routine is pending is resolved with the result of the worker's `executeTask`
once the worker finishes and `runTask` resumes, whatever `success` is. A failing task in a
pool of size 1 is resolved once with `success == false` and is not queued or run again. -/
theorem pool_exactly_once (N : Nat) (clock : Nat → ℚ) (evs : List PoolEvent) :
    ((reached N clock evs).dispatchLog.map (fun d => d.task.handle)).Nodup ∧
    ((reached N clock evs).resolved.map Prod.fst).Nodup ∧
    (reached N clock evs).rejected = [] ∧
    (∀ d ∈ (reached N clock evs).dispatchLog,
      d.task.handle ∉ (reached N clock evs).taskQueue.map (fun t => t.handle)) ∧
    (∀ d ∈ (reached N clock evs).dispatchLog,
      d.task.handle ∈ (reached N clock evs).resolved.map Prod.fst ∨
      d.task.handle ∈ (reached N clock evs).running.map (fun r => r.taskWrapper.handle)) ∧
    (∀ r ∈ (reached N clock evs).running,
      match r.result with
      | none =>
        ∃ wk wk1 res, (reached N clock evs).heap[r.worker]? = some wk ∧
          wk.finishTask (wk.simulateTaskExecution r.taskWrapper.taskData)
            (clock (reached N clock evs).clockReads - r.startTime) = .ok (wk1, res) ∧
          (((reached N clock evs).workerSettles clock r.worker).runTaskResumes clock
              r.worker).resolved =
            (reached N clock evs).resolved ++ [(r.taskWrapper.handle, res)]
      | some completion =>
        ∃ res, completion = .ok res ∧
          ((reached N clock evs).runTaskResumes clock r.worker).resolved =
            (reached N clock evs).resolved ++ [(r.taskWrapper.handle, res)]) ∧
    ((reached 1 zeroClock [.executeTask (failingTask "T") "normal", .workerSettles 0,
        .runTaskResumes 0, .workerSettles 0, .runTaskResumes 0]).resolved.map
          (fun x => (x.1, x.2.success, x.2.error)) =
        [(0, false, some "resourceRequirements is not defined")] ∧
      (reached 1 zeroClock [.executeTask (failingTask "T") "normal", .workerSettles 0,
        .runTaskResumes 0, .workerSettles 0, .runTaskResumes 0]).taskQueue.length = 0 ∧
      (reached 1 zeroClock [.executeTask (failingTask "T") "normal", .workerSettles 0,
        .runTaskResumes 0, .workerSettles 0, .runTaskResumes 0]).dispatchLog.length = 1) := by
  have hord : Ordered (reached N clock evs) := ordered_run clock N evs
  have hpart : Partitioned (reached N clock evs) := partitioned_run clock N evs
  generalize reached N clock evs = p at hord hpart
  have hnd := hord.nodup
  unfold AdvancedWorkerPool.handles at hnd
  have hnd2 := List.nodup_append.1 hnd
  have hlogmem : ∀ d ∈ p.dispatchLog, d.task.handle ∈ p.dispatchedHandles := by
    intro d hd
    exact hord.log.mem_iff.1 (List.mem_map_of_mem (fun d => d.task.handle) hd)
  refine ⟨hord.log.nodup_iff.2 hnd2.2.1, ?_, hord.rejected, ?_, ?_, ?_, by decide, by decide,
    by decide⟩
  · have := hnd2.2.1
    unfold AdvancedWorkerPool.dispatchedHandles at this
    exact (List.nodup_append.1 (List.nodup_append.1 this).2.1).1
  · intro d hd hq
    exact hnd2.2.2 hq (hlogmem d hd)
  · intro d hd
    have := hlogmem d hd
    unfold AdvancedWorkerPool.dispatchedHandles at this
    rw [hord.rejected] at this
    simp only [List.map_nil, List.append_nil, List.mem_append] at this
    rcases this with h | h
    · exact Or.inr h
    · exact Or.inl h
  · intro r hr
    cases hres : r.result with
    | none =>
      obtain ⟨wk, wk1, res, h1, h2, h3, _⟩ :=
        AdvancedWorkerPool.settle_then_resume clock p r hpart hr hres
      exact ⟨wk, wk1, res, h1, h2, h3⟩
    | some c =>
      cases c with
      | error e => exact absurd hres (hord.noThrow r hr e)
      | ok res =>
        exact ⟨res, rfl, (AdvancedWorkerPool.runTaskResumes_resolves clock p r res hpart hr
          hres).1⟩

end UltraThink

namespace UltraThink

/-! ## Submitting to a pool that is shutting down -/

theorem AdvancedWorkerPool.processTaskQueue_handles (clock : Nat → ℚ) (p : AdvancedWorkerPool)
    (h : Ordered p) : (p.processTaskQueue clock).handles.Perm p.handles :=
  (@AdvancedWorkerPool.processTaskQueue_induct
    (fun x => Ordered x ∧ x.handles.Perm p.handles) clock
    (fun x tw rest w hx hq _ => by
      refine ⟨ordered_dispatch clock x tw rest w hx.1 hq, List.Perm.trans ?_ hx.2⟩
      have hrun : (x.dispatch clock tw rest w).dispatchedHandles =
          (x.running.map (fun r => r.taskWrapper.handle) ++ [tw.handle]) ++
            (x.resolved.map Prod.fst ++ x.rejected.map Prod.fst) := by
        simp [AdvancedWorkerPool.dispatchedHandles, AdvancedWorkerPool.dispatch,
          AdvancedWorkerPool.startRunTask]
      unfold AdvancedWorkerPool.handles
      rw [hrun, hq]
      show (rest.map (fun t => t.handle) ++ _).Perm _
      unfold AdvancedWorkerPool.dispatchedHandles
      rw [List.perm_iff_count]
      intro a
      simp only [List.map_cons, List.count_append, List.count_cons, List.count_nil]
      omega)
    (fun x hx => ⟨⟨hx.1.nodup, hx.1.bound, hx.1.log, hx.1.noThrow,
      hx.1.rejected⟩, hx.2⟩)
    p ⟨h, List.Perm.refl _⟩).2

/-- After the pool's `executeTask`, the new handle is queued or in flight. -/
theorem AdvancedWorkerPool.executeTask_handle (clock : Nat → ℚ) (p : AdvancedWorkerPool)
    (td : TaskData) (pr : String) (h : Ordered p) :
    p.promises ∈ (p.executeTask clock td pr).taskQueue.map (fun t => t.handle) ∨
    p.promises ∈ (p.executeTask clock td pr).running.map (fun r => r.taskWrapper.handle) := by
  have he := ordered_enqueue clock p td pr h
  have hperm := AdvancedWorkerPool.processTaskQueue_handles clock _ he
  have hin : p.promises ∈ (p.enqueue clock td pr).handles := by
    unfold AdvancedWorkerPool.handles
    apply List.mem_append_left
    apply List.mem_map.2
    refine ⟨{ taskData := td, priority := pr, handle := p.promises,
              startTime := clock p.clockReads, waitTime := 0 }, ?_, rfl⟩
    show _ ∈ sortQueue (p.taskQueue ++ [_])
    exact (List.perm_insertionSort priorityGE _).mem_iff.2 (by simp)
  have hin' : p.promises ∈ (p.executeTask clock td pr).handles := hperm.mem_iff.2 hin
  unfold AdvancedWorkerPool.handles AdvancedWorkerPool.dispatchedHandles at hin'
  have hres : (p.executeTask clock td pr).resolved = p.resolved :=
    (AdvancedWorkerPool.processTaskQueue_frame clock _).2.1
  have hrej : (p.executeTask clock td pr).rejected = p.rejected :=
    (AdvancedWorkerPool.processTaskQueue_frame clock _).2.2.1
  rw [hres, hrej] at hin'
  simp only [List.mem_append] at hin'
  rcases hin' with hq | hr | hs | hj
  · exact Or.inl hq
  · exact Or.inr hr
  · exfalso
    have : p.promises ∈ p.handles := by
      unfold AdvancedWorkerPool.handles AdvancedWorkerPool.dispatchedHandles
      simp only [List.mem_append]
      exact Or.inr (Or.inr (Or.inl hs))
    exact absurd (h.bound _ this) (lt_irrefl _)
  · exfalso
    have : p.promises ∈ p.handles := by
      unfold AdvancedWorkerPool.handles AdvancedWorkerPool.dispatchedHandles
      simp only [List.mem_append]
      exact Or.inr (Or.inr (Or.inr hj))
    exact absurd (h.bound _ this) (lt_irrefl _)

theorem stuck_step (clock : Nat → ℚ) (R : List (Nat × Result)) (J : List (Nat × String))
    (L : List Dispatch) :
    ∀ (p : AdvancedWorkerPool) (e : PoolEvent),
      Stuck p ∧ p.resolved = R ∧ p.rejected = J ∧ p.dispatchLog = L →
      Stuck (p.step clock e) ∧ (p.step clock e).resolved = R ∧ (p.step clock e).rejected = J ∧
        (p.step clock e).dispatchLog = L := by
  refine @AdvancedWorkerPool.step_induct
    (fun p => Stuck p ∧ p.resolved = R ∧ p.rejected = J ∧ p.dispatchLog = L) clock
    ?_ ?_ ?_ ?_ ?_ ?_
  · intro p td pr h
    exact ⟨⟨h.1.available, h.1.busy, h.1.running⟩, h.2⟩
  · intro p tw rest w h _ hw
    rw [h.1.available] at hw
    simp at hw
  · intro p h
    exact ⟨⟨h.1.available, h.1.busy, h.1.running⟩, h.2⟩
  · intro p w h
    have : p.workerSettles clock w = p := by
      unfold AdvancedWorkerPool.workerSettles
      rw [h.1.running]
      rfl
    rw [this]; exact h
  · intro p r h hr _
    rw [h.1.running] at hr
    simp at hr
  · intro p h
    unfold AdvancedWorkerPool.shutdown
    split
    · exact h
    · exact ⟨⟨rfl, rfl, h.1.running⟩, h.2⟩

theorem stuck_of_no_workers {p : AdvancedWorkerPool} (h : Partitioned p) (hw : p.workers = []) :
    Stuck p := by
  have hperm := h.perm
  rw [hw] at hperm
  have hnil := List.Perm.eq_nil hperm
  have ha : p.availableWorkers = [] := (List.append_eq_nil.1 hnil).1
  have hb : p.busyWorkers = [] := (List.append_eq_nil.1 hnil).2
  refine ⟨ha, hb, ?_⟩
  have := h.running
  rw [hb] at this
  simpa using this

/-- C6 fails as stated: after `shutdown()` has cleared a pool of size 1, `executeTask` puts the
task in `taskQueue` and rejects nothing; and a task submitted while `shutdown()` is still
waiting for a busy worker is executed and resolved like any other. -/
theorem submit_after_shutdown_counterexample :
    (reached 1 zeroClock [.shutdown, .executeTask (exampleTask "late") "normal"]).rejected = [] ∧
    (reached 1 zeroClock [.shutdown, .executeTask (exampleTask "late") "normal"]).taskQueue.map
        (fun t => t.taskData.id) = [some "late"] ∧
    (reached 1 zeroClock [.executeTask (exampleTask "first") "normal", .shutdown,
        .executeTask (exampleTask "late") "normal", .workerSettles 0, .runTaskResumes 0,
        .workerSettles 0, .runTaskResumes 0]).resolved.map (fun x => (x.1, x.2.success)) =
      [(0, true), (1, true)] := by
  refine ⟨by decide, by decide, by decide⟩

/-- C6 as amended: the pool's `executeTask` has no shutdown check. For every call, made before
or after `shutdown()` has begun, no handle is rejected and the task is put in `taskQueue` or
dispatched at once, like any other; when `shutdown()` has already cleared the pool (no worker
is left), the task is put in `taskQueue`, and in every later state it has not been
dispatched, resolved or rejected: its handle stays pending. -/
theorem submit_after_shutdown_accepted (N : Nat) (clock : Nat → ℚ) (evs evs2 : List PoolEvent)
    (td : TaskData) (pr : String) :
    (reached N clock (evs ++ [.executeTask td pr])).rejected = [] ∧
    ((reached N clock evs).promises ∈
        (reached N clock (evs ++ [.executeTask td pr])).taskQueue.map (fun t => t.handle) ∨
      (reached N clock evs).promises ∈
        (reached N clock (evs ++ [.executeTask td pr])).running.map
          (fun r => r.taskWrapper.handle)) ∧
    ((reached N clock evs).workers = [] →
      (reached N clock evs).promises ∈
        (reached N clock (evs ++ [.executeTask td pr])).taskQueue.map (fun t => t.handle) ∧
      (reached N clock (evs ++ [.executeTask td pr] ++ evs2)).rejected = [] ∧
      (reached N clock (evs ++ [.executeTask td pr] ++ evs2)).resolved =
        (reached N clock evs).resolved ∧
      (reached N clock (evs ++ [.executeTask td pr] ++ evs2)).dispatchLog =
        (reached N clock evs).dispatchLog ∧
      (reached N clock (evs ++ [.executeTask td pr] ++ evs2)).running = []) := by
  have hord : Ordered (reached N clock evs) := ordered_run clock N evs
  have hpart : Partitioned (reached N clock evs) := partitioned_run clock N evs
  have hrun1 : reached N clock (evs ++ [.executeTask td pr]) =
      (reached N clock evs).executeTask clock td pr := by
    unfold reached
    rw [AdvancedWorkerPool.run_append]
    rfl
  have hrun2 : reached N clock (evs ++ [.executeTask td pr] ++ evs2) =
      ((reached N clock evs).executeTask clock td pr).run clock evs2 := by
    unfold reached
    rw [AdvancedWorkerPool.run_append, AdvancedWorkerPool.run_append]
    rfl
  have hhandle := AdvancedWorkerPool.executeTask_handle clock (reached N clock evs) td pr hord
  have hord1 : Ordered (reached N clock (evs ++ [.executeTask td pr])) := ordered_run clock N _
  refine ⟨hord1.rejected, ?_, ?_⟩
  · rw [hrun1]; exact hhandle
  · intro hcleared
    have hstuck := stuck_of_no_workers hpart hcleared
    have h1 := stuck_step clock (reached N clock evs).resolved (reached N clock evs).rejected
      (reached N clock evs).dispatchLog (reached N clock evs) (.executeTask td pr)
      ⟨hstuck, rfl, rfl, rfl⟩
    have h2 := @AdvancedWorkerPool.run_induct
      (fun p => Stuck p ∧ p.resolved = (reached N clock evs).resolved ∧
        p.rejected = (reached N clock evs).rejected ∧
        p.dispatchLog = (reached N clock evs).dispatchLog) clock
      (stuck_step clock _ _ _) evs2 _ h1
    rw [hrun1, hrun2]
    refine ⟨?_, ?_, h2.2.1, h2.2.2.2, h2.1.running⟩
    · rcases hhandle with h | h
      · exact h
      · have hr : ((reached N clock evs).executeTask clock td pr).running = [] := h1.1.running
        rw [hr] at h
        simp at h
    · exact h2.2.2.1.trans hord.rejected

/-- C6 as amended, at a concrete run: a pool of size 1 cleared by `shutdown()`. -/
theorem submit_after_shutdown_accepted_witness :
    (reached 1 zeroClock [.shutdown]).workers = [] ∧
    (reached 1 zeroClock [.shutdown]).promises ∈
      (reached 1 zeroClock ([.shutdown] ++ [.executeTask (exampleTask "late") "normal"])).taskQueue.map
        (fun t => t.handle) :=
  ⟨by decide,
   ((submit_after_shutdown_accepted 1 zeroClock [.shutdown] [] (exampleTask "late") "normal").2.2
      (by decide)).1⟩

end UltraThink

namespace UltraThink

/-! ## Counting tasks -/

theorem Partitioned.busy_le {p : AdvancedWorkerPool} (h : Partitioned p) :
    p.busyWorkers.length ≤ p.maxSize ∧ p.running.length = p.busyWorkers.length := by
  have hlen := h.perm.length_eq
  rw [List.length_append] at hlen
  have := h.size
  refine ⟨by omega, ?_⟩
  rw [← h.running, List.length_map]

theorem UltraThinkWorker.generic_succeeds (w : UltraThinkWorker) (td : TaskData)
    (hg : td.isGeneric = true) :
    ∃ out, w.simulateTaskExecution td = .ok out := by
  simp only [TaskData.isGeneric, decide_eq_true_eq] at hg
  obtain ⟨h1, h2, h3, h4⟩ := hg
  unfold UltraThinkWorker.simulateTaskExecution
  rw [if_neg h1, if_neg h2, if_neg h3, if_neg h4]
  exact ⟨_, rfl⟩

theorem accounted_fresh (N : Nat) :
    Accounted (AdvancedWorkerPool.fresh N) ∧ AllGeneric (AdvancedWorkerPool.fresh N) := by
  rw [AdvancedWorkerPool.fresh_eq]
  refine ⟨⟨rfl, rfl, Nat.le_refl _, Nat.zero_le _, rfl⟩, ⟨?_, ?_, ?_⟩⟩
  · intro t ht; simp [AdvancedWorkerPool.new] at ht
  · intro r hr; simp [AdvancedWorkerPool.new] at hr
  · intro x hx; simp [AdvancedWorkerPool.new] at hx

theorem accounted_step (clock : Nat → ℚ) (e : PoolEvent) (hev : e.isGenericWork = true) :
    ∀ p : AdvancedWorkerPool, Partitioned p ∧ Ordered p ∧ Accounted p ∧ AllGeneric p →
      Partitioned (p.step clock e) ∧ Ordered (p.step clock e) ∧ Accounted (p.step clock e) ∧
        AllGeneric (p.step clock e) := by
  refine @AdvancedWorkerPool.step_induct_at
    (fun p => Partitioned p ∧ Ordered p ∧ Accounted p ∧ AllGeneric p) clock e
    ?_ ?_ ?_ ?_ ?_ ?_
  · intro p td pr heq ⟨hp, ho, ha, hg⟩
    have htd : td.isGeneric = true := by
      rw [heq] at hev; exact hev
    have hlen : (p.enqueue clock td pr).taskQueue.length = p.taskQueue.length + 1 := by
      show (sortQueue (p.taskQueue ++ [_])).length = _
      unfold sortQueue
      rw [List.length_insertionSort]
      simp
    refine ⟨⟨hp.nodup, hp.perm, hp.running, hp.size, hp.valid⟩, ordered_enqueue clock p td pr ho,
      ⟨?_, ha.resolved, ?_, ha.peakSize, ?_⟩, ⟨?_, hg.running, hg.resolved⟩⟩
    · show p.stats.totalTasks + 1 = p.stats.completedTasks + p.running.length +
        (p.enqueue clock td pr).taskQueue.length
      rw [hlen]
      have := ha.total
      omega
    · show p.stats.peakConcurrency ≤ p.stats.totalTasks + 1
      exact Nat.le_succ_of_le ha.peakTotal
    · show p.promises + 1 = p.stats.totalTasks + 1
      rw [ha.promises]
    · intro t ht
      have ht'' := (List.perm_insertionSort priorityGE _).mem_iff.1 ht
      rcases List.mem_append.1 ht'' with hq | hn
      · exact hg.queue t hq
      · rw [List.mem_singleton.1 hn]
        exact htd
  · intro p tw rest w ⟨hp, ho, ha, hg⟩ hq hw
    refine ⟨partitioned_dispatch clock p tw rest w hp hw, ordered_dispatch clock p tw rest w ho hq,
      ⟨?_, ha.resolved, ha.peakTotal, ha.peakSize, ha.promises⟩, ⟨?_, ?_, hg.resolved⟩⟩
    · have hrl : (p.dispatch clock tw rest w).running.length = p.running.length + 1 := by
        simp [AdvancedWorkerPool.dispatch, AdvancedWorkerPool.startRunTask]
      show p.stats.totalTasks = p.stats.completedTasks +
        (p.dispatch clock tw rest w).running.length + rest.length
      rw [hrl]
      have := ha.total
      rw [hq, List.length_cons] at this
      omega
    · intro t ht
      exact hg.queue t (hq ▸ List.mem_cons_of_mem _ ht)
    · intro r hr
      simp only [AdvancedWorkerPool.dispatch, AdvancedWorkerPool.startRunTask,
        List.mem_append, List.mem_singleton] at hr
      rcases hr with hold | hnew
      · exact hg.running r hold
      · subst hnew
        refine ⟨hg.queue tw (hq ▸ List.mem_cons_self _ _), ?_⟩
        intro c hc
        simp at hc
  · intro p ⟨hp, ho, ha, hg⟩
    have hb := hp.busy_le
    refine ⟨⟨hp.nodup, hp.perm, hp.running, hp.size, hp.valid⟩,
      ⟨ho.nodup, ho.bound, ho.log, ho.noThrow, ho.rejected⟩,
      ⟨ha.total, ha.resolved, ?_, ?_, ha.promises⟩, ⟨hg.queue, hg.running, hg.resolved⟩⟩
    · show max p.stats.peakConcurrency p.busyWorkers.length ≤ p.stats.totalTasks
      have := ha.total
      have := ha.peakTotal
      exact max_le ‹_› (by omega)
    · show max p.stats.peakConcurrency p.busyWorkers.length ≤ p.maxSize
      exact max_le ha.peakSize hb.1
  · intro p w _ ⟨hp, ho, ha, hg⟩
    refine ⟨partitioned_workerSettles clock p w hp, ordered_workerSettles clock p w ho, ?_, ?_⟩
    · obtain ⟨_, _, _, h4, h5, h6, _, h8, _, h10⟩ :=
        AdvancedWorkerPool.workerSettles_frame clock p w
      have hm : (p.workerSettles clock w).maxSize = p.maxSize := by
        unfold AdvancedWorkerPool.workerSettles
        split <;> rfl
      refine ⟨?_, ?_, ?_, ?_, ?_⟩
      · rw [h5, h10, h4]; exact ha.total
      · rw [h5, h6]; exact ha.resolved
      · rw [h5]; exact ha.peakTotal
      · rw [h5, hm]; exact ha.peakSize
      · rw [h5, h8]; exact ha.promises
    · rcases AdvancedWorkerPool.workerSettles_eq clock p w with heq |
        ⟨r, wk, wk1, res, hr, _, _, _, hfin, heq⟩
      · rw [heq]; exact hg
      · rw [heq]
        obtain ⟨out, hout⟩ := wk.generic_succeeds r.taskWrapper.taskData (hg.running r hr).1
        have hsucc : res.success = true := by
          obtain ⟨wk1', res', hfin', _, hs⟩ := UltraThinkWorker.finishTask_ok wk
            (wk.simulateTaskExecution r.taskWrapper.taskData) (clock p.clockReads - r.startTime)
          rw [hfin] at hfin'
          have hrr : res = res' := by
            injection hfin' with h1
            exact (Prod.mk.inj h1).2
          rw [hrr, hs, hout]
        refine ⟨hg.queue, ?_, hg.resolved⟩
        intro x hx
        obtain ⟨y, hy, hxy⟩ := List.mem_map.1 hx
        by_cases hyw : y.worker = w
        · rw [if_pos hyw] at hxy
          rw [← hxy]
          refine ⟨(hg.running y hy).1, ?_⟩
          intro c hc
          simp only [Option.some.injEq] at hc
          exact ⟨res, hc.symm, hsucc⟩
        · rw [if_neg hyw] at hxy
          rw [← hxy]
          exact hg.running y hy
  · intro p r _ ⟨hp, ho, ha, hg⟩ hr hsome
    obtain ⟨c, hc⟩ := Option.isSome_iff_exists.1 hsome
    obtain ⟨res, hres, hsucc⟩ := (hg.running r hr).2 c hc
    rw [hres] at hc
    have hcomp : p.complete r =
        { p with
          stats := { p.stats with
            completedTasks := p.stats.completedTasks + 1
            averageWaitTime :=
              (p.stats.averageWaitTime * (((p.stats.completedTasks + 1 : Nat) : ℚ) - 1) +
                r.taskWrapper.waitTime) / ((p.stats.completedTasks + 1 : Nat) : ℚ) }
          resolved := p.resolved ++ [(r.taskWrapper.handle, res)] } := by
      unfold AdvancedWorkerPool.complete
      rw [hc]
    have hsplit := (running_split p.running r hp.running_nodup hr).length_eq
    rw [List.length_cons] at hsplit
    refine ⟨partitioned_release p r hp hr, ordered_release p r ho hp hr hsome, ?_, ?_⟩
    · rw [hcomp]
      refine ⟨?_, ?_, ha.peakTotal, ha.peakSize, ha.promises⟩
      · show p.stats.totalTasks = p.stats.completedTasks + 1 +
          (p.running.filter (fun x => x.worker ≠ r.worker)).length + p.taskQueue.length
        have := ha.total
        omega
      · show (p.resolved ++ [(r.taskWrapper.handle, res)]).length = p.stats.completedTasks + 1
        rw [List.length_append, ha.resolved]
        rfl
    · rw [hcomp]
      refine ⟨hg.queue, ?_, ?_⟩
      · intro x hx
        exact hg.running x (List.mem_of_mem_filter hx)
      · intro x hx
        have hx' : x ∈ p.resolved ++ [(r.taskWrapper.handle, res)] := hx
        rcases List.mem_append.1 hx' with hold | hnew
        · exact hg.resolved x hold
        · rw [List.mem_singleton.1 hnew]
          exact hsucc
  · intro p heq _
    rw [heq] at hev
    exact absurd hev (by decide)

theorem accounted_run (clock : Nat → ℚ) (evs : List PoolEvent) :
    ∀ p : AdvancedWorkerPool, (∀ e ∈ evs, e.isGenericWork = true) →
      Partitioned p ∧ Ordered p ∧ Accounted p ∧ AllGeneric p →
      Partitioned (p.run clock evs) ∧ Ordered (p.run clock evs) ∧ Accounted (p.run clock evs) ∧
        AllGeneric (p.run clock evs) := by
  induction evs with
  | nil => intro p _ h; exact h
  | cons e evs ih =>
    intro p hev h
    rw [AdvancedWorkerPool.run_cons]
    exact ih _ (fun x hx => hev x (List.mem_cons_of_mem _ hx))
      (accounted_step clock e (hev e (List.mem_cons_self _ _)) p h)

end UltraThink

namespace UltraThink

/-! ## Running a batch of generic tasks to the end -/

theorem AdvancedWorkerPool.complete_stats (p : AdvancedWorkerPool) (r : RunTask) :
    (p.complete r).stats.totalTasks = p.stats.totalTasks ∧
    (p.complete r).stats.peakConcurrency = p.stats.peakConcurrency := by
  unfold AdvancedWorkerPool.complete
  split <;> exact ⟨rfl, rfl⟩

/-- A submission counts one task and completes none. -/
theorem AdvancedWorkerPool.executeTask_counts (clock : Nat → ℚ) (p : AdvancedWorkerPool)
    (td : TaskData) (pr : String) :
    (p.executeTask clock td pr).stats.totalTasks = p.stats.totalTasks + 1 ∧
    (p.executeTask clock td pr).stats.completedTasks = p.stats.completedTasks ∧
    (p.executeTask clock td pr).workers = p.workers := by
  obtain ⟨_, _, _, h4, h5, h6, _⟩ :=
    AdvancedWorkerPool.processTaskQueue_frame clock (p.enqueue clock td pr)
  exact ⟨h4, h5, h6⟩

theorem AdvancedWorkerPool.run_submissions (clock : Nat → ℚ) (tasks : List (TaskData × String)) :
    ∀ p : AdvancedWorkerPool,
      (p.run clock (submissions tasks)).stats.totalTasks = p.stats.totalTasks + tasks.length ∧
      (p.run clock (submissions tasks)).stats.completedTasks = p.stats.completedTasks ∧
      (p.run clock (submissions tasks)).workers = p.workers := by
  induction tasks with
  | nil => intro p; exact ⟨rfl, rfl, rfl⟩
  | cons t tasks ih =>
    intro p
    obtain ⟨h1, h2, h3⟩ := AdvancedWorkerPool.executeTask_counts clock p t.1 t.2
    obtain ⟨i1, i2, i3⟩ := ih (p.executeTask clock t.1 t.2)
    show ((p.executeTask clock t.1 t.2).run clock (submissions tasks)).stats.totalTasks = _ ∧
      ((p.executeTask clock t.1 t.2).run clock (submissions tasks)).stats.completedTasks = _ ∧
      ((p.executeTask clock t.1 t.2).run clock (submissions tasks)).workers = _
    rw [i1, i2, i3, h1, h2, h3, List.length_cons]
    exact ⟨by omega, rfl, rfl⟩

/-- A completion event submits nothing, keeps the workers and does not lower the peak. -/
theorem AdvancedWorkerPool.completion_frame (clock : Nat → ℚ) (p : AdvancedWorkerPool)
    (e : PoolEvent) (he : e.isCompletion = true) :
    (p.step clock e).stats.totalTasks = p.stats.totalTasks ∧
    (p.step clock e).workers = p.workers ∧
    p.stats.peakConcurrency ≤ (p.step clock e).stats.peakConcurrency := by
  cases e with
  | executeTask td pr => simp [PoolEvent.isCompletion] at he
  | shutdown => simp [PoolEvent.isCompletion] at he
  | workerSettles w =>
    obtain ⟨_, _, h3, _, h5, _⟩ := AdvancedWorkerPool.workerSettles_frame clock p w
    show (p.workerSettles clock w).stats.totalTasks = _ ∧ (p.workerSettles clock w).workers = _ ∧
      _ ≤ (p.workerSettles clock w).stats.peakConcurrency
    rw [h5, h3]
    exact ⟨rfl, rfl, Nat.le_refl _⟩
  | runTaskResumes w =>
    show (p.runTaskResumes clock w).stats.totalTasks = _ ∧ (p.runTaskResumes clock w).workers = _ ∧
      _ ≤ (p.runTaskResumes clock w).stats.peakConcurrency
    unfold AdvancedWorkerPool.runTaskResumes
    split
    · exact ⟨rfl, rfl, Nat.le_refl _⟩
    · rename_i r _
      obtain ⟨_, _, _, h4, _, h6, _⟩ :=
        AdvancedWorkerPool.processTaskQueue_frame clock ((p.complete r).releaseWorker w)
      refine ⟨?_, ?_, ?_⟩
      · rw [h4]; exact (AdvancedWorkerPool.complete_stats p r).1
      · rw [h6]; exact (AdvancedWorkerPool.complete_frame p r).2.2.2.1
      · have hmono := @AdvancedWorkerPool.processTaskQueue_induct
          (fun x => p.stats.peakConcurrency ≤ x.stats.peakConcurrency) clock
          (fun _ _ _ _ h _ _ => h)
          (fun x h => le_trans h (le_max_left _ _))
          ((p.complete r).releaseWorker w)
          (by
            show p.stats.peakConcurrency ≤ (p.complete r).stats.peakConcurrency
            rw [(AdvancedWorkerPool.complete_stats p r).2])
        exact hmono

theorem AdvancedWorkerPool.run_completions (clock : Nat → ℚ) (evs : List PoolEvent) :
    ∀ p : AdvancedWorkerPool, (∀ e ∈ evs, e.isCompletion = true) →
      (p.run clock evs).stats.totalTasks = p.stats.totalTasks ∧
      (p.run clock evs).workers = p.workers ∧
      p.stats.peakConcurrency ≤ (p.run clock evs).stats.peakConcurrency := by
  induction evs with
  | nil => intro p _; exact ⟨rfl, rfl, Nat.le_refl _⟩
  | cons e evs ih =>
    intro p hev
    obtain ⟨h1, h2, h3⟩ :=
      AdvancedWorkerPool.completion_frame clock p e (hev e (List.mem_cons_self _ _))
    obtain ⟨i1, i2, i3⟩ := ih (p.step clock e) (fun x hx => hev x (List.mem_cons_of_mem _ hx))
    rw [AdvancedWorkerPool.run_cons, i1, i2, h1, h2]
    exact ⟨rfl, rfl, le_trans h3 i3⟩

theorem PoolEvent.isGenericWork_of_isCompletion {e : PoolEvent} (h : e.isCompletion = true) :
    e.isGenericWork = true := by
  cases e with
  | executeTask td pr => simp [PoolEvent.isCompletion] at h
  | shutdown => simp [PoolEvent.isCompletion] at h
  | workerSettles w => rfl
  | runTaskResumes w => rfl

/-- A pool that holds a worker can always be run until nothing is busy or queued. -/
theorem AdvancedWorkerPool.drain_exists (clock : Nat → ℚ) :
    ∀ (k : Nat) (p : AdvancedWorkerPool),
      Partitioned p ∧ Ordered p ∧ Accounted p ∧ AllGeneric p → Settled p → p.workers ≠ [] →
      p.stats.totalTasks - p.stats.completedTasks = k →
      ∃ evs, (∀ e ∈ evs, e.isCompletion = true) ∧ (p.run clock evs).busyWorkers = [] ∧
        (p.run clock evs).taskQueue = [] := by
  intro k
  induction k with
  | zero =>
    intro p ⟨hp, _, ha, _⟩ _ _ hk
    have ht := ha.total
    have hr : p.running = [] := List.length_eq_zero.1 (by omega)
    have hq : p.taskQueue = [] := List.length_eq_zero.1 (by omega)
    refine ⟨[], by simp, ?_, hq⟩
    show p.busyWorkers = []
    rw [← hp.running, hr]
    rfl
  | succ k ih =>
    intro p hinv hset hw hk
    obtain ⟨hp, ho, ha, hg⟩ := hinv
    have ht := ha.total
    have hrun : p.running ≠ [] := by
      intro hr
      have hb : p.busyWorkers = [] := by rw [← hp.running, hr]; rfl
      have hq : p.taskQueue ≠ [] := by
        intro hq
        rw [hr, hq] at ht
        simp at ht
        omega
      have hav := hset.conserving hq
      have hperm := hp.perm
      rw [hav, hb] at hperm
      exact hw (List.Perm.nil_eq hperm).symm
    obtain ⟨r, hr⟩ := List.exists_mem_of_ne_nil _ hrun
    have hstep : ∀ (q : AdvancedWorkerPool) (e : PoolEvent), e.isCompletion = true →
        (Partitioned q ∧ Ordered q ∧ Accounted q ∧ AllGeneric q) → Settled q → q.workers ≠ [] →
        (Partitioned (q.step clock e) ∧ Ordered (q.step clock e) ∧ Accounted (q.step clock e) ∧
          AllGeneric (q.step clock e)) ∧ Settled (q.step clock e) ∧ (q.step clock e).workers ≠ [] ∧
          (q.step clock e).stats.totalTasks = q.stats.totalTasks := by
      intro q e he hq hs hqw
      obtain ⟨h1, h2, _⟩ := AdvancedWorkerPool.completion_frame clock q e he
      refine ⟨accounted_step clock e (PoolEvent.isGenericWork_of_isCompletion he) q hq,
        settled_step clock q e hs, ?_, h1⟩
      rw [h2]; exact hqw
    cases hres : r.result with
    | none =>
      obtain ⟨_, _, _, _, _, _, hc⟩ :=
        AdvancedWorkerPool.settle_then_resume clock p r hp hr hres
      obtain ⟨h1, h1s, h1w, h1t⟩ := hstep p (.workerSettles r.worker) rfl ⟨hp, ho, ha, hg⟩ hset hw
      obtain ⟨h2, h2s, h2w, h2t⟩ := hstep _ (.runTaskResumes r.worker) rfl h1 h1s h1w
      have hk2 : ((p.step clock (.workerSettles r.worker)).step clock
          (.runTaskResumes r.worker)).stats.totalTasks -
          ((p.step clock (.workerSettles r.worker)).step clock
          (.runTaskResumes r.worker)).stats.completedTasks = k := by
        rw [h2t, h1t]
        have hc' : ((p.step clock (.workerSettles r.worker)).step clock
          (.runTaskResumes r.worker)).stats.completedTasks = p.stats.completedTasks + 1 := hc
        rw [hc']
        omega
      obtain ⟨evs, hev, hb, hq⟩ := ih _ h2 h2s h2w hk2
      refine ⟨.workerSettles r.worker :: .runTaskResumes r.worker :: evs, ?_, hb, hq⟩
      intro e he
      rcases List.mem_cons.1 he with rfl | he'
      · rfl
      · rcases List.mem_cons.1 he' with rfl | he''
        · rfl
        · exact hev e he''
    | some c =>
      cases c with
      | error e => exact absurd hres (ho.noThrow r hr e)
      | ok res =>
        obtain ⟨_, _, hc, _⟩ :=
          AdvancedWorkerPool.runTaskResumes_resolves clock p r res hp hr hres
        obtain ⟨h1, h1s, h1w, h1t⟩ :=
          hstep p (.runTaskResumes r.worker) rfl ⟨hp, ho, ha, hg⟩ hset hw
        have hk1 : (p.step clock (.runTaskResumes r.worker)).stats.totalTasks -
            (p.step clock (.runTaskResumes r.worker)).stats.completedTasks = k := by
          rw [h1t]
          have hc' : (p.step clock (.runTaskResumes r.worker)).stats.completedTasks =
            p.stats.completedTasks + 1 := hc
          rw [hc']
          omega
        obtain ⟨evs, hev, hb, hq⟩ := ih _ h1 h1s h1w hk1
        refine ⟨.runTaskResumes r.worker :: evs, ?_, hb, hq⟩
        intro e he
        rcases List.mem_cons.1 he with rfl | he'
        · rfl
        · exact hev e he'

end UltraThink

namespace UltraThink

theorem submissions_generic (tasks : List (TaskData × String))
    (hgen : ∀ t ∈ tasks, t.1.isGeneric = true) :
    ∀ e ∈ submissions tasks, e.isGenericWork = true := by
  intro e he
  obtain ⟨t, ht, rfl⟩ := List.mem_map.1 he
  exact hgen t ht

/-- The state after a batch of generic submissions to a fresh pool. -/
theorem submitted_state (N : Nat) (clock : Nat → ℚ)
    (tasks : List (TaskData × String)) (hgen : ∀ t ∈ tasks, t.1.isGeneric = true) :
    (Partitioned (reached N clock (submissions tasks)) ∧
      Ordered (reached N clock (submissions tasks)) ∧
      Accounted (reached N clock (submissions tasks)) ∧
      AllGeneric (reached N clock (submissions tasks))) ∧
    Settled (reached N clock (submissions tasks)) ∧
    (reached N clock (submissions tasks)).workers = List.range N ∧
    (reached N clock (submissions tasks)).stats.totalTasks = tasks.length ∧
    (reached N clock (submissions tasks)).stats.completedTasks = 0 ∧
    min tasks.length N ≤ (reached N clock (submissions tasks)).stats.peakConcurrency := by
  have hinv : Partitioned (reached N clock (submissions tasks)) ∧
      Ordered (reached N clock (submissions tasks)) ∧
      Accounted (reached N clock (submissions tasks)) ∧
      AllGeneric (reached N clock (submissions tasks)) :=
    accounted_run clock (submissions tasks) (AdvancedWorkerPool.fresh N)
      (submissions_generic tasks hgen)
      ⟨partitioned_fresh N, ordered_fresh N, (accounted_fresh N).1, (accounted_fresh N).2⟩
  have hset : Settled (reached N clock (submissions tasks)) := settled_run clock N _
  obtain ⟨h1, h2, h3⟩ := AdvancedWorkerPool.run_submissions clock tasks (AdvancedWorkerPool.fresh N)
  have hw : (reached N clock (submissions tasks)).workers = List.range N := by
    show ((AdvancedWorkerPool.fresh N).run clock (submissions tasks)).workers = _
    rw [h3, AdvancedWorkerPool.fresh_eq]
  have ht : (reached N clock (submissions tasks)).stats.totalTasks = tasks.length := by
    show ((AdvancedWorkerPool.fresh N).run clock (submissions tasks)).stats.totalTasks = _
    rw [h1, AdvancedWorkerPool.fresh_eq]
    simp [AdvancedWorkerPool.new]
  have hc : (reached N clock (submissions tasks)).stats.completedTasks = 0 := by
    show ((AdvancedWorkerPool.fresh N).run clock (submissions tasks)).stats.completedTasks = _
    rw [h2, AdvancedWorkerPool.fresh_eq]
    rfl
  refine ⟨hinv, hset, hw, ht, hc, ?_⟩
  generalize reached N clock (submissions tasks) = s at hinv hset hw ht hc ⊢
  obtain ⟨hp, _, ha, _⟩ := hinv
  have htot := ha.total
  have hlen := hp.perm.length_eq
  rw [hw, List.length_append, List.length_range] at hlen
  have hrb := hp.busy_le.2
  refine le_trans ?_ hset.peak
  by_cases hq : s.taskQueue = []
  · rw [hq] at htot
    simp at htot
    omega
  · have hav := hset.conserving hq
    rw [hav] at hlen
    simp at hlen
    omega

/-- C7. End-to-end counts: for a pool of size `N >= 1` initialised once and `M` tasks of
generic type submitted before any completes, the pool can be run until no worker is busy and
nothing is queued; and whenever completions have brought it to such a state,
`completedTasks == M`, `totalTasks == M`, `peakConcurrency == min(M, N)`, and `M` results have
been delivered, one to each of the `M` handles, all with `success == true`. -/
theorem pool_end_to_end (N : Nat) (hN : 1 ≤ N) (clock : Nat → ℚ)
    (tasks : List (TaskData × String)) (hgen : ∀ t ∈ tasks, t.1.isGeneric = true) :
    (∃ completions, (∀ e ∈ completions, e.isCompletion = true) ∧
      (reached N clock (submissions tasks ++ completions)).busyWorkers = [] ∧
      (reached N clock (submissions tasks ++ completions)).taskQueue = []) ∧
    (∀ completions, (∀ e ∈ completions, e.isCompletion = true) →
      (reached N clock (submissions tasks ++ completions)).busyWorkers = [] →
      (reached N clock (submissions tasks ++ completions)).taskQueue = [] →
      (reached N clock (submissions tasks ++ completions)).stats.completedTasks = tasks.length ∧
      (reached N clock (submissions tasks ++ completions)).stats.totalTasks = tasks.length ∧
      (reached N clock (submissions tasks ++ completions)).stats.peakConcurrency =
        min tasks.length N ∧
      (reached N clock (submissions tasks ++ completions)).resolved.length = tasks.length ∧
      (∀ x ∈ (reached N clock (submissions tasks ++ completions)).resolved,
        x.2.success = true) ∧
      ((reached N clock (submissions tasks ++ completions)).resolved.map Prod.fst).Perm
        (List.range tasks.length)) := by
  obtain ⟨hinv, hset, hw, ht, hc, hpk⟩ := submitted_state N clock tasks hgen
  have hsplit : ∀ completions, reached N clock (submissions tasks ++ completions) =
      (reached N clock (submissions tasks)).run clock completions := by
    intro completions
    unfold reached
    rw [AdvancedWorkerPool.run_append]
  have hwne : (reached N clock (submissions tasks)).workers ≠ [] := by
    rw [hw]
    intro h
    have := congrArg List.length h
    simp at this
    omega
  constructor
  · obtain ⟨evs, hev, hb, hq⟩ := AdvancedWorkerPool.drain_exists clock _
      (reached N clock (submissions tasks)) hinv hset hwne rfl
    exact ⟨evs, hev, by rw [hsplit]; exact hb, by rw [hsplit]; exact hq⟩
  · intro completions hev hb hq
    rw [hsplit] at hb hq ⊢
    have hfinal := accounted_run clock completions (reached N clock (submissions tasks))
      (fun e he => PoolEvent.isGenericWork_of_isCompletion (hev e he)) hinv
    obtain ⟨f1, _, f3⟩ := AdvancedWorkerPool.run_completions clock completions
      (reached N clock (submissions tasks)) hev
    have hmax : ((reached N clock (submissions tasks)).run clock completions).maxSize = N := by
      have := AdvancedWorkerPool.maxSize_run clock N (submissions tasks ++ completions)
      rw [AdvancedWorkerPool.run_append] at this
      exact this
    generalize (reached N clock (submissions tasks)).run clock completions = p
      at hb hq hfinal f1 f3 hmax ⊢
    obtain ⟨hp, ho, ha, hg⟩ := hfinal
    have htot := ha.total
    have hrun : p.running = [] := by
      have := hp.running
      rw [hb] at this
      simpa using this
    rw [hrun, hq] at htot
    simp only [List.length_nil, Nat.add_zero] at htot
    have hcomp : p.stats.completedTasks = tasks.length := by omega
    have hlen : p.resolved.length = tasks.length := by rw [ha.resolved, hcomp]
    refine ⟨hcomp, by omega, ?_, hlen, hg.resolved, ?_⟩
    · have h1 := ha.peakTotal
      have h2 := ha.peakSize
      rw [hmax] at h2
      have h3 : min tasks.length N ≤ p.stats.peakConcurrency := le_trans hpk f3
      have h4 : p.stats.peakConcurrency ≤ min tasks.length N := le_min (by omega) h2
      omega
    · have hnd : (p.resolved.map Prod.fst).Nodup := by
        have := ho.nodup
        unfold AdvancedWorkerPool.handles AdvancedWorkerPool.dispatchedHandles at this
        exact (List.nodup_append.1 (List.nodup_append.1
          (List.nodup_append.1 this).2.1).2.1).1
      have hsub : p.resolved.map Prod.fst ⊆ List.range tasks.length := by
        intro h hh
        have hmem : h ∈ p.handles := by
          unfold AdvancedWorkerPool.handles AdvancedWorkerPool.dispatchedHandles
          simp only [List.mem_append]
          exact Or.inr (Or.inr (Or.inl hh))
        have := ho.bound h hmem
        rw [ha.promises] at this
        exact List.mem_range.2 (by omega)
      refine (List.subperm_of_subset hnd hsub).perm_of_length_le ?_
      rw [List.length_range, List.length_map, hlen]

/-- C7 at the example of the claim: pool size 2, four generic tasks of 50 ms. -/
theorem pool_end_to_end_witness :
    (1 ≤ 2 ∧ ∀ t ∈ fourTasks, t.1.isGeneric = true) ∧
    (reached 2 zeroClock (submissions fourTasks ++ fourCompletions)).stats.completedTasks = 4 ∧
    (reached 2 zeroClock (submissions fourTasks ++ fourCompletions)).stats.peakConcurrency = 2 :=
  have h := (pool_end_to_end 2 (by decide) zeroClock fourTasks (by decide)).2 fourCompletions
    (by decide) (by decide) (by decide)
  ⟨⟨by decide, by decide⟩, h.1, h.2.2.1⟩

end UltraThink

namespace UltraThink

/-- The model of `Array.prototype.sort` with the pool's comparator is what the language
requires of it: the result is a rearrangement of the input and, when the comparator is
consistent (every label stands for a number), it is in comparator order, and two elements the
comparator does not separate keep their relative order (the sort is stable). -/
theorem sortQueue_spec (q : List TaskWrapper) :
    (sortQueue q).Perm q ∧
    ((∀ t ∈ q, (getPriorityValue t.priority).isSome = true) →
      (sortQueue q).Sorted priorityGE ∧
      ∀ a b, priorityGE a b → List.Sublist [a, b] q → List.Sublist [a, b] (sortQueue q)) := by
  refine ⟨List.perm_insertionSort priorityGE q, ?_⟩
  intro hplain
  rw [sortQueue_eq_rank q hplain]
  constructor
  · refine (List.sorted_insertionSort rankGE q).imp_of_mem ?_
    intro a b ha hb hab
    exact (priorityGE_iff_rankGE a b
      (hplain a ((List.perm_insertionSort rankGE q).mem_iff.1 ha))
      (hplain b ((List.perm_insertionSort rankGE q).mem_iff.1 hb))).2 hab
  · intro a b hab hsub
    have ha : a ∈ q := hsub.subset (by simp)
    have hb : b ∈ q := hsub.subset (by simp)
    exact List.pair_sublist_insertionSort
      ((priorityGE_iff_rankGE a b (hplain a ha) (hplain b hb)).1 hab) hsub

end UltraThink

namespace UltraThink

/-- Until a shutdown poll is made, the pool holds the workers `initialize()` made. -/
theorem reached_workers_of_no_shutdown (N : Nat) (clock : Nat → ℚ) (evs : List PoolEvent)
    (h : ∀ e ∈ evs, e ≠ PoolEvent.shutdown) : (reached N clock evs).workers = List.range N := by
  have key : ∀ (evs : List PoolEvent) (p : AdvancedWorkerPool),
      (∀ e ∈ evs, e ≠ PoolEvent.shutdown) → (p.run clock evs).workers = p.workers := by
    intro evs
    induction evs with
    | nil => intro p _; rfl
    | cons e evs ih =>
      intro p hev
      rw [AdvancedWorkerPool.run_cons, ih _ (fun x hx => hev x (List.mem_cons_of_mem _ hx))]
      have hne := hev e (List.mem_cons_self _ _)
      cases e with
      | executeTask td pr => exact (AdvancedWorkerPool.executeTask_counts clock p td pr).2.2
      | workerSettles w => exact (AdvancedWorkerPool.workerSettles_frame clock p w).2.2.1
      | runTaskResumes w =>
        exact (AdvancedWorkerPool.completion_frame clock p (.runTaskResumes w) rfl).2.1
      | shutdown => exact absurd rfl hne
  show ((AdvancedWorkerPool.fresh N).run clock evs).workers = _
  rw [key evs _ h, AdvancedWorkerPool.fresh_eq]

end UltraThink

namespace UltraThink

/-! ## The recorded peak -/

theorem maxBusy_ge_first (clock : Nat → ℚ) (p : AdvancedWorkerPool) (evs : List PoolEvent) :
    p.busyWorkers.length ≤ maxBusy clock p evs := by
  cases evs with
  | nil => exact Nat.le_refl _
  | cons e evs => exact le_max_left _ _

theorem AdvancedWorkerPool.admissionLoop_peak (clock : Nat → ℚ) (p : AdvancedWorkerPool) :
    (AdvancedWorkerPool.admissionLoop clock p.taskQueue p).stats.peakConcurrency =
      p.stats.peakConcurrency :=
  @AdvancedWorkerPool.admissionLoop_induct
    (fun x => x.stats.peakConcurrency = p.stats.peakConcurrency) clock
    (fun _ _ _ _ h _ _ => h) p.taskQueue p rfl rfl

/-- An event leaves as peak the greater of the old peak and the new number of busy workers. -/
theorem AdvancedWorkerPool.step_peak (clock : Nat → ℚ) (p : AdvancedWorkerPool) (e : PoolEvent)
    (h : Settled p) :
    (p.step clock e).stats.peakConcurrency =
      max p.stats.peakConcurrency (p.step clock e).busyWorkers.length := by
  cases e with
  | executeTask td pr =>
    show max (AdvancedWorkerPool.admissionLoop clock (p.enqueue clock td pr).taskQueue
        (p.enqueue clock td pr)).stats.peakConcurrency _ = _
    rw [AdvancedWorkerPool.admissionLoop_peak]
    rfl
  | workerSettles w =>
    obtain ⟨_, h2, _, _, h5, _⟩ := AdvancedWorkerPool.workerSettles_frame clock p w
    show (p.workerSettles clock w).stats.peakConcurrency =
      max p.stats.peakConcurrency (p.workerSettles clock w).busyWorkers.length
    rw [h5, h2]
    exact (max_eq_left h.peak).symm
  | runTaskResumes w =>
    show (p.runTaskResumes clock w).stats.peakConcurrency =
      max p.stats.peakConcurrency (p.runTaskResumes clock w).busyWorkers.length
    unfold AdvancedWorkerPool.runTaskResumes
    split
    · exact (max_eq_left h.peak).symm
    · rename_i r _
      show max (AdvancedWorkerPool.admissionLoop clock
          ((p.complete r).releaseWorker w).taskQueue
          ((p.complete r).releaseWorker w)).stats.peakConcurrency _ = _
      rw [AdvancedWorkerPool.admissionLoop_peak]
      show max (p.complete r).stats.peakConcurrency _ = _
      rw [(AdvancedWorkerPool.complete_stats p r).2]
      rfl
  | shutdown =>
    show p.shutdown.stats.peakConcurrency =
      max p.stats.peakConcurrency p.shutdown.busyWorkers.length
    unfold AdvancedWorkerPool.shutdown
    split
    · exact (max_eq_left h.peak).symm
    · exact (max_eq_left (Nat.zero_le _)).symm

theorem AdvancedWorkerPool.run_peak (clock : Nat → ℚ) (evs : List PoolEvent) :
    ∀ p : AdvancedWorkerPool, Settled p →
      (p.run clock evs).stats.peakConcurrency =
        max p.stats.peakConcurrency (maxBusy clock p evs) := by
  induction evs with
  | nil =>
    intro p h
    exact (max_eq_left h.peak).symm
  | cons e evs ih =>
    intro p h
    rw [AdvancedWorkerPool.run_cons, ih _ (settled_step clock p e h),
      AdvancedWorkerPool.step_peak clock p e h]
    have h1 := maxBusy_ge_first clock (p.step clock e) evs
    have h2 := h.peak
    show max (max _ _) _ = max _ (max _ _)
    omega

/-- C14. Peak concurrency: in every state reached from an initialised pool,
`stats.peakConcurrency` equals the greatest number of busy workers among all states gone
through so far; it does not decrease when the run goes on, it is at least the current number
of busy workers, and it is at most `maxSize`. -/
theorem pool_peak_concurrency (N : Nat) (clock : Nat → ℚ) (evs evs2 : List PoolEvent) :
    (reached N clock evs).stats.peakConcurrency =
      maxBusy clock (AdvancedWorkerPool.fresh N) evs ∧
    (reached N clock evs).stats.peakConcurrency ≤
      (reached N clock (evs ++ evs2)).stats.peakConcurrency ∧
    (reached N clock evs).busyWorkers.length ≤ (reached N clock evs).stats.peakConcurrency ∧
    (reached N clock evs).stats.peakConcurrency ≤ (reached N clock evs).maxSize ∧
    (reached N clock evs).maxSize = N := by
  have hset : Settled (reached N clock evs) := settled_run clock N evs
  have hfresh : Settled (AdvancedWorkerPool.fresh N) := settled_run clock N []
  have hpeak0 : (AdvancedWorkerPool.fresh N).stats.peakConcurrency = 0 := by
    rw [AdvancedWorkerPool.fresh_eq]; rfl
  have h1 : (reached N clock evs).stats.peakConcurrency =
      maxBusy clock (AdvancedWorkerPool.fresh N) evs := by
    show ((AdvancedWorkerPool.fresh N).run clock evs).stats.peakConcurrency = _
    rw [AdvancedWorkerPool.run_peak clock evs _ hfresh, hpeak0]
    exact max_eq_right (Nat.zero_le _)
  have hm : (reached N clock evs).maxSize = N := AdvancedWorkerPool.maxSize_run clock N evs
  refine ⟨h1, ?_, hset.peak, ?_, hm⟩
  · have : reached N clock (evs ++ evs2) = (reached N clock evs).run clock evs2 := by
      show (AdvancedWorkerPool.fresh N).run clock (evs ++ evs2) = _
      rw [AdvancedWorkerPool.run_append]
    rw [this, AdvancedWorkerPool.run_peak clock evs2 _ hset]
    exact le_max_left _ _
  · rw [h1, hm]
    have key : ∀ (evs : List PoolEvent) (p : AdvancedWorkerPool),
        Partitioned p → p.maxSize = N → maxBusy clock p evs ≤ N := by
      intro evs
      induction evs with
      | nil =>
        intro p hp hN
        have := hp.busy_le.1
        rw [hN] at this
        exact this
      | cons e evs ih =>
        intro p hp hN
        have := hp.busy_le.1
        rw [hN] at this
        exact max_le this
          (ih _ (partitioned_step clock p e hp) (AdvancedWorkerPool.maxSize_step clock N p e hN))
    exact key evs _ (partitioned_fresh N) (by rw [AdvancedWorkerPool.fresh_eq]; rfl)

end UltraThink

namespace UltraThink

/-! ## The running average of the wait time -/

theorem find_dispatch (log : List Dispatch) (d : Dispatch)
    (hnd : (log.map (fun x => x.task.handle)).Nodup) (hd : d ∈ log) :
    log.find? (fun x => x.task.handle = d.task.handle) = some d := by
  cases hf : log.find? (fun x => x.task.handle = d.task.handle) with
  | none =>
    have := List.find?_eq_none.1 hf d hd
    simp at this
  | some x =>
    have hx := List.mem_of_find?_eq_some hf
    have hpx := List.find?_some hf
    simp only [decide_eq_true_eq] at hpx
    have := List.inj_on_of_nodup_map hnd hx hd hpx
    rw [this]

theorem find_dispatch_append (log extra : List Dispatch) (handle : Nat)
    (h : handle ∈ log.map (fun x => x.task.handle)) :
    (log ++ extra).find? (fun x => x.task.handle = handle) =
      log.find? (fun x => x.task.handle = handle) := by
  rw [List.find?_append]
  cases hf : log.find? (fun x => x.task.handle = handle) with
  | none =>
    exfalso
    obtain ⟨d, hd, hdh⟩ := List.mem_map.1 h
    have := List.find?_eq_none.1 hf d hd
    simp [hdh] at this
  | some x => rfl

theorem ordered_log_nodup {p : AdvancedWorkerPool} (h : Ordered p) :
    (p.dispatchLog.map (fun d => d.task.handle)).Nodup := by
  have hnd := h.nodup
  unfold AdvancedWorkerPool.handles at hnd
  exact h.log.nodup_iff.2 (List.nodup_append.1 hnd).2.1

theorem ordered_resolved_logged {p : AdvancedWorkerPool} (h : Ordered p) :
    ∀ x ∈ p.resolved, x.1 ∈ p.dispatchLog.map (fun d => d.task.handle) := by
  intro x hx
  apply h.log.mem_iff.2
  unfold AdvancedWorkerPool.dispatchedHandles
  simp only [List.mem_append]
  exact Or.inr (Or.inl (List.mem_map_of_mem Prod.fst hx))

theorem waitAveraged_fresh (clock : Nat → ℚ) (N : Nat) :
    WaitAveraged clock (AdvancedWorkerPool.fresh N) := by
  rw [AdvancedWorkerPool.fresh_eq]
  refine ⟨rfl, ?_, ?_, ?_, ?_⟩
  · simp [AdvancedWorkerPool.completedWaitTimes, AdvancedWorkerPool.new]
  · intro r hr; simp [AdvancedWorkerPool.new] at hr
  · intro t ht; simp [AdvancedWorkerPool.new] at ht
  · intro d hd; simp [AdvancedWorkerPool.new] at hd

theorem waitAveraged_enqueue (clock : Nat → ℚ) (p : AdvancedWorkerPool) (td : TaskData)
    (pr : String) (h : WaitAveraged clock p) : WaitAveraged clock (p.enqueue clock td pr) := by
  refine ⟨h.count, h.mean, h.logged, ?_, ?_⟩
  · intro t ht
    have ht' := (List.perm_insertionSort priorityGE _).mem_iff.1 ht
    rcases List.mem_append.1 ht' with hq | hn
    · obtain ⟨i, hi, hs⟩ := h.queued t hq
      exact ⟨i, Nat.lt_succ_of_lt hi, hs⟩
    · rw [List.mem_singleton.1 hn]
      exact ⟨p.clockReads, Nat.lt_succ_self _, rfl⟩
  · intro d hd
    obtain ⟨i, j, hij, hj, hs, hw⟩ := h.measured d hd
    exact ⟨i, j, hij, Nat.lt_succ_of_lt hj, hs, hw⟩

theorem waitAveraged_dispatch (clock : Nat → ℚ) (p : AdvancedWorkerPool) (tw : TaskWrapper)
    (rest : List TaskWrapper) (w : Nat) (h : WaitAveraged clock p) (ho : Ordered p)
    (hq : p.taskQueue = tw :: rest) : WaitAveraged clock (p.dispatch clock tw rest w) := by
  refine ⟨h.count, ?_, ?_, ?_, ?_⟩
  · have hw : (p.dispatch clock tw rest w).completedWaitTimes = p.completedWaitTimes := by
      unfold AdvancedWorkerPool.completedWaitTimes
      apply List.map_congr_left
      intro x hx
      obtain ⟨extra, hlog⟩ : ∃ extra,
          (p.dispatch clock tw rest w).dispatchLog = p.dispatchLog ++ extra := ⟨_, rfl⟩
      unfold AdvancedWorkerPool.waitTimeOf
      rw [hlog, find_dispatch_append _ _ _ (ordered_resolved_logged ho x hx)]
    rw [hw]
    exact h.mean
  · intro r hr
    simp only [AdvancedWorkerPool.dispatch, AdvancedWorkerPool.startRunTask,
      List.mem_append, List.mem_singleton] at hr ⊢
    rcases hr with hold | hnew
    · obtain ⟨d, hd, hdt⟩ := h.logged r hold
      exact ⟨d, Or.inl hd, hdt⟩
    · subst hnew
      exact ⟨_, Or.inr rfl, rfl⟩
  · intro t ht
    obtain ⟨i, hi, hs⟩ := h.queued t (hq ▸ List.mem_cons_of_mem _ ht)
    refine ⟨i, ?_, hs⟩
    show i < p.clockReads + 1 + 1
    omega
  · intro d hd
    simp only [AdvancedWorkerPool.dispatch, AdvancedWorkerPool.startRunTask,
      List.mem_append, List.mem_singleton] at hd
    rcases hd with hold | hnew
    · obtain ⟨i, j, hij, hj, hs, hw⟩ := h.measured d hold
      refine ⟨i, j, hij, ?_, hs, hw⟩
      show j < p.clockReads + 1 + 1
      omega
    · subst hnew
      obtain ⟨i, hi, hs⟩ := h.queued tw (hq ▸ List.mem_cons_self _ _)
      refine ⟨i, p.clockReads, hi, ?_, hs, ?_⟩
      · show p.clockReads < p.clockReads + 1 + 1
        omega
      · show clock p.clockReads - tw.startTime = _
        rw [hs]

theorem waitAveraged_workerSettles (clock : Nat → ℚ) (p : AdvancedWorkerPool) (w : Nat)
    (h : WaitAveraged clock p) : WaitAveraged clock (p.workerSettles clock w) := by
  rcases AdvancedWorkerPool.workerSettles_eq clock p w with heq | ⟨r, wk, wk1, res, _, _, _, _, _, heq⟩
  · rw [heq]; exact h
  · rw [heq]
    refine ⟨h.count, h.mean, ?_, ?_, ?_⟩
    · intro x hx
      obtain ⟨y, hy, hxy⟩ := List.mem_map.1 hx
      obtain ⟨d, hd, hdt⟩ := h.logged y hy
      refine ⟨d, hd, ?_⟩
      rw [hdt, ← hxy]
      by_cases hyw : y.worker = w <;> simp [hyw]
    · intro t ht
      obtain ⟨i, hi, hs⟩ := h.queued t ht
      exact ⟨i, Nat.lt_succ_of_lt hi, hs⟩
    · intro d hd
      obtain ⟨i, j, hij, hj, hs, hw⟩ := h.measured d hd
      exact ⟨i, j, hij, Nat.lt_succ_of_lt hj, hs, hw⟩

theorem waitAveraged_release (clock : Nat → ℚ) (p : AdvancedWorkerPool) (r : RunTask)
    (h : WaitAveraged clock p) (ho : Ordered p) (hr : r ∈ p.running)
    (hsome : r.result.isSome = true) :
    WaitAveraged clock ((p.complete r).releaseWorker r.worker) := by
  obtain ⟨res, hres⟩ : ∃ res, r.result = some (.ok res) := by
    cases hrr : r.result with
    | none => rw [hrr] at hsome; simp at hsome
    | some c =>
      cases c with
      | ok res => exact ⟨res, rfl⟩
      | error e => exact absurd hrr (ho.noThrow r hr e)
  have hc : p.complete r =
      { p with
        stats := { p.stats with
          completedTasks := p.stats.completedTasks + 1
          averageWaitTime :=
            (p.stats.averageWaitTime * (((p.stats.completedTasks + 1 : Nat) : ℚ) - 1) +
              r.taskWrapper.waitTime) / ((p.stats.completedTasks + 1 : Nat) : ℚ) }
        resolved := p.resolved ++ [(r.taskWrapper.handle, res)] } := by
    unfold AdvancedWorkerPool.complete
    rw [hres]
  obtain ⟨d, hd, hdt⟩ := h.logged r hr
  have hwait : p.waitTimeOf r.taskWrapper.handle = r.taskWrapper.waitTime := by
    unfold AdvancedWorkerPool.waitTimeOf
    rw [← hdt, find_dispatch _ d (ordered_log_nodup ho) hd]
  rw [hc]
  refine ⟨?_, ?_, ?_, h.queued, h.measured⟩
  · show (p.resolved ++ [(r.taskWrapper.handle, res)]).length = p.stats.completedTasks + 1
    rw [List.length_append, h.count]
    rfl
  · show (p.stats.averageWaitTime * (((p.stats.completedTasks + 1 : Nat) : ℚ) - 1) +
        r.taskWrapper.waitTime) / ((p.stats.completedTasks + 1 : Nat) : ℚ) *
        ((p.stats.completedTasks + 1 : Nat) : ℚ) =
      ((p.resolved ++ [(r.taskWrapper.handle, res)]).map (fun x => p.waitTimeOf x.1)).sum
    have hpos : ((p.stats.completedTasks + 1 : Nat) : ℚ) ≠ 0 :=
      Nat.cast_ne_zero.2 (Nat.succ_ne_zero _)
    rw [div_mul_cancel₀ _ hpos, List.map_append, List.sum_append]
    have hm := h.mean
    unfold AdvancedWorkerPool.completedWaitTimes at hm
    rw [← hm]
    simp only [List.map_cons, List.map_nil, List.sum_cons, List.sum_nil, hwait]
    push_cast
    ring
  · intro x hx
    exact h.logged x (List.mem_of_mem_filter hx)

theorem waitAveraged_shutdown (clock : Nat → ℚ) (p : AdvancedWorkerPool)
    (h : WaitAveraged clock p) : WaitAveraged clock p.shutdown := by
  unfold AdvancedWorkerPool.shutdown
  split
  · exact h
  · refine ⟨h.count, h.mean, h.logged, ?_, h.measured⟩
    intro t ht
    simp at ht

theorem waitAveraged_step (clock : Nat → ℚ) :
    ∀ (p : AdvancedWorkerPool) (e : PoolEvent),
      (Partitioned p ∧ Ordered p) ∧ WaitAveraged clock p →
      (Partitioned (p.step clock e) ∧ Ordered (p.step clock e)) ∧
        WaitAveraged clock (p.step clock e) :=
  @AdvancedWorkerPool.step_induct
    (fun p => (Partitioned p ∧ Ordered p) ∧ WaitAveraged clock p) clock
    (fun p td pr h => ⟨⟨⟨h.1.1.nodup, h.1.1.perm, h.1.1.running, h.1.1.size, h.1.1.valid⟩,
      ordered_enqueue clock p td pr h.1.2⟩, waitAveraged_enqueue clock p td pr h.2⟩)
    (fun p tw rest w h hq hw => ⟨⟨partitioned_dispatch clock p tw rest w h.1.1 hw,
      ordered_dispatch clock p tw rest w h.1.2 hq⟩,
      waitAveraged_dispatch clock p tw rest w h.2 h.1.2 hq⟩)
    (fun _ h => ⟨⟨⟨h.1.1.nodup, h.1.1.perm, h.1.1.running, h.1.1.size, h.1.1.valid⟩,
      ⟨h.1.2.nodup, h.1.2.bound, h.1.2.log, h.1.2.noThrow,
        h.1.2.rejected⟩⟩, ⟨h.2.count, h.2.mean, h.2.logged, h.2.queued, h.2.measured⟩⟩)
    (fun p w h => ⟨⟨partitioned_workerSettles clock p w h.1.1,
      ordered_workerSettles clock p w h.1.2⟩, waitAveraged_workerSettles clock p w h.2⟩)
    (fun p r h hr hs => ⟨⟨partitioned_release p r h.1.1 hr, ordered_release p r h.1.2 h.1.1 hr hs⟩,
      waitAveraged_release clock p r h.2 h.1.2 hr hs⟩)
    (fun p h => ⟨⟨partitioned_shutdown p h.1.1, ordered_shutdown p h.1.2⟩,
      waitAveraged_shutdown clock p h.2⟩)

theorem waitAveraged_run (clock : Nat → ℚ) (N : Nat) (evs : List PoolEvent) :
    WaitAveraged clock (reached N clock evs) :=
  (@AdvancedWorkerPool.run_induct
    (fun p => (Partitioned p ∧ Ordered p) ∧ WaitAveraged clock p) clock
    (waitAveraged_step clock) evs _
    ⟨⟨partitioned_fresh N, ordered_fresh N⟩, waitAveraged_fresh clock N⟩).2

end UltraThink

namespace UltraThink

/-! ## A worker that failed a task is given the next one -/

theorem simulate_ok_of_ne_analysis (w : UltraThinkWorker) (t : TaskData)
    (h : t.type ≠ "analysis") : ∃ out, w.simulateTaskExecution t = .ok out := by
  unfold UltraThinkWorker.simulateTaskExecution
  rw [if_neg h]
  split_ifs <;> exact ⟨_, rfl⟩

theorem simulate_error_of_analysis (w : UltraThinkWorker) (t : TaskData)
    (h : t.type = "analysis") :
    w.simulateTaskExecution t = .error "resourceRequirements is not defined" := by
  unfold UltraThinkWorker.simulateTaskExecution
  rw [if_pos h]
  rfl

/-- The admission loop only adds to the dispatch log. -/
theorem AdvancedWorkerPool.admissionLoop_log_mono (clock : Nat → ℚ) (d : Dispatch) :
    ∀ (q : List TaskWrapper) (p : AdvancedWorkerPool), p.taskQueue = q → d ∈ p.dispatchLog →
      d ∈ (AdvancedWorkerPool.admissionLoop clock q p).dispatchLog :=
  @AdvancedWorkerPool.admissionLoop_induct (fun x => d ∈ x.dispatchLog) clock
    (fun x tw rest w hx _ _ => by
      show d ∈ x.dispatchLog ++ [_]
      exact List.mem_append_left _ hx)

/-- With an empty queue, `runTask` leaves the released worker last in `availableWorkers`. -/
theorem AdvancedWorkerPool.resume_idle (clock : Nat → ℚ) (p : AdvancedWorkerPool) (r : RunTask)
    (hpart : Partitioned p) (hr : r ∈ p.running) (hsome : r.result.isSome = true)
    (hq : p.taskQueue = []) :
    (p.runTaskResumes clock r.worker).availableWorkers = p.availableWorkers ++ [r.worker] := by
  have hfind : p.running.find? (fun x => x.worker = r.worker && x.result.isSome) = some r := by
    apply find_running _ _ _ hpart.running_nodup hr
    · simp [hsome]
    · intro x hx
      simp only [Bool.and_eq_true, decide_eq_true_eq] at hx
      exact hx.1
  unfold AdvancedWorkerPool.runTaskResumes
  rw [hfind]
  have hq' : ((p.complete r).releaseWorker r.worker).taskQueue = [] := by
    show (p.complete r).taskQueue = []
    rw [(AdvancedWorkerPool.complete_frame p r).2.2.2.2.2.2.1, hq]
  show (AdvancedWorkerPool.admissionLoop clock ((p.complete r).releaseWorker r.worker).taskQueue
    ((p.complete r).releaseWorker r.worker)).availableWorkers = _
  rw [hq']
  show (p.complete r).availableWorkers ++ [r.worker] = _
  rw [(AdvancedWorkerPool.complete_frame p r).1]

/-- With a task waiting, `runTask` hands the head of the queue to the released worker. -/
theorem AdvancedWorkerPool.resume_next (clock : Nat → ℚ) (p : AdvancedWorkerPool) (r : RunTask)
    (hpart : Partitioned p) (hr : r ∈ p.running) (hsome : r.result.isSome = true)
    (tw : TaskWrapper) (rest : List TaskWrapper) (hq : p.taskQueue = tw :: rest) :
    ∃ d ∈ (p.runTaskResumes clock r.worker).dispatchLog,
      d.worker = r.worker ∧ d.task.handle = tw.handle ∧ d.stillQueued = rest := by
  have hfind : p.running.find? (fun x => x.worker = r.worker && x.result.isSome) = some r := by
    apply find_running _ _ _ hpart.running_nodup hr
    · simp [hsome]
    · intro x hx
      simp only [Bool.and_eq_true, decide_eq_true_eq] at hx
      exact hx.1
  unfold AdvancedWorkerPool.runTaskResumes
  rw [hfind]
  have hq' : ((p.complete r).releaseWorker r.worker).taskQueue = tw :: rest := by
    show (p.complete r).taskQueue = _
    rw [(AdvancedWorkerPool.complete_frame p r).2.2.2.2.2.2.1, hq]
  have hlast : ((p.complete r).releaseWorker r.worker).availableWorkers.getLast? =
      some r.worker := by
    show ((p.complete r).availableWorkers ++ [r.worker]).getLast? = _
    simp
  have hloop : AdvancedWorkerPool.admissionLoop clock (tw :: rest)
      ((p.complete r).releaseWorker r.worker) =
      AdvancedWorkerPool.admissionLoop clock rest
        (((p.complete r).releaseWorker r.worker).dispatch clock tw rest r.worker) := by
    rw [AdvancedWorkerPool.admissionLoop, hlast]
  obtain ⟨d, hd, hdw, hdh, hds⟩ : ∃ d ∈
      (((p.complete r).releaseWorker r.worker).dispatch clock tw rest r.worker).dispatchLog,
      d.worker = r.worker ∧ d.task.handle = tw.handle ∧ d.stillQueued = rest := by
    simp only [AdvancedWorkerPool.dispatch, AdvancedWorkerPool.startRunTask]
    exact ⟨_, List.mem_append_right _ (List.mem_singleton_self _), rfl, rfl, rfl⟩
  refine ⟨d, ?_, hdw, hdh, hds⟩
  show d ∈ (AdvancedWorkerPool.admissionLoop clock
    ((p.complete r).releaseWorker r.worker).taskQueue
    ((p.complete r).releaseWorker r.worker)).dispatchLog
  rw [hq', hloop]
  exact AdvancedWorkerPool.admissionLoop_log_mono clock d rest _ rfl hd

end UltraThink

namespace UltraThink

/-- C11. Failure isolation: in every state reached from an initialised pool, when the
`runTask` of a busy worker resumes with the worker's result `res`, whatever `res.success` is,
the worker is taken out of `busyWorkers` and pushed last on `availableWorkers`, and the state
this leaves does not depend on `res` beyond the resolved value; so with an empty queue the
worker is the next one popped, and with a task waiting that task is dispatched to it. In a
pool of size 1, when a task whose routine throws is followed by a task whose routine does not,
both run on `worker-0`, the first resolves with `success == false` and the second with
`success == true`. -/
theorem pool_failure_isolation (N : Nat) (clock : Nat → ℚ) (evs : List PoolEvent)
    (t1 t2 : TaskData) (pr1 pr2 : String)
    (h1 : t1.type = "analysis") (h2 : t2.type ≠ "analysis") :
    (∀ r ∈ (reached N clock evs).running, ∀ res, r.result = some (.ok res) →
      r.worker ∈ (reached N clock evs).busyWorkers ∧
      (((reached N clock evs).complete r).releaseWorker r.worker).availableWorkers =
        (reached N clock evs).availableWorkers ++ [r.worker] ∧
      (((reached N clock evs).complete r).releaseWorker r.worker).busyWorkers =
        setDelete (reached N clock evs).busyWorkers r.worker ∧
      r.worker ∉ setDelete (reached N clock evs).busyWorkers r.worker ∧
      (∀ res2 : Result,
        ({ ((reached N clock evs).complete r).releaseWorker r.worker with
            resolved := [] } : AdvancedWorkerPool) =
          { ((reached N clock evs).complete
              { r with result := some (.ok res2) }).releaseWorker r.worker with
            resolved := [] }) ∧
      ((reached N clock evs).taskQueue = [] →
        ((reached N clock evs).runTaskResumes clock r.worker).availableWorkers =
          (reached N clock evs).availableWorkers ++ [r.worker]) ∧
      (∀ tw rest, (reached N clock evs).taskQueue = tw :: rest →
        ∃ d ∈ ((reached N clock evs).runTaskResumes clock r.worker).dispatchLog,
          d.worker = r.worker ∧ d.task.handle = tw.handle ∧ d.stillQueued = rest)) ∧
    ((reached 1 clock [.executeTask t1 pr1, .workerSettles 0, .runTaskResumes 0,
        .executeTask t2 pr2, .workerSettles 0, .runTaskResumes 0]).resolved.map
          (fun x => (x.1, x.2.success, x.2.workerId)) =
        [(0, false, "worker-0"), (1, true, "worker-0")] ∧
      (reached 1 clock [.executeTask t1 pr1, .workerSettles 0, .runTaskResumes 0,
        .executeTask t2 pr2, .workerSettles 0, .runTaskResumes 0]).dispatchLog.map
          (fun d => (d.task.handle, d.worker)) = [(0, 0), (1, 0)] ∧
      (reached 1 clock [.executeTask t1 pr1, .workerSettles 0,
        .runTaskResumes 0]).availableWorkers = [0]) := by
  constructor
  · have hpart : Partitioned (reached N clock evs) := partitioned_run clock N evs
    generalize reached N clock evs = p at hpart
    intro r hr res hres
    have hsome : r.result.isSome = true := by rw [hres]; rfl
    obtain ⟨f1, f2, _⟩ := AdvancedWorkerPool.complete_frame p r
    have hbusy : r.worker ∈ p.busyWorkers := by
      rw [← hpart.running]
      exact List.mem_map_of_mem (fun x => x.worker) hr
    refine ⟨hbusy, ?_, ?_, ?_, ?_, ?_, ?_⟩
    · show (p.complete r).availableWorkers ++ [r.worker] = _
      rw [f1]
    · show setDelete (p.complete r).busyWorkers r.worker = _
      rw [f2]
    · simp [setDelete]
    · intro res2
      simp [AdvancedWorkerPool.complete, AdvancedWorkerPool.releaseWorker, hres]
    · exact AdvancedWorkerPool.resume_idle clock p r hpart hr hsome
    · intro tw rest hq
      exact AdvancedWorkerPool.resume_next clock p r hpart hr hsome tw rest hq
  · have hid : ("worker-" ++ toString 0 : String) = "worker-0" := by decide
    have hs1 := fun w => simulate_error_of_analysis w t1 h1
    have hs2 := fun w => simulate_ok_of_ne_analysis w t2 h2
    choose f hf using hs2
    simp [reached, AdvancedWorkerPool.run, AdvancedWorkerPool.step, AdvancedWorkerPool.fresh,
      AdvancedWorkerPool.initialise, AdvancedWorkerPool.new, AdvancedWorkerPool.addWorker,
      AdvancedWorkerPool.executeTask, AdvancedWorkerPool.enqueue, sortQueue,
      AdvancedWorkerPool.processTaskQueue, AdvancedWorkerPool.admissionLoop,
      AdvancedWorkerPool.dispatch, AdvancedWorkerPool.startRunTask, setAdd, setDelete,
      updateWorker, AdvancedWorkerPool.updateGauges, AdvancedWorkerPool.workerSettles,
      AdvancedWorkerPool.runTaskResumes, AdvancedWorkerPool.complete,
      AdvancedWorkerPool.releaseWorker, UltraThinkWorker.finishTask,
      UltraThinkWorker.beginTask, UltraThinkWorker.updateStats, UltraThinkWorker.release,
      UltraThinkWorker.new, List.range, List.range.loop, hs1, hf, hid, Except.map]

/-- C11 at a concrete pair of tasks: an `analysis` task, then a generic one. -/
theorem pool_failure_isolation_witness :
    ((failingTask "T1").type = "analysis" ∧ (exampleTask "T2").type ≠ "analysis") ∧
    (reached 1 zeroClock [.executeTask (failingTask "T1") "normal", .workerSettles 0,
        .runTaskResumes 0, .executeTask (exampleTask "T2") "normal", .workerSettles 0,
        .runTaskResumes 0]).resolved.map (fun x => (x.1, x.2.success, x.2.workerId)) =
      [(0, false, "worker-0"), (1, true, "worker-0")] :=
  ⟨⟨by decide, by decide⟩,
   (pool_failure_isolation 1 zeroClock [] (failingTask "T1") (exampleTask "T2") "normal"
      "normal" (by decide) (by decide)).2.1⟩

end UltraThink

namespace UltraThink

/-! ## The scheduler: priority of a task -/

/-- C15 (the code departs from the claim). For a task whose urgency is `urgent` or `critical`,
`calculateTaskPriority` returns `low` when `estimatedDuration > 60000` or `cpu <= 1`, because
the third `if` assigns after the second, and `critical` only otherwise; an urgent task of
1000 ms on one CPU gets `low`. -/
theorem calculateTaskPriority_urgent (s : IntelligentScheduler) (taskData : TaskData) :
    s.calculateTaskPriority urgentSmallTask = "low" ∧
    urgentSmallTask.urgency = some "urgent" ∧
    ((taskData.urgency = some "urgent" ∨ taskData.urgency = some "critical") →
      s.calculateTaskPriority taskData =
        if taskData.estimatedDuration > 60000 ∨ taskData.resourceRequirements.cpu ≤ 1 then "low"
        else "critical") := by
  refine ⟨?_, rfl, ?_⟩
  · simp [IntelligentScheduler.calculateTaskPriority, urgentSmallTask]
  · intro h
    simp only [IntelligentScheduler.calculateTaskPriority]
    rw [if_pos h]

/-- C16. Priority of non-urgent tasks: for every task whose context is absent or whose urgency
is neither `urgent` nor `critical`, `calculateTaskPriority` returns `low` if
`estimatedDuration > 60000` or `cpu <= 1`, otherwise `high` if `estimatedDuration < 5000` and
`cpu <= 2`, otherwise `normal`. -/
theorem calculateTaskPriority_not_urgent (s : IntelligentScheduler) (taskData : TaskData)
    (h : taskData.urgency ≠ some "urgent" ∧ taskData.urgency ≠ some "critical") :
    s.calculateTaskPriority taskData =
      if taskData.estimatedDuration > 60000 ∨ taskData.resourceRequirements.cpu ≤ 1 then "low"
      else if taskData.estimatedDuration < 5000 ∧ taskData.resourceRequirements.cpu ≤ 2
        then "high"
      else "normal" := by
  have hn : ¬ (taskData.urgency = some "urgent" ∨ taskData.urgency = some "critical") := by
    rintro (h1 | h2)
    · exact h.1 h1
    · exact h.2 h2
  simp only [IntelligentScheduler.calculateTaskPriority]
  rw [if_neg hn]

/-- C16 at a concrete task: no context, 50 ms, one CPU. -/
theorem calculateTaskPriority_not_urgent_witness :
    ((exampleTask "a").urgency ≠ some "urgent" ∧ (exampleTask "a").urgency ≠ some "critical") ∧
    (IntelligentScheduler.new (AdvancedWorkerPool.fresh 1)).calculateTaskPriority
        (exampleTask "a") =
      if (exampleTask "a").estimatedDuration > 60000 ∨
          (exampleTask "a").resourceRequirements.cpu ≤ 1 then "low"
      else if (exampleTask "a").estimatedDuration < 5000 ∧
          (exampleTask "a").resourceRequirements.cpu ≤ 2 then "high"
      else "normal" :=
  ⟨⟨by decide, by decide⟩,
   calculateTaskPriority_not_urgent _ (exampleTask "a") ⟨by decide, by decide⟩⟩

/-! ## The scheduler: score of a worker -/

/-- C17 fails as stated: for a worker that has completed no task (`averageTaskTime == 0`) and
an empty history, the formula gives 100 and `calculateWorkerScore` returns 70. -/
theorem calculateWorkerScore_counterexample :
    (IntelligentScheduler.new (AdvancedWorkerPool.fresh 1)).calculateWorkerScore idleNewStatus
        (exampleTask "a") = 70 ∧
    formulaWorkerScore idleNewStatus.stats.averageTaskTime idleNewStatus.stats.tasksCompleted
        idleNewStatus.stats.errors 0 = 100 ∧
    (IntelligentScheduler.new (AdvancedWorkerPool.fresh 1)).calculateWorkerScore idleNewStatus
        (exampleTask "a") ≠
      formulaWorkerScore idleNewStatus.stats.averageTaskTime idleNewStatus.stats.tasksCompleted
        idleNewStatus.stats.errors
        (IntelligentScheduler.new (AdvancedWorkerPool.fresh 1)).taskHistory.length := by
  have h1 : (IntelligentScheduler.new (AdvancedWorkerPool.fresh 1)).calculateWorkerScore
      idleNewStatus (exampleTask "a") = 70 := by
    simp [IntelligentScheduler.calculateWorkerScore, IntelligentScheduler.new, idleNewStatus,
      UltraThinkWorker.getStatus, UltraThinkWorker.new]
    norm_num
  have h2 : formulaWorkerScore idleNewStatus.stats.averageTaskTime
      idleNewStatus.stats.tasksCompleted idleNewStatus.stats.errors 0 = 100 := by
    simp [formulaWorkerScore, idleNewStatus, UltraThinkWorker.getStatus, UltraThinkWorker.new]
    norm_num
  refine ⟨h1, h2, ?_⟩
  rw [h1]
  show (70 : ℚ) ≠ formulaWorkerScore _ _ _ 0
  rw [h2]
  norm_num

/-- C17 as amended: `calculateWorkerScore` returns `0.30 * perf + 0.40 * reliability +
0.30 * (1 - tasksCompleted / max(1, h)) * 100`, where `perf` is `max(0, 100 - averageTaskTime)`
if `averageTaskTime > 0` and `0` otherwise, and `reliability` is
`(1 - errors / tasksCompleted) * 100` if `tasksCompleted > 0` and `100` otherwise; so it is the
formula of the claim whenever `averageTaskTime > 0`, and a worker that has completed no task
(`averageTaskTime == 0`, `tasksCompleted == 0`) scores 70. -/
theorem calculateWorkerScore_formula (s : IntelligentScheduler) (worker : WorkerStatus)
    (taskData : TaskData) :
    s.calculateWorkerScore worker taskData =
      0.30 * (if worker.stats.averageTaskTime > 0 then max 0 (100 - worker.stats.averageTaskTime)
        else 0) +
      0.40 * (if worker.stats.tasksCompleted > 0 then
          (1 - (worker.stats.errors : ℚ) / (worker.stats.tasksCompleted : ℚ)) * 100
        else 100) +
      0.30 * (1 - (worker.stats.tasksCompleted : ℚ) /
        ((max 1 s.taskHistory.length : Nat) : ℚ)) * 100 ∧
    (worker.stats.averageTaskTime > 0 →
      s.calculateWorkerScore worker taskData =
        formulaWorkerScore worker.stats.averageTaskTime worker.stats.tasksCompleted
          worker.stats.errors s.taskHistory.length) ∧
    (worker.stats.averageTaskTime = 0 → worker.stats.tasksCompleted = 0 →
      s.calculateWorkerScore worker taskData = 70) := by
  have hmain : s.calculateWorkerScore worker taskData =
      0.30 * (if worker.stats.averageTaskTime > 0 then
          max 0 (100 - worker.stats.averageTaskTime) else 0) +
      0.40 * (if worker.stats.tasksCompleted > 0 then
          (1 - (worker.stats.errors : ℚ) / (worker.stats.tasksCompleted : ℚ)) * 100
        else 100) +
      0.30 * (1 - (worker.stats.tasksCompleted : ℚ) /
        ((max 1 s.taskHistory.length : Nat) : ℚ)) * 100 := by
    simp only [IntelligentScheduler.calculateWorkerScore]
    split_ifs <;> ring
  refine ⟨hmain, ?_, ?_⟩
  · intro hpos
    rw [hmain, if_pos hpos]
    simp only [formulaWorkerScore]
  · intro h0 htc
    rw [hmain, h0, htc]
    norm_num

end UltraThink

namespace UltraThink

/-! ## The scheduler: choice of a worker -/

/-- Once the loop of `selectOptimalWorker` holds a worker it ends with a worker. -/
theorem IntelligentScheduler.scan_some (s : IntelligentScheduler) (taskData : TaskData) :
    ∀ (workers : List WorkerStatus) (w : WorkerStatus) (b : ℚ),
      ∃ w2 b2, workers.foldl (s.considerWorker taskData) (some w, b) = (some w2, b2) := by
  intro workers
  induction workers with
  | nil => intro w b; exact ⟨w, b, rfl⟩
  | cons x xs ih =>
    intro w b
    simp only [List.foldl_cons, IntelligentScheduler.considerWorker]
    split_ifs
    · exact ih w b
    · exact ih x _
    · exact ih w b

/-- The loop of `selectOptimalWorker` started without a worker at score `b` ends without a
worker exactly when no idle worker scores more than `b`. -/
theorem IntelligentScheduler.scan_none_iff (s : IntelligentScheduler) (taskData : TaskData) :
    ∀ (workers : List WorkerStatus) (b : ℚ),
      (workers.foldl (s.considerWorker taskData) (none, b)).1 = none ↔
        ∀ w ∈ workers, w.busy = false → s.calculateWorkerScore w taskData ≤ b := by
  intro workers
  induction workers with
  | nil => intro b; simp
  | cons x xs ih =>
    intro b
    simp only [List.foldl_cons, IntelligentScheduler.considerWorker, List.mem_cons,
      forall_eq_or_imp]
    by_cases hb : x.busy = true
    · rw [if_pos hb, ih b]
      simp [hb]
    · rw [if_neg hb]
      have hb2 : x.busy = false := by simpa using hb
      by_cases hs : s.calculateWorkerScore x taskData > b
      · rw [if_pos hs]
        obtain ⟨w2, b2, h2⟩ := s.scan_some taskData xs x (s.calculateWorkerScore x taskData)
        rw [h2]
        constructor
        · intro h
          cases h
        · intro h
          exact absurd (h.1 hb2) (not_le.2 hs)
      · rw [if_neg hs, ih b]
        constructor
        · intro h
          exact ⟨fun _ => not_lt.1 hs, h⟩
        · intro h
          exact h.2

/-- The status of a pool of size 1 after three tasks given to it directly. -/
theorem threeDirect_status :
    (reached 1 zeroClock threeDirect).getPoolStatus.workers = [idleUsedStatus "worker-0"] := by
  have hid : ("worker-" ++ toString 0 : String) = "worker-0" := by decide
  have hs := fun (t : TaskData) (ht : t.type ≠ "analysis") (w : UltraThinkWorker) =>
    simulate_ok_of_ne_analysis w t ht
  have ha := hs (exampleTask "a") (by decide)
  have hb := hs (exampleTask "b") (by decide)
  have hc := hs (exampleTask "c") (by decide)
  choose fa hfa using ha
  choose fb hfb using hb
  choose fc hfc using hc
  simp [threeDirect, idleUsedStatus, reached, AdvancedWorkerPool.run, AdvancedWorkerPool.step,
    AdvancedWorkerPool.fresh,
    AdvancedWorkerPool.initialise, AdvancedWorkerPool.new, AdvancedWorkerPool.addWorker,
    AdvancedWorkerPool.executeTask, AdvancedWorkerPool.enqueue, sortQueue,
    AdvancedWorkerPool.processTaskQueue, AdvancedWorkerPool.admissionLoop,
    AdvancedWorkerPool.dispatch, AdvancedWorkerPool.startRunTask, setAdd, setDelete,
    updateWorker, AdvancedWorkerPool.updateGauges, AdvancedWorkerPool.workerSettles,
    AdvancedWorkerPool.runTaskResumes, AdvancedWorkerPool.complete,
    AdvancedWorkerPool.releaseWorker, UltraThinkWorker.finishTask,
    UltraThinkWorker.beginTask, UltraThinkWorker.updateStats, UltraThinkWorker.release,
    UltraThinkWorker.new, List.range, List.range.loop, Except.map,
    AdvancedWorkerPool.getPoolStatus, UltraThinkWorker.getStatus, zeroClock, hid, hfa, hfb, hfc]

/-- The score of an idle worker with three tasks completed, for a scheduler without history. -/
theorem idleUsedStatus_score (p : AdvancedWorkerPool) (workerId : String)
    (taskData : TaskData) :
    (IntelligentScheduler.new p).calculateWorkerScore (idleUsedStatus workerId) taskData =
      -20 := by
  simp [IntelligentScheduler.calculateWorkerScore, IntelligentScheduler.new, idleUsedStatus]
  norm_num

/-- C18 (the code departs from the claim). After three tasks given directly to a pool of
size 1, the pool status holds one worker, `worker-0`, idle; for a new scheduler on that pool its
score is -20, the maximum over the idle workers, and `selectOptimalWorker` returns `any`
instead of `worker-0`, because the loop starts from `bestScore = -1`. -/
theorem selectOptimalWorker_misses_best (taskData : TaskData) :
    (reached 1 zeroClock threeDirect).getPoolStatus.workers = [idleUsedStatus "worker-0"] ∧
    (idleUsedStatus "worker-0").busy = false ∧
    (IntelligentScheduler.new (reached 1 zeroClock threeDirect)).calculateWorkerScore
      (idleUsedStatus "worker-0") taskData = -20 ∧
    (IntelligentScheduler.new (reached 1 zeroClock threeDirect)).selectOptimalWorker taskData =
      "any" := by
  refine ⟨threeDirect_status, rfl, idleUsedStatus_score _ _ _, ?_⟩
  simp only [IntelligentScheduler.selectOptimalWorker,
    IntelligentScheduler.selectOptimalWorkerIn, IntelligentScheduler.scanWorkers]
  show workerHint (List.foldl
    ((IntelligentScheduler.new (reached 1 zeroClock threeDirect)).considerWorker taskData)
    (none, -1) (reached 1 zeroClock threeDirect).getPoolStatus.workers).1 = "any"
  rw [threeDirect_status]
  simp [IntelligentScheduler.considerWorker, idleUsedStatus_score, workerHint]

end UltraThink

namespace UltraThink

/-- The status of a pool of size 2 after three rounds of two tasks given to it directly. -/
theorem sixDirect_status :
    (reached 2 zeroClock sixDirect).getPoolStatus.workers =
      [idleUsedStatus "worker-0", idleUsedStatus "worker-1"] := by
  have hid0 : ("worker-" ++ toString 0 : String) = "worker-0" := by decide
  have hid1 : ("worker-" ++ toString 1 : String) = "worker-1" := by decide
  have hs := fun (t : TaskData) (ht : t.type ≠ "analysis") (w : UltraThinkWorker) =>
    simulate_ok_of_ne_analysis w t ht
  have ha := hs (exampleTask "a") (by decide)
  have hb := hs (exampleTask "b") (by decide)
  have hc := hs (exampleTask "c") (by decide)
  have hd := hs (exampleTask "d") (by decide)
  have he := hs (exampleTask "e") (by decide)
  have hf := hs (exampleTask "f") (by decide)
  choose fa hfa using ha
  choose fb hfb using hb
  choose fc hfc using hc
  choose fd hfd using hd
  choose fe hfe using he
  choose ff hff using hf
  simp [sixDirect, idleUsedStatus, reached, AdvancedWorkerPool.run, AdvancedWorkerPool.step,
    AdvancedWorkerPool.fresh,
    AdvancedWorkerPool.initialise, AdvancedWorkerPool.new, AdvancedWorkerPool.addWorker,
    AdvancedWorkerPool.executeTask, AdvancedWorkerPool.enqueue, sortQueue,
    AdvancedWorkerPool.processTaskQueue, AdvancedWorkerPool.admissionLoop,
    AdvancedWorkerPool.dispatch, AdvancedWorkerPool.startRunTask, setAdd, setDelete,
    updateWorker, AdvancedWorkerPool.updateGauges, AdvancedWorkerPool.workerSettles,
    AdvancedWorkerPool.runTaskResumes, AdvancedWorkerPool.complete,
    AdvancedWorkerPool.releaseWorker, UltraThinkWorker.finishTask,
    UltraThinkWorker.beginTask, UltraThinkWorker.updateStats, UltraThinkWorker.release,
    UltraThinkWorker.new, List.range, List.range.loop, Except.map,
    AdvancedWorkerPool.getPoolStatus, UltraThinkWorker.getStatus, zeroClock, hid0, hid1,
    hfa, hfb, hfc, hfd, hfe, hff]

/-- C19 (the code departs from the claim). The loop of `selectOptimalWorker` ends without a
worker, and the method returns `any`, exactly when no idle worker of the pool status scores
more than -1; after three rounds of two tasks given directly to a pool of size 2, both workers
are idle, both score -20 for a new scheduler on that pool, and `selectOptimalWorker` returns
`any`. -/
theorem selectOptimalWorker_any_while_idle (s : IntelligentScheduler) (taskData : TaskData)
    (poolStatus : PoolStatus) :
    (((s.scanWorkers taskData poolStatus.workers).1 = none ↔
        ∀ w ∈ poolStatus.workers, w.busy = false → s.calculateWorkerScore w taskData ≤ -1) ∧
      ((s.scanWorkers taskData poolStatus.workers).1 = none →
        s.selectOptimalWorkerIn taskData poolStatus = "any")) ∧
    (reached 2 zeroClock sixDirect).getPoolStatus.workers.map (fun w => (w.workerId, w.busy)) =
      [("worker-0", false), ("worker-1", false)] ∧
    (IntelligentScheduler.new (reached 2 zeroClock sixDirect)).selectOptimalWorker taskData =
      "any" := by
  refine ⟨⟨s.scan_none_iff taskData poolStatus.workers (-1), ?_⟩, ?_, ?_⟩
  · intro h
    simp only [IntelligentScheduler.selectOptimalWorkerIn]
    rw [h]
    rfl
  · rw [sixDirect_status]
    rfl
  · show workerHint ((IntelligentScheduler.new (reached 2 zeroClock sixDirect)).scanWorkers
      taskData (reached 2 zeroClock sixDirect).getPoolStatus.workers).1 = "any"
    have hnone : ((IntelligentScheduler.new (reached 2 zeroClock sixDirect)).scanWorkers
        taskData (reached 2 zeroClock sixDirect).getPoolStatus.workers).1 = none := by
      rw [sixDirect_status]
      refine (IntelligentScheduler.scan_none_iff _ taskData _ (-1)).2 ?_
      intro w hw _
      simp only [List.mem_cons, List.mem_singleton, List.not_mem_nil, or_false] at hw
      rcases hw with rfl | rfl
      · rw [idleUsedStatus_score]
        norm_num
      · rw [idleUsedStatus_score]
        norm_num
    rw [hnone]
    rfl

/-! ## The scheduler: scaling -/

/-- C20 (the code departs from the claim). The read `poolStatus.resourceUtilization` is of a
property the pool status does not have, so `predictScalingNeeds` returns `maintain` with
`recommendedWorkers == totalWorkers` for every pool; a pool of size 1 with its worker busy has
`resourceUtilization == 100` and still gets `maintain` with one worker, not `scale_up` with
three. -/
theorem predictScalingNeeds_always_maintain (s : IntelligentScheduler) (taskData : TaskData) :
    s.predictScalingNeeds taskData =
      { action := "maintain", reason := "Optimal resource utilization"
        recommendedWorkers := s.workerPool.maxSize } ∧
    (reached 1 zeroClock
      [.executeTask (exampleTask "a") "normal"]).getPoolStatus.stats.resourceUtilization = 100 ∧
    (reached 1 zeroClock
      [.executeTask (exampleTask "a") "normal"]).getPoolStatus.totalWorkers = 1 ∧
    (IntelligentScheduler.new
        (reached 1 zeroClock [.executeTask (exampleTask "a") "normal"])).predictScalingNeeds
        taskData =
      { action := "maintain", reason := "Optimal resource utilization"
        recommendedWorkers := 1 } := by
  have hall : ∀ poolStatus : PoolStatus, predictScalingNeedsIn poolStatus =
      { action := "maintain", reason := "Optimal resource utilization"
        recommendedWorkers := poolStatus.totalWorkers } := by
    intro poolStatus
    simp [predictScalingNeedsIn, PoolStatus.resourceUtilization, jsGreater, jsLess]
  refine ⟨hall _, ?_, by decide, ?_⟩
  · simp [reached, AdvancedWorkerPool.run, AdvancedWorkerPool.step,
      AdvancedWorkerPool.fresh,
      AdvancedWorkerPool.initialise, AdvancedWorkerPool.new, AdvancedWorkerPool.addWorker,
      AdvancedWorkerPool.executeTask, AdvancedWorkerPool.enqueue, sortQueue,
      AdvancedWorkerPool.processTaskQueue, AdvancedWorkerPool.admissionLoop,
      AdvancedWorkerPool.dispatch, AdvancedWorkerPool.startRunTask, setAdd, setDelete,
      updateWorker, AdvancedWorkerPool.updateGauges, UltraThinkWorker.beginTask,
      UltraThinkWorker.new, List.range, List.range.loop,
      AdvancedWorkerPool.getPoolStatus, zeroClock]
  · simp only [IntelligentScheduler.predictScalingNeeds]
    rw [hall]
    rfl

end UltraThink

namespace UltraThink

/-! ## The status snapshot -/

/-- An assignment to a property of one object leaves every other object as it was. -/
theorem assignProperty_other (h : JsHeap) (a b : Nat) (key : String) (v : JsValue)
    (hab : a ≠ b) : (assignProperty h b key v)[a]? = h[a]? := by
  unfold assignProperty
  cases hb : h[b]? with
  | none => rfl
  | some o => exact List.getElem?_set_ne (Ne.symm hab)

/-- An assignment to a property of an object changes that property of it. -/
theorem assignProperty_same (h : JsHeap) (a : Nat) (key : String) (v : JsValue) (o : JsObject)
    (ha : h[a]? = some o) : (assignProperty h a key v)[a]? = some (putProperty o key v) := by
  unfold assignProperty
  rw [ha]
  have hlt : a < h.length := (List.getElem?_eq_some.1 ha).1
  simp [List.getElem?_set_self, hlt]

/-- Assignments leave an object none of them is about as it was. -/
theorem assignAll_other (a : Nat) : ∀ (writes : List (Nat × String × JsValue)) (h : JsHeap),
    (∀ x ∈ writes, x.1 ≠ a) → (assignAll h writes)[a]? = h[a]? := by
  intro writes
  induction writes with
  | nil => intro h _; rfl
  | cons x xs ih =>
    intro h hx
    show (assignAll (assignProperty h x.1 x.2.1 x.2.2) xs)[a]? = h[a]?
    rw [ih _ (fun y hy => hx y (List.mem_cons_of_mem _ hy))]
    exact assignProperty_other h a x.1 _ _ (Ne.symm (hx x (List.mem_cons_self _ _)))

end UltraThink

namespace UltraThink

/-- No call start or completion changes the `workerId` of a worker. -/
theorem UltraThinkWorker.run_workerId (evs : List WorkerEvent) :
    ∀ w : UltraThinkWorker, (w.run evs).workerId = w.workerId := by
  induction evs with
  | nil => intro w; rfl
  | cons e es ih =>
    intro w
    show ((w.step e).run es).workerId = w.workerId
    rw [ih]
    cases e with
    | start taskData => rfl
    | settle outcome duration =>
      cases outcome <;> rfl

/-- The assignments of `workerWrites` bring the worker object and its `stats` to the fields
written, and keep the worker's `workerId` and the reference to its `stats`. -/
theorem workerWrites_effect (h : JsHeap) (this sa : Nat) (w w2 : UltraThinkWorker)
    (hne : this ≠ sa) (hw : h[this]? = some (workerObject w sa))
    (hs : h[sa]? = some (statsObject w.stats)) (hid : w2.workerId = w.workerId) :
    (assignAll h (workerWrites this sa w2))[this]? = some (workerObject w2 sa) ∧
    (assignAll h (workerWrites this sa w2))[sa]? = some (statsObject w2.stats) := by
  have hne2 : sa ≠ this := Ne.symm hne
  simp only [assignAll, workerWrites, List.foldl_cons, List.foldl_nil]
  have step1 := assignProperty_same h this "busy" (.boolean w2.busy) _ hw
  have keep1 := (assignProperty_other h sa this "busy" (.boolean w2.busy) hne2).trans hs
  generalize assignProperty h this "busy" (.boolean w2.busy) = h1 at step1 keep1 ⊢
  have step2 := assignProperty_same h1 this "currentTask" (currentTaskValue w2.currentTask) _
    step1
  have keep2 := (assignProperty_other h1 sa this "currentTask"
    (currentTaskValue w2.currentTask) hne2).trans keep1
  generalize assignProperty h1 this "currentTask" (currentTaskValue w2.currentTask) = h2
    at step2 keep2 ⊢
  have step3 := assignProperty_same h2 sa "tasksCompleted" (.number w2.stats.tasksCompleted) _
    keep2
  have keep3 := (assignProperty_other h2 this sa "tasksCompleted"
    (.number w2.stats.tasksCompleted) hne).trans step2
  generalize assignProperty h2 sa "tasksCompleted" (.number w2.stats.tasksCompleted) = h3
    at step3 keep3 ⊢
  have step4 := assignProperty_same h3 sa "totalExecutionTime"
    (.number w2.stats.totalExecutionTime) _ step3
  have keep4 := (assignProperty_other h3 this sa "totalExecutionTime"
    (.number w2.stats.totalExecutionTime) hne).trans keep3
  generalize assignProperty h3 sa "totalExecutionTime" (.number w2.stats.totalExecutionTime) = h4
    at step4 keep4 ⊢
  have step5 := assignProperty_same h4 sa "averageTaskTime"
    (.number w2.stats.averageTaskTime) _ step4
  have keep5 := (assignProperty_other h4 this sa "averageTaskTime"
    (.number w2.stats.averageTaskTime) hne).trans keep4
  generalize assignProperty h4 sa "averageTaskTime" (.number w2.stats.averageTaskTime) = h5
    at step5 keep5 ⊢
  have step6 := assignProperty_same h5 sa "errors" (.number w2.stats.errors) _ step5
  have keep6 := (assignProperty_other h5 this sa "errors"
    (.number w2.stats.errors) hne).trans keep5
  generalize assignProperty h5 sa "errors" (.number w2.stats.errors) = h6 at step6 keep6 ⊢
  constructor
  · rw [keep6]
    simp [putProperty, workerObject, hid]
  · rw [step6]
    simp [putProperty, statsObject]

end UltraThink

namespace UltraThink

/-- What `getStatus()` does to a store in which `this` is the object of worker `w`. -/
theorem getStatusObject_eq (h : JsHeap) (this sa : Nat) (w : UltraThinkWorker)
    (hw : h[this]? = some (workerObject w sa)) (hs : h[sa]? = some (statsObject w.stats)) :
    getStatusObject h this =
      (h ++ [statsObject w.stats, statusObject w.getStatus h.length], h.length + 1) := by
  simp [getStatusObject, hw, hs, getProperty, workerObject, statusObject,
    UltraThinkWorker.getStatus, List.lookup]

/-- C12. Status snapshot: with the worker `w` stored as an object at `this` and its `stats` as
an object at `sa`, `getStatus()` changes no object that exists, so no field of the worker; it
returns a new object holding the worker's `workerId`, `busy` and `currentTask` and a new copy
of its `stats`; assignments to the returned object or to its `stats` leave the worker's `busy`,
`currentTask` and `stats` unchanged; and after later executions have brought the worker to
the fields of `w.run evs`, the snapshot taken earlier still holds the fields of `w`. -/
theorem getStatus_snapshot_independent (h : JsHeap) (this sa : Nat) (w : UltraThinkWorker)
    (hw : h[this]? = some (workerObject w sa)) (hs : h[sa]? = some (statsObject w.stats)) :
    (∀ a, a < h.length → (getStatusObject h this).1[a]? = h[a]?) ∧
    (getStatusObject h this).1[this]? = some (workerObject w sa) ∧
    (getStatusObject h this).1[sa]? = some (statsObject w.stats) ∧
    (getStatusObject h this).2 = h.length + 1 ∧
    (getStatusObject h this).1[(getStatusObject h this).2]? =
      some (statusObject w.getStatus h.length) ∧
    (getStatusObject h this).1[h.length]? = some (statsObject w.getStatus.stats) ∧
    (∀ writes : List (Nat × String × JsValue),
      (∀ x ∈ writes, x.1 = (getStatusObject h this).2 ∨ x.1 = h.length) →
      (assignAll (getStatusObject h this).1 writes)[this]? = some (workerObject w sa) ∧
      (assignAll (getStatusObject h this).1 writes)[sa]? = some (statsObject w.stats)) ∧
    (∀ writes : List (Nat × String × JsValue),
      (∀ x ∈ writes, x.1 = this ∨ x.1 = sa) →
      (assignAll (getStatusObject h this).1 writes)[(getStatusObject h this).2]? =
        some (statusObject w.getStatus h.length) ∧
      (assignAll (getStatusObject h this).1 writes)[h.length]? =
        some (statsObject w.getStatus.stats)) ∧
    (∀ evs : List WorkerEvent,
      (assignAll (getStatusObject h this).1 (workerWrites this sa (w.run evs)))[this]? =
        some (workerObject (w.run evs) sa) ∧
      (assignAll (getStatusObject h this).1 (workerWrites this sa (w.run evs)))[sa]? =
        some (statsObject (w.run evs).stats) ∧
      (assignAll (getStatusObject h this).1
          (workerWrites this sa (w.run evs)))[(getStatusObject h this).2]? =
        some (statusObject w.getStatus h.length) ∧
      (assignAll (getStatusObject h this).1 (workerWrites this sa (w.run evs)))[h.length]? =
        some (statsObject w.getStatus.stats)) := by
  have hthis : this < h.length := (List.getElem?_eq_some.1 hw).1
  have hsa : sa < h.length := (List.getElem?_eq_some.1 hs).1
  have hne : this ≠ sa := by
    intro heq
    rw [heq, hs] at hw
    simp [workerObject, statsObject] at hw
  have hold : ∀ a, a < h.length →
      (h ++ [statsObject w.stats, statusObject w.getStatus h.length])[a]? = h[a]? :=
    fun a ha => List.getElem?_append_left ha
  have hnew : (h ++ [statsObject w.stats, statusObject w.getStatus h.length])[h.length + 1]? =
      some (statusObject w.getStatus h.length) := by
    rw [List.getElem?_append_right (Nat.le_succ _)]
    simp
  have hcopy : (h ++ [statsObject w.stats, statusObject w.getStatus h.length])[h.length]? =
      some (statsObject w.getStatus.stats) := by
    rw [List.getElem?_append_right (Nat.le_refl _)]
    simp [UltraThinkWorker.getStatus]
  have hw2 := (hold this hthis).trans hw
  have hs2 := (hold sa hsa).trans hs
  have hkeep : ∀ writes : List (Nat × String × JsValue),
      (∀ x ∈ writes, x.1 = this ∨ x.1 = sa) →
      (assignAll (h ++ [statsObject w.stats, statusObject w.getStatus h.length])
          writes)[h.length + 1]? = some (statusObject w.getStatus h.length) ∧
      (assignAll (h ++ [statsObject w.stats, statusObject w.getStatus h.length])
          writes)[h.length]? = some (statsObject w.getStatus.stats) := by
    intro writes hwr
    constructor
    · rw [assignAll_other _ writes _ (fun x hx => by rcases hwr x hx with e | e <;> omega)]
      exact hnew
    · rw [assignAll_other _ writes _ (fun x hx => by rcases hwr x hx with e | e <;> omega)]
      exact hcopy
  rw [getStatusObject_eq h this sa w hw hs]
  refine ⟨hold, hw2, hs2, rfl, hnew, hcopy, ?_, hkeep, ?_⟩
  · intro writes hwr
    have hfresh : ∀ x ∈ writes, x.1 = h.length + 1 ∨ x.1 = h.length := hwr
    constructor
    · rw [assignAll_other _ writes _ (fun x hx => by
        rcases hfresh x hx with e | e <;> omega)]
      exact hw2
    · rw [assignAll_other _ writes _ (fun x hx => by
        rcases hfresh x hx with e | e <;> omega)]
      exact hs2
  · intro evs
    obtain ⟨e1, e2⟩ := workerWrites_effect _ this sa w (w.run evs) hne hw2 hs2
      (UltraThinkWorker.run_workerId evs w)
    obtain ⟨e3, e4⟩ := hkeep (workerWrites this sa (w.run evs)) (by
      intro x hx
      simp only [workerWrites, List.mem_cons, List.mem_singleton, List.not_mem_nil,
        or_false] at hx
      rcases hx with rfl | rfl | rfl | rfl | rfl | rfl <;> simp)
    exact ⟨e1, e2, e3, e4⟩

/-- C12 on a store with one new worker: a call started after the snapshot sets the worker's
`busy`, and the snapshot still says `busy == false`. -/
theorem getStatus_snapshot_independent_witness :
    (oneWorkerHeap[1]? = some (workerObject (UltraThinkWorker.new "worker-0") 0) ∧
      oneWorkerHeap[0]? = some (statsObject (UltraThinkWorker.new "worker-0").stats)) ∧
    (assignAll (getStatusObject oneWorkerHeap 1).1
        (workerWrites 1 0 ((UltraThinkWorker.new "worker-0").run
          [.start (exampleTask "a")])))[1]? =
      some (workerObject ((UltraThinkWorker.new "worker-0").run [.start (exampleTask "a")]) 0) ∧
    (assignAll (getStatusObject oneWorkerHeap 1).1
        (workerWrites 1 0 ((UltraThinkWorker.new "worker-0").run
          [.start (exampleTask "a")])))[(getStatusObject oneWorkerHeap 1).2]? =
      some (statusObject (UltraThinkWorker.new "worker-0").getStatus 2) :=
  ⟨⟨rfl, rfl⟩,
   ((getStatus_snapshot_independent oneWorkerHeap 1 0 (UltraThinkWorker.new "worker-0")
      rfl rfl).2.2.2.2.2.2.2.2 [.start (exampleTask "a")]).1,
   ((getStatus_snapshot_independent oneWorkerHeap 1 0 (UltraThinkWorker.new "worker-0")
      rfl rfl).2.2.2.2.2.2.2.2 [.start (exampleTask "a")]).2.2.1⟩

end UltraThink

namespace UltraThink

/-! ## The scheduler: resource strategy -/

/-- C21 (the code departs from the claim). `selectResourceStrategy` compares the property
`taskType` of the task, which a task of the data model does not have, so it returns `balanced`
for every such task whatever its `type` is; a task of type `testing` gets `balanced`, not
`parallel_optimized`. -/
theorem selectResourceStrategy_ignores_type (s : IntelligentScheduler) (taskData : TaskData) :
    testingTask.type = "testing" ∧
    s.selectResourceStrategy testingTask = "balanced" ∧
    (taskData.taskType = none → s.selectResourceStrategy taskData = "balanced") ∧
    s.selectResourceStrategy { taskData with type := "testing" } =
      s.selectResourceStrategy { taskData with type := "research" } := by
  refine ⟨rfl, rfl, ?_, rfl⟩
  intro h
  simp [IntelligentScheduler.selectResourceStrategy, h]

/-! ## The scheduler: the history is bounded -/

theorem IntelligentScheduler.updatePerformanceCache_history
    (stringify : ResourceRequirements → String) (s : IntelligentScheduler) (taskData : TaskData)
    (result : Result) :
    (s.updatePerformanceCache stringify taskData result).taskHistory = s.taskHistory := by
  unfold IntelligentScheduler.updatePerformanceCache
  dsimp only
  split <;> rfl

theorem IntelligentScheduler.recordExecution_history
    (stringify : ResourceRequirements → String) (s : IntelligentScheduler) (call : RecordCall) :
    (s.recordExecution stringify call).taskHistory =
      if (s.taskHistory ++ [call.executionRecord]).length > 1000 then
        sliceLast 500 (s.taskHistory ++ [call.executionRecord])
      else s.taskHistory ++ [call.executionRecord] := by
  unfold IntelligentScheduler.recordExecution
  rw [IntelligentScheduler.updatePerformanceCache_history]

theorem IntelligentScheduler.recordAll_append (stringify : ResourceRequirements → String)
    (s : IntelligentScheduler) (calls : List RecordCall) (call : RecordCall) :
    s.recordAll stringify (calls ++ [call]) =
      (s.recordAll stringify calls).recordExecution stringify call := by
  simp [IntelligentScheduler.recordAll, List.foldl_append]

/-- One call of `recordExecution` on a ledger of at most 1000 records. -/
theorem IntelligentScheduler.recordExecution_length
    (stringify : ResourceRequirements → String) (s : IntelligentScheduler) (call : RecordCall)
    (h : s.taskHistory.length ≤ 1000) :
    (s.recordExecution stringify call).taskHistory.length =
      if s.taskHistory.length < 1000 then s.taskHistory.length + 1 else 500 := by
  rw [IntelligentScheduler.recordExecution_history]
  simp only [List.length_append, List.length_singleton, sliceLast]
  split_ifs <;> simp <;> omega

/-- The ledger after `n` calls from an empty one: it grows to 1000, falls to 500 at the next
call, and never exceeds 1000. -/
theorem IntelligentScheduler.recordAll_length (stringify : ResourceRequirements → String)
    (workerPool : AdvancedWorkerPool) (calls : List RecordCall) :
    ((IntelligentScheduler.new workerPool).recordAll stringify calls).taskHistory.length ≤ 1000 ∧
    (calls.length ≤ 1000 →
      ((IntelligentScheduler.new workerPool).recordAll stringify calls).taskHistory.length =
        calls.length) ∧
    (calls.length = 1001 →
      ((IntelligentScheduler.new workerPool).recordAll stringify calls).taskHistory.length =
        500) := by
  induction calls using List.reverseRecOn with
  | nil =>
    refine ⟨?_, ?_, ?_⟩
    · simp [IntelligentScheduler.recordAll, IntelligentScheduler.new]
    · intro _; rfl
    · intro h; simp at h
  | append_singleton calls call ih =>
    obtain ⟨h1, h2, _⟩ := ih
    rw [IntelligentScheduler.recordAll_append]
    have hlen := IntelligentScheduler.recordExecution_length stringify
      ((IntelligentScheduler.new workerPool).recordAll stringify calls) call h1
    rw [hlen]
    simp only [List.length_append, List.length_singleton]
    refine ⟨?_, ?_, ?_⟩
    · split_ifs <;> omega
    · intro h
      rw [h2 (by omega), if_pos (by omega)]
    · intro h
      rw [h2 (by omega), if_neg (by omega)]

end UltraThink

namespace UltraThink

/-- C22. Bounded history: starting from an empty ledger, after every `recordExecution` call
`taskHistory.length <= 1000`; a call on a ledger of fewer than 1000 records appends the new
record at the end and keeps the earlier ones in order; a call on a ledger of exactly 1000
records leaves the 499 newest of them followed by the new one, in their order, 500 records in
all; and the ledger of exactly 1000 is reached (after 1000 calls), the 1001st leaving 500. -/
theorem recordExecution_bounded_history (stringify : ResourceRequirements → String)
    (workerPool : AdvancedWorkerPool) (calls : List RecordCall) (s : IntelligentScheduler)
    (call : RecordCall) :
    ((IntelligentScheduler.new workerPool).recordAll stringify calls).taskHistory.length ≤ 1000 ∧
    (s.taskHistory.length < 1000 →
      (s.recordExecution stringify call).taskHistory =
        s.taskHistory ++ [call.executionRecord]) ∧
    (s.taskHistory.length = 1000 →
      (s.recordExecution stringify call).taskHistory =
        s.taskHistory.drop 501 ++ [call.executionRecord] ∧
      (s.taskHistory.drop 501).length = 499 ∧
      (s.recordExecution stringify call).taskHistory.length = 500) ∧
    (calls.length = 1000 →
      ((IntelligentScheduler.new workerPool).recordAll stringify calls).taskHistory.length =
        1000 ∧
      ((IntelligentScheduler.new workerPool).recordAll stringify
        (calls ++ [call])).taskHistory.length = 500) := by
  obtain ⟨hle, hsmall, _⟩ := IntelligentScheduler.recordAll_length stringify workerPool calls
  refine ⟨hle, ?_, ?_, ?_⟩
  · intro h
    rw [IntelligentScheduler.recordExecution_history, if_neg]
    simp only [List.length_append, List.length_singleton]
    omega
  · intro h
    have hdrop : (s.taskHistory.drop 501).length = 499 := by
      rw [List.length_drop, h]
    have heq : (s.recordExecution stringify call).taskHistory =
        s.taskHistory.drop 501 ++ [call.executionRecord] := by
      rw [IntelligentScheduler.recordExecution_history, if_pos]
      · simp only [sliceLast, List.length_append, List.length_singleton, h]
        exact List.drop_append_of_le_length (by omega)
      · simp only [List.length_append, List.length_singleton]
        omega
    refine ⟨heq, hdrop, ?_⟩
    rw [heq, List.length_append, hdrop]
    rfl
  · intro h
    refine ⟨by rw [hsmall (by omega), h], ?_⟩
    exact (IntelligentScheduler.recordAll_length stringify workerPool (calls ++ [call])).2.2
      (by simp [h])

end UltraThink

namespace UltraThink

/-! ## The performance cache -/

theorem mapHas_eq_isSome (map : List (String × PerformanceCacheEntry)) (key : String) :
    mapHas map key = (mapGet map key).isSome := by
  induction map with
  | nil => rfl
  | cons kv rest ih =>
    by_cases h : kv.1 = key
    · simp [mapHas, mapGet, List.find?_cons, h]
    · simp only [mapHas, mapGet] at ih ⊢
      simp [List.find?_cons, h, ih]

theorem mapGet_nil (key : String) : mapGet [] key = none := rfl

theorem mapGet_cons (kv : String × PerformanceCacheEntry)
    (rest : List (String × PerformanceCacheEntry)) (key : String) :
    mapGet (kv :: rest) key = if kv.1 = key then some kv.2 else mapGet rest key := by
  by_cases h : kv.1 = key <;> simp [mapGet, List.find?_cons, h]

theorem mapGet_append_singleton (map : List (String × PerformanceCacheEntry))
    (kv : String × PerformanceCacheEntry) (key : String) :
    mapGet (map ++ [kv]) key =
      if (mapGet map key).isSome then mapGet map key
      else if kv.1 = key then some kv.2 else none := by
  induction map with
  | nil => simp [mapGet_cons, mapGet_nil]
  | cons x rest ih =>
    rw [List.cons_append, mapGet_cons, mapGet_cons, ih]
    by_cases h : x.1 = key <;> simp [h]

/-- The entries after the value of `key` is replaced in place. -/
theorem mapGet_replace (map : List (String × PerformanceCacheEntry)) (key other : String)
    (value : PerformanceCacheEntry) :
    mapGet (map.map (fun kv => if kv.1 == key then (key, value) else kv)) other =
      if other = key then (if (mapGet map key).isSome then some value else none)
      else mapGet map other := by
  induction map with
  | nil => simp [mapGet_nil]
  | cons x rest ih =>
    rw [List.map_cons, mapGet_cons, ih, mapGet_cons, mapGet_cons]
    by_cases h : x.1 = key
    · by_cases h2 : other = key
      · simp [h, h2]
      · have h3 : ¬ key = other := fun e => h2 e.symm
        simp [h, h2, h3]
    · by_cases h2 : other = key
      · have h3 : ¬ x.1 = other := fun e => h (e.trans h2)
        simp [h, h2]
      · simp [h, h2]

theorem mapGet_mapSet_same (map : List (String × PerformanceCacheEntry)) (key : String)
    (value : PerformanceCacheEntry) : mapGet (mapSet map key value) key = some value := by
  unfold mapSet
  rw [mapHas_eq_isSome]
  split_ifs with h
  · rw [mapGet_replace, if_pos rfl, if_pos h]
  · rw [mapGet_append_singleton, if_neg h, if_pos rfl]

theorem mapGet_mapSet_other (map : List (String × PerformanceCacheEntry)) (key other : String)
    (value : PerformanceCacheEntry) (hne : other ≠ key) :
    mapGet (mapSet map key value) other = mapGet map other := by
  unfold mapSet
  split_ifs
  · rw [mapGet_replace, if_neg hne]
  · rw [mapGet_append_singleton, if_neg (Ne.symm hne)]
    cases mapGet map other <;> rfl

/-- What one `updatePerformanceCache` call does to the entry of each key. -/
theorem IntelligentScheduler.updatePerformanceCache_get
    (stringify : ResourceRequirements → String) (s : IntelligentScheduler) (taskData : TaskData)
    (result : Result) (key : String) :
    mapGet (s.updatePerformanceCache stringify taskData result).performanceCache key =
      if cacheKey stringify taskData = key then
        some (((mapGet s.performanceCache key).getD
          { averageDuration := 0, successRate := 0, executions := 0 }).update result)
      else mapGet s.performanceCache key := by
  unfold IntelligentScheduler.updatePerformanceCache
  dsimp only
  by_cases hhas : mapHas s.performanceCache (cacheKey stringify taskData) = true
  · have hsome := hhas
    rw [mapHas_eq_isSome, Option.isSome_iff_exists] at hsome
    obtain ⟨entry, hentry⟩ := hsome
    simp only [hhas, Bool.not_true, Bool.false_eq_true, if_false, hentry]
    split_ifs with hk
    · rw [← hk, mapGet_mapSet_same, hentry]
      rfl
    · exact mapGet_mapSet_other _ _ _ _ (Ne.symm hk)
  · have hnone : mapGet s.performanceCache (cacheKey stringify taskData) = none := by
      have := mapHas_eq_isSome s.performanceCache (cacheKey stringify taskData)
      rw [Bool.not_eq_true] at hhas
      rw [hhas] at this
      cases h : mapGet s.performanceCache (cacheKey stringify taskData) with
      | none => rfl
      | some x => rw [h] at this; cases this
    rw [Bool.not_eq_true] at hhas
    simp only [hhas, Bool.not_false, if_true, mapGet_mapSet_same]
    split_ifs with hk
    · rw [← hk, mapGet_mapSet_same, hnone]
      rfl
    · rw [mapGet_mapSet_other _ _ _ _ (Ne.symm hk), mapGet_mapSet_other _ _ _ _ (Ne.symm hk)]

end UltraThink

namespace UltraThink

theorem resultsFor_cons (stringify : ResourceRequirements → String) (key : String)
    (u : TaskData × Result) (updates : List (TaskData × Result)) :
    resultsFor stringify key (u :: updates) =
      if cacheKey stringify u.1 = key then u.2 :: resultsFor stringify key updates
      else resultsFor stringify key updates := by
  by_cases h : cacheKey stringify u.1 = key <;> simp [resultsFor, List.filter_cons, h]

/-- The entry of a key after a sequence of updates: untouched if none of them is for the key,
else the starting entry (the old one, or the zero entry of a new key) updated with the
results recorded for the key, in order. -/
theorem IntelligentScheduler.updateAll_get (stringify : ResourceRequirements → String)
    (key : String) (updates : List (TaskData × Result)) :
    ∀ s : IntelligentScheduler,
      mapGet (s.updateAll stringify updates).performanceCache key =
        if resultsFor stringify key updates = [] then mapGet s.performanceCache key
        else some ((resultsFor stringify key updates).foldl PerformanceCacheEntry.update
          ((mapGet s.performanceCache key).getD
            { averageDuration := 0, successRate := 0, executions := 0 })) := by
  induction updates with
  | nil => intro s; rfl
  | cons u rest ih =>
    intro s
    show mapGet ((s.updatePerformanceCache stringify u.1 u.2).updateAll stringify
      rest).performanceCache key = _
    rw [ih, IntelligentScheduler.updatePerformanceCache_get, resultsFor_cons]
    by_cases hk : cacheKey stringify u.1 = key
    · rw [if_pos hk, if_pos hk, if_neg (List.cons_ne_nil _ _), Option.getD_some,
        List.foldl_cons]
      by_cases h1 : resultsFor stringify key rest = []
      · rw [if_pos h1, h1]
        rfl
      · rw [if_neg h1]
    · rw [if_neg hk, if_neg hk]

/-- The entry of a key that was not in the cache, after updates of which some are for it. -/
theorem IntelligentScheduler.updateAll_new_key (stringify : ResourceRequirements → String)
    (s : IntelligentScheduler) (key : String) (updates : List (TaskData × Result))
    (hnew : mapGet s.performanceCache key = none)
    (hsome : resultsFor stringify key updates ≠ []) :
    mapGet (s.updateAll stringify updates).performanceCache key =
      some (entryAfter (resultsFor stringify key updates)) := by
  rw [IntelligentScheduler.updateAll_get, if_neg hsome, hnew]
  rfl

theorem foldl_update_successRate (results : List Result) :
    ∀ e : PerformanceCacheEntry,
      (results.foldl PerformanceCacheEntry.update e).successRate =
        (results.map (fun r => r.success)).foldl
          (fun r s => 0.9 * r + 0.1 * (if s then 1 else 0)) e.successRate := by
  induction results with
  | nil => intro e; rfl
  | cons r rest ih =>
    intro e
    rw [List.foldl_cons, ih, List.map_cons, List.foldl_cons]
    congr 1
    simp only [PerformanceCacheEntry.update]
    ring

theorem foldl_update_executions (results : List Result) :
    ∀ e : PerformanceCacheEntry,
      (results.foldl PerformanceCacheEntry.update e).executions =
        e.executions + results.length := by
  induction results with
  | nil => intro e; rfl
  | cons r rest ih =>
    intro e
    rw [List.foldl_cons, ih, List.length_cons]
    simp only [PerformanceCacheEntry.update]
    omega

theorem foldl_update_averageDuration (results : List Result) :
    ∀ e : PerformanceCacheEntry,
      (results.foldl PerformanceCacheEntry.update e).averageDuration *
          ((e.executions + results.length : Nat) : ℚ) =
        e.averageDuration * (e.executions : ℚ) +
          (results.map (fun r => r.executionTime)).sum := by
  induction results with
  | nil => intro e; simp
  | cons r rest ih =>
    intro e
    have hstep := ih (e.update r)
    have hexec : (e.update r).executions = e.executions + 1 := rfl
    have havg : (e.update r).averageDuration * ((e.executions + 1 : Nat) : ℚ) =
        e.averageDuration * (e.executions : ℚ) + r.executionTime := by
      have hpos : (((e.executions + 1 : Nat) : ℚ)) ≠ 0 :=
        Nat.cast_ne_zero.2 (Nat.succ_ne_zero _)
      simp only [PerformanceCacheEntry.update]
      rw [div_mul_cancel₀ _ hpos]
      push_cast
      ring
    rw [List.foldl_cons, List.length_cons, List.map_cons, List.sum_cons]
    rw [hexec] at hstep
    have hlen : e.executions + (rest.length + 1) = e.executions + 1 + rest.length := by omega
    rw [hlen, hstep, havg]
    ring

theorem successRateRecurrence_append (outcomes : List Bool) (s : Bool) :
    successRateRecurrence (outcomes ++ [s]) =
      0.9 * successRateRecurrence outcomes + 0.1 * (if s then 1 else 0) := by
  simp [successRateRecurrence, List.foldl_append]

/-- The value of the recurrence after `n` outcomes is between 0 and `1 - 0.9^n`, and is
`1 - 0.9^n` exactly when all of them are successes. -/
theorem successRateRecurrence_bounds (outcomes : List Bool) :
    0 ≤ successRateRecurrence outcomes ∧
    successRateRecurrence outcomes ≤ 1 - (0.9 : ℚ) ^ outcomes.length ∧
    (successRateRecurrence outcomes = 1 - (0.9 : ℚ) ^ outcomes.length ↔
      ∀ s ∈ outcomes, s = true) := by
  induction outcomes using List.reverseRecOn with
  | nil => simp [successRateRecurrence]
  | append_singleton os s ih =>
    obtain ⟨h0, h1, h2⟩ := ih
    rw [successRateRecurrence_append, List.length_append, List.length_singleton, pow_succ]
    have hpow : (0 : ℚ) < (0.9 : ℚ) ^ os.length := by positivity
    cases s with
    | true =>
      simp only [if_true]
      refine ⟨by linarith, by linarith, ?_⟩
      constructor
      · intro h
        have hos : successRateRecurrence os = 1 - (0.9 : ℚ) ^ os.length := by linarith
        intro x hx
        rcases List.mem_append.1 hx with hx | hx
        · exact h2.1 hos x hx
        · simpa using hx
      · intro h
        have hos := h2.2 (fun x hx => h x (List.mem_append_left _ hx))
        rw [hos]
        ring
    | false =>
      simp only [Bool.false_eq_true, if_false]
      refine ⟨by linarith, by linarith, ?_⟩
      constructor
      · intro h
        exfalso
        linarith
      · intro h
        have := h false (List.mem_append_right _ (List.mem_singleton_self _))
        cases this

end UltraThink

namespace UltraThink

/-- The results recorded for the signature of the ten example updates. -/
theorem resultsFor_tenUpdates :
    resultsFor exampleStringify (cacheKey exampleStringify (exampleTask "a")) tenUpdates =
      List.replicate 8 (okResult 50) ++ List.replicate 2 (failedResult 50) := by
  simp [resultsFor, tenUpdates, List.replicate]

/-- C23. Cached success rate: for a signature (cache key) not yet in the cache and every
sequence of updates of which at least one is for it, the entry of the key exists afterwards
and its `successRate` is `r_n`, where `r_0 = 0`, `r_i = 0.9 * r_(i-1) + 0.1 * s_i` and
`s_1..s_n` are the outcomes recorded for the key, in order; exact over the rationals. -/
theorem cache_successRate_recurrence (stringify : ResourceRequirements → String)
    (s : IntelligentScheduler) (key : String) (updates : List (TaskData × Result))
    (hnew : mapGet s.performanceCache key = none)
    (hsome : resultsFor stringify key updates ≠ []) :
    ∃ entry, mapGet (s.updateAll stringify updates).performanceCache key = some entry ∧
      entry.successRate =
        successRateRecurrence ((resultsFor stringify key updates).map (fun r => r.success)) := by
  refine ⟨_, IntelligentScheduler.updateAll_new_key stringify s key updates hnew hsome, ?_⟩
  unfold entryAfter
  rw [foldl_update_successRate]
  rfl

/-- C23 at eight successes followed by two failures: the cached rate is
`(1 - 0.9^8) * 0.9^2`. -/
theorem cache_successRate_recurrence_witness :
    mapGet (IntelligentScheduler.new (AdvancedWorkerPool.fresh 1)).performanceCache
      (cacheKey exampleStringify (exampleTask "a")) = none ∧
    resultsFor exampleStringify (cacheKey exampleStringify (exampleTask "a")) tenUpdates ≠ [] ∧
    ∃ entry, mapGet ((IntelligentScheduler.new (AdvancedWorkerPool.fresh 1)).updateAll
        exampleStringify tenUpdates).performanceCache
        (cacheKey exampleStringify (exampleTask "a")) = some entry ∧
      entry.successRate = (1 - (0.9 : ℚ) ^ 8) * (0.9 : ℚ) ^ 2 :=
  ⟨rfl, by rw [resultsFor_tenUpdates]; simp [List.replicate],
   (cache_successRate_recurrence exampleStringify
      (IntelligentScheduler.new (AdvancedWorkerPool.fresh 1))
      (cacheKey exampleStringify (exampleTask "a")) tenUpdates rfl
      (by rw [resultsFor_tenUpdates]; simp [List.replicate])).imp
    (fun entry h => ⟨h.1, h.2.trans (by
      rw [resultsFor_tenUpdates]
      simp [successRateRecurrence, List.replicate, okResult, failedResult]
      norm_num)⟩)⟩

end UltraThink

namespace UltraThink

/-- C24. Cached duration: for a signature (cache key) not yet in the cache and every sequence
of updates of which `n >= 1` are for it, with execution times `t_1..t_n`, the entry of the key
has `executions == n` and `averageDuration == (t_1 + ... + t_n) / n` over the rationals; and
the entry of every key none of the updates is for is unchanged. -/
theorem cache_averageDuration_mean (stringify : ResourceRequirements → String)
    (s : IntelligentScheduler) (key : String) (updates : List (TaskData × Result))
    (hnew : mapGet s.performanceCache key = none)
    (hsome : 1 ≤ (resultsFor stringify key updates).length) :
    (∃ entry, mapGet (s.updateAll stringify updates).performanceCache key = some entry ∧
      entry.executions = (resultsFor stringify key updates).length ∧
      entry.averageDuration =
        ((resultsFor stringify key updates).map (fun r => r.executionTime)).sum /
          ((resultsFor stringify key updates).length : ℚ)) ∧
    (∀ other, resultsFor stringify other updates = [] →
      mapGet (s.updateAll stringify updates).performanceCache other =
        mapGet s.performanceCache other) := by
  have hne : resultsFor stringify key updates ≠ [] := by
    intro h
    rw [h] at hsome
    simp at hsome
  constructor
  · refine ⟨_, IntelligentScheduler.updateAll_new_key stringify s key updates hnew hne, ?_, ?_⟩
    · unfold entryAfter
      rw [foldl_update_executions]
      simp
    · have h := foldl_update_averageDuration (resultsFor stringify key updates)
        { averageDuration := 0, successRate := 0, executions := 0 }
      have hpos : ((resultsFor stringify key updates).length : ℚ) ≠ 0 :=
        Nat.cast_ne_zero.2 (by omega)
      simp only [Nat.zero_add, Nat.cast_zero, mul_zero, zero_add] at h
      unfold entryAfter
      rw [← h, mul_div_assoc, div_self hpos, mul_one]
  · intro other hother
    rw [IntelligentScheduler.updateAll_get, if_pos hother]

/-- C24 at the ten example updates of 50 ms each: ten executions, 50 ms on average. -/
theorem cache_averageDuration_mean_witness :
    (mapGet (IntelligentScheduler.new (AdvancedWorkerPool.fresh 1)).performanceCache
        (cacheKey exampleStringify (exampleTask "a")) = none ∧
      1 ≤ (resultsFor exampleStringify (cacheKey exampleStringify (exampleTask "a"))
        tenUpdates).length) ∧
    ∃ entry, mapGet ((IntelligentScheduler.new (AdvancedWorkerPool.fresh 1)).updateAll
        exampleStringify tenUpdates).performanceCache
        (cacheKey exampleStringify (exampleTask "a")) = some entry ∧
      entry.executions = 10 ∧ entry.averageDuration = 50 :=
  ⟨⟨rfl, by rw [resultsFor_tenUpdates]; simp⟩,
   (cache_averageDuration_mean exampleStringify
      (IntelligentScheduler.new (AdvancedWorkerPool.fresh 1))
      (cacheKey exampleStringify (exampleTask "a")) tenUpdates rfl
      (by rw [resultsFor_tenUpdates]; simp)).1.imp
    (fun entry h => ⟨h.1, h.2.1.trans (by rw [resultsFor_tenUpdates]; simp),
      h.2.2.trans (by
        rw [resultsFor_tenUpdates]
        simp [List.replicate, okResult, failedResult]
        norm_num)⟩)⟩

/-- The double nearest to `q`, when `q` lies in the binade of `2 ^ k` and is nearer to
`m * 2 ^ (k - 52)` than half a unit in the last place. -/
theorem roundDouble_eq (q : ℚ) (k m : ℤ) (hq : 0 < q) (hk : -1022 ≤ k)
    (hlo : (2 : ℚ) ^ k ≤ q) (hhi : q < (2 : ℚ) ^ (k + 1))
    (hm1 : (m : ℚ) - 1 / 2 < q / (2 : ℚ) ^ (k - 52))
    (hm2 : q / (2 : ℚ) ^ (k - 52) < (m : ℚ) + 1 / 2) :
    roundDouble q = (m : ℚ) * (2 : ℚ) ^ (k - 52) := by
  have hlog : Int.log 2 |q| = k := by
    rw [abs_of_pos hq]
    apply le_antisymm
    · have := (Int.lt_zpow_iff_log_lt (b := 2) (by norm_num) hq).1 hhi
      omega
    · exact (Int.zpow_le_iff_le_log (b := 2) (by norm_num) hq).1 hlo
  unfold roundDouble
  rw [if_neg (ne_of_gt hq)]
  simp only [hlog, max_eq_left hk]
  congr 1
  norm_cast
  set n : ℚ := q / (2 : ℚ) ^ (k - 52) with hn
  by_cases hge : (m : ℚ) ≤ n
  · have hf : ⌊n⌋ = m := Int.floor_eq_iff.2 ⟨hge, by linarith⟩
    rw [hf, if_pos (by linarith)]
  · have hf : ⌊n⌋ = m - 1 := Int.floor_eq_iff.2 ⟨by push_cast; linarith, by push_cast; linarith⟩
    rw [hf]
    push_cast
    rw [if_neg (by linarith), if_pos (by linarith)]
    ring


/-- The double nearest to `q` when `q` lies half way between two doubles and the lower one has
an even significand. -/
theorem roundDouble_tie_even (q : ℚ) (k m : ℤ) (hq : 0 < q) (hk : -1022 ≤ k)
    (hlo : (2 : ℚ) ^ k ≤ q) (hhi : q < (2 : ℚ) ^ (k + 1))
    (hm : q / (2 : ℚ) ^ (k - 52) = (m : ℚ) + 1 / 2) (heven : m % 2 = 0) :
    roundDouble q = (m : ℚ) * (2 : ℚ) ^ (k - 52) := by
  have hlog : Int.log 2 |q| = k := by
    rw [abs_of_pos hq]
    apply le_antisymm
    · have := (Int.lt_zpow_iff_log_lt (b := 2) (by norm_num) hq).1 hhi
      omega
    · exact (Int.zpow_le_iff_le_log (b := 2) (by norm_num) hq).1 hlo
  unfold roundDouble
  rw [if_neg (ne_of_gt hq)]
  simp only [hlog, max_eq_left hk]
  congr 1
  norm_cast
  rw [hm]
  have hf : ⌊(m : ℚ) + 1 / 2⌋ = m := Int.floor_eq_iff.2 ⟨by linarith, by linarith⟩
  rw [hf, if_neg (by linarith), if_neg (by linarith), if_pos heven]

theorem roundDouble_nine_tenths : roundDouble 0.9 = 8106479329266893 / 2 ^ 53 := by
  rw [roundDouble_eq 0.9 (-1) 8106479329266893 (by norm_num) (by norm_num) (by norm_num)
    (by norm_num) (by norm_num) (by norm_num)]
  norm_num

theorem roundDouble_one_tenth : roundDouble 0.1 = 7205759403792794 / 2 ^ 56 := by
  rw [roundDouble_eq 0.1 (-4) 7205759403792794 (by norm_num) (by norm_num) (by norm_num)
    (by norm_num) (by norm_num) (by norm_num)]
  norm_num

theorem roundDouble_exact (k m : ℤ) (hk : -1022 ≤ k) (hm1 : 2 ^ 52 ≤ m) (hm2 : m < 2 ^ 53) :
    roundDouble ((m : ℚ) * (2 : ℚ) ^ (k - 52)) = (m : ℚ) * (2 : ℚ) ^ (k - 52) := by
  have hpos : (0 : ℚ) < (2 : ℚ) ^ (k - 52) := by positivity
  have hm1q : ((2 : ℚ) ^ 52) ≤ (m : ℚ) := by exact_mod_cast hm1
  have hm2q : (m : ℚ) < (2 : ℚ) ^ 53 := by exact_mod_cast hm2
  have hsplit : (2 : ℚ) ^ k = (2 : ℚ) ^ 52 * (2 : ℚ) ^ (k - 52) := by
    rw [← zpow_natCast, ← zpow_add₀ (by norm_num : (2 : ℚ) ≠ 0)]
    congr 1
    omega
  have hsplit2 : (2 : ℚ) ^ (k + 1) = (2 : ℚ) ^ 53 * (2 : ℚ) ^ (k - 52) := by
    rw [← zpow_natCast, ← zpow_add₀ (by norm_num : (2 : ℚ) ≠ 0)]
    congr 1
    omega
  apply roundDouble_eq _ k m
  · have : (0 : ℚ) < (m : ℚ) := lt_of_lt_of_le (by positivity) hm1q
    positivity
  · exact hk
  · rw [hsplit]
    exact mul_le_mul_of_nonneg_right hm1q hpos.le
  · rw [hsplit2]
    exact mul_lt_mul_of_pos_right hm2q hpos
  · rw [mul_div_assoc, div_self hpos.ne', mul_one]
    linarith
  · rw [mul_div_assoc, div_self hpos.ne', mul_one]
    linarith


/-- The rate the program holds after four successes, operation by operation. -/
theorem cachedRateInDoubles_four :
    cachedRateInDoubles [true, true, true, true] = 6195151647410855 / 2 ^ 54 := by
  have h9 := roundDouble_nine_tenths
  have h0 : roundDouble 0 = 0 := by simp [roundDouble]
  have hc : roundDouble ((if true then 1 else 0) * roundDouble 0.1) =
      7205759403792794 / 2 ^ 56 := by
    rw [roundDouble_one_tenth, if_pos rfl, one_mul]
    refine (roundDouble_eq _ (-4) 7205759403792794 ?_ ?_ ?_ ?_ ?_ ?_).trans ?_ <;> norm_num
  have step1 : successRateInDoubles 0 true = 7205759403792794 / 2 ^ 56 := by
    unfold successRateInDoubles
    rw [hc, zero_mul, h0, zero_add]
    refine (roundDouble_eq _ (-4) 7205759403792794 ?_ ?_ ?_ ?_ ?_ ?_).trans ?_ <;> norm_num
  have step2 : successRateInDoubles (7205759403792794 / 2 ^ 56) true =
      6845471433603154 / 2 ^ 55 := by
    unfold successRateInDoubles
    rw [hc, h9]
    have hp : roundDouble (7205759403792794 / 2 ^ 56 * (8106479329266893 / 2 ^ 53)) =
        6485183463413515 / 2 ^ 56 := by
      refine (roundDouble_eq _ (-4) 6485183463413515 ?_ ?_ ?_ ?_ ?_ ?_).trans ?_ <;> norm_num
    rw [hp]
    refine (roundDouble_tie_even _ (-3) 6845471433603154 ?_ ?_ ?_ ?_ ?_ ?_).trans ?_ <;>
      norm_num
  have step3 : successRateInDoubles (6845471433603154 / 2 ^ 55) true =
      4881901996069618 / 2 ^ 54 := by
    unfold successRateInDoubles
    rw [hc, h9]
    have hp : roundDouble (6845471433603154 / 2 ^ 55 * (8106479329266893 / 2 ^ 53)) =
        6160924290242839 / 2 ^ 55 := by
      refine (roundDouble_eq _ (-3) 6160924290242839 ?_ ?_ ?_ ?_ ?_ ?_).trans ?_ <;> norm_num
    rw [hp]
    refine (roundDouble_eq _ (-2) 4881901996069618 ?_ ?_ ?_ ?_ ?_ ?_).trans ?_ <;> norm_num
  have step4 : successRateInDoubles (4881901996069618 / 2 ^ 54) true =
      6195151647410855 / 2 ^ 54 := by
    unfold successRateInDoubles
    rw [hc, h9]
    have hp : roundDouble (4881901996069618 / 2 ^ 54 * (8106479329266893 / 2 ^ 53)) =
        8787423592925313 / 2 ^ 55 := by
      refine (roundDouble_eq _ (-3) 8787423592925313 ?_ ?_ ?_ ?_ ?_ ?_).trans ?_ <;> norm_num
    rw [hp]
    refine (roundDouble_eq _ (-2) 6195151647410855 ?_ ?_ ?_ ?_ ?_ ?_).trans ?_ <;> norm_num
  show successRateInDoubles (successRateInDoubles (successRateInDoubles
    (successRateInDoubles 0 true) true) true) true = _
  rw [step1, step2, step3, step4]

/-- C28 fails as stated: in the arithmetic of the program (IEEE 754 doubles), after four
successful executions of a new signature the cached `successRate` is
`6195151647410855 / 2^54`, printed `0.34390000000000004`, which is above `1 - 0.9^4` and is
not the value `1 - 0.9^4` the recurrence has over the rationals, although all four
succeeded. -/
theorem cache_successRate_double_counterexample :
    cachedRateInDoubles [true, true, true, true] = 6195151647410855 / 2 ^ 54 ∧
    1 - (0.9 : ℚ) ^ 4 < cachedRateInDoubles [true, true, true, true] ∧
    successRateRecurrence [true, true, true, true] = 1 - (0.9 : ℚ) ^ 4 ∧
    cachedRateInDoubles [true, true, true, true] ≠
      successRateRecurrence [true, true, true, true] := by
  have hrec : successRateRecurrence [true, true, true, true] = 1 - (0.9 : ℚ) ^ 4 := by
    simp [successRateRecurrence]
    norm_num
  refine ⟨cachedRateInDoubles_four, ?_, hrec, ?_⟩
  · rw [cachedRateInDoubles_four]
    norm_num
  · rw [cachedRateInDoubles_four, hrec]
    norm_num

/-- C28 as amended. Over the rationals (exact arithmetic, as in C23): for a signature (cache
key) not yet in the cache, after `n >= 1` executions recorded for it the cached `successRate`
is at least 0 and at most `1 - 0.9^n`, it equals `1 - 0.9^n` exactly when all `n` executions
succeeded, it is 0.1 when the first and only execution succeeded, and it is less than 1. -/
theorem cache_successRate_biased_low (stringify : ResourceRequirements → String)
    (s : IntelligentScheduler) (key : String) (updates : List (TaskData × Result))
    (hnew : mapGet s.performanceCache key = none)
    (hsome : 1 ≤ (resultsFor stringify key updates).length) :
    ∃ entry, mapGet (s.updateAll stringify updates).performanceCache key = some entry ∧
      0 ≤ entry.successRate ∧
      entry.successRate ≤ 1 - (0.9 : ℚ) ^ (resultsFor stringify key updates).length ∧
      (entry.successRate = 1 - (0.9 : ℚ) ^ (resultsFor stringify key updates).length ↔
        ∀ r ∈ resultsFor stringify key updates, r.success = true) ∧
      (∀ r, resultsFor stringify key updates = [r] → r.success = true →
        entry.successRate = 0.1) ∧
      entry.successRate < 1 := by
  have hne : resultsFor stringify key updates ≠ [] := by
    intro h
    rw [h] at hsome
    simp at hsome
  have hrate : (entryAfter (resultsFor stringify key updates)).successRate =
      successRateRecurrence ((resultsFor stringify key updates).map (fun r => r.success)) := by
    unfold entryAfter
    rw [foldl_update_successRate]
    rfl
  obtain ⟨h0, h1, h2⟩ := successRateRecurrence_bounds
    ((resultsFor stringify key updates).map (fun r => r.success))
  rw [List.length_map] at h1 h2
  refine ⟨_, IntelligentScheduler.updateAll_new_key stringify s key updates hnew hne, ?_, ?_,
    ?_, ?_, ?_⟩
  · rw [hrate]; exact h0
  · rw [hrate]; exact h1
  · rw [hrate, h2]
    simp
  · intro r hr hs
    rw [hrate, hr]
    simp [successRateRecurrence, hs]
  · rw [hrate]
    have hpow : (0 : ℚ) < (0.9 : ℚ) ^ (resultsFor stringify key updates).length := by
      positivity
    linarith

/-- C28 at one successful execution: the cached rate is 0.1. -/
theorem cache_successRate_biased_low_witness :
    (mapGet (IntelligentScheduler.new (AdvancedWorkerPool.fresh 1)).performanceCache
        (cacheKey exampleStringify (exampleTask "a")) = none ∧
      1 ≤ (resultsFor exampleStringify (cacheKey exampleStringify (exampleTask "a"))
        [(exampleTask "a", okResult 50)]).length) ∧
    ∃ entry, mapGet ((IntelligentScheduler.new (AdvancedWorkerPool.fresh 1)).updateAll
        exampleStringify [(exampleTask "a", okResult 50)]).performanceCache
        (cacheKey exampleStringify (exampleTask "a")) = some entry ∧
      entry.successRate = 0.1 :=
  ⟨⟨rfl, by simp [resultsFor]⟩,
   (cache_successRate_biased_low exampleStringify
      (IntelligentScheduler.new (AdvancedWorkerPool.fresh 1))
      (cacheKey exampleStringify (exampleTask "a")) [(exampleTask "a", okResult 50)] rfl
      (by simp [resultsFor])).imp
    (fun entry h => ⟨h.1, h.2.2.2.2.1 (okResult 50) (by simp [resultsFor]) rfl⟩)⟩

end UltraThink

namespace UltraThink

/-! ## The cache hit rate -/

/-- A call of `updatePerformanceCache` leaves in the cache every key that was in it and the
key of its task. -/
theorem IntelligentScheduler.updatePerformanceCache_has
    (stringify : ResourceRequirements → String) (s : IntelligentScheduler) (taskData : TaskData)
    (result : Result) (key : String)
    (h : mapHas s.performanceCache key = true ∨ cacheKey stringify taskData = key) :
    mapHas (s.updatePerformanceCache stringify taskData result).performanceCache key = true := by
  rw [mapHas_eq_isSome, IntelligentScheduler.updatePerformanceCache_get]
  split_ifs with hk
  · rfl
  · rcases h with h | h
    · rw [← mapHas_eq_isSome]; exact h
    · exact absurd h hk

theorem mem_sliceLast {α : Type} (n : Nat) (array : List α) (x : α)
    (h : x ∈ sliceLast n array) : x ∈ array :=
  List.mem_of_mem_drop h

/-- Every record of the history has its key in the cache, in every state reached from a new
scheduler by `recordExecution` calls. -/
theorem IntelligentScheduler.recordAll_cached (stringify : ResourceRequirements → String)
    (workerPool : AdvancedWorkerPool) (calls : List RecordCall) :
    ∀ execution ∈ ((IntelligentScheduler.new workerPool).recordAll stringify calls).taskHistory,
      mapHas ((IntelligentScheduler.new workerPool).recordAll stringify calls).performanceCache
        (cacheKey stringify execution.taskData) = true := by
  induction calls using List.reverseRecOn with
  | nil =>
    intro execution h
    simp [IntelligentScheduler.recordAll, IntelligentScheduler.new] at h
  | append_singleton calls call ih =>
    intro execution h
    rw [IntelligentScheduler.recordAll_append] at h ⊢
    rw [IntelligentScheduler.recordExecution_history] at h
    have hmem : execution ∈ ((IntelligentScheduler.new workerPool).recordAll stringify
        calls).taskHistory ++ [call.executionRecord] := by
      split_ifs at h
      · exact mem_sliceLast _ _ _ h
      · exact h
    unfold IntelligentScheduler.recordExecution
    apply IntelligentScheduler.updatePerformanceCache_has
    rcases List.mem_append.1 hmem with hold | hnew
    · exact Or.inl (ih execution hold)
    · right
      rw [List.mem_singleton.1 hnew]
      rfl

/-- The loop of `calculateCacheHitRate` counts every execution whose key is in the cache. -/
theorem hits_all (has : ExecutionRecord → Bool) (executions : List ExecutionRecord)
    (h : ∀ execution ∈ executions, has execution = true) :
    ∀ start : Nat, executions.foldl (fun hits execution =>
      if has execution then hits + 1 else hits) start = start + executions.length := by
  induction executions with
  | nil => intro start; rfl
  | cons x rest ih =>
    intro start
    rw [List.foldl_cons, if_pos (h x (List.mem_cons_self _ _)),
      ih (fun e he => h e (List.mem_cons_of_mem _ he)), List.length_cons]
    omega

/-- C29. Cache hit rate is degenerate: in every scheduler state reached from a new scheduler
through `recordExecution` calls, `calculateCacheHitRate` returns 0 if `taskHistory` is empty
and exactly 1 otherwise, every record of the history having its key in the cache; and the
history is empty only before the first call. -/
theorem cacheHitRate_degenerate (stringify : ResourceRequirements → String)
    (workerPool : AdvancedWorkerPool) (calls : List RecordCall) :
    ((IntelligentScheduler.new workerPool).recordAll stringify calls).calculateCacheHitRate
        stringify =
      (if ((IntelligentScheduler.new workerPool).recordAll stringify calls).taskHistory = []
        then 0 else 1) ∧
    (∀ execution ∈
        ((IntelligentScheduler.new workerPool).recordAll stringify calls).taskHistory,
      mapHas ((IntelligentScheduler.new workerPool).recordAll stringify calls).performanceCache
        (cacheKey stringify execution.taskData) = true) ∧
    (((IntelligentScheduler.new workerPool).recordAll stringify calls).taskHistory = [] ↔
      calls = []) := by
  have hcached := IntelligentScheduler.recordAll_cached stringify workerPool calls
  refine ⟨?_, hcached, ?_⟩
  · generalize (IntelligentScheduler.new workerPool).recordAll stringify calls = s at hcached
    unfold IntelligentScheduler.calculateCacheHitRate
    dsimp only
    rw [hits_all (fun execution => mapHas s.performanceCache
      (cacheKey stringify execution.taskData)) _
      (fun e he => hcached e (mem_sliceLast _ _ _ he)) 0, Nat.zero_add]
    have hslice : (sliceLast 50 s.taskHistory).length = min 50 s.taskHistory.length := by
      simp only [sliceLast, List.length_drop]
      omega
    rw [hslice]
    by_cases hempty : s.taskHistory = []
    · rw [if_pos hempty, hempty]
      simp
    · rw [if_neg hempty]
      have hpos : 1 ≤ s.taskHistory.length := by
        cases hh : s.taskHistory with
        | nil => exact absurd hh hempty
        | cons x xs => simp
      have h1 : max 1 (min 50 s.taskHistory.length) = min 50 s.taskHistory.length := by omega
      rw [h1]
      have hne : ((min 50 s.taskHistory.length : Nat) : ℚ) ≠ 0 :=
        Nat.cast_ne_zero.2 (by omega)
      exact div_self hne
  · constructor
    · intro h
      by_contra hcalls
      have hl : ((IntelligentScheduler.new workerPool).recordAll stringify
          calls).taskHistory.length = 0 := by rw [h]; rfl
      obtain ⟨init, last, rfl⟩ : ∃ init last, calls = init ++ [last] := by
        cases hc : calls.reverse with
        | nil => simp at hc; exact absurd hc hcalls
        | cons x xs =>
          exact ⟨xs.reverse, x, by rw [← List.reverse_reverse calls, hc]; simp⟩
      rw [IntelligentScheduler.recordAll_append,
        IntelligentScheduler.recordExecution_length stringify _ last
          (IntelligentScheduler.recordAll_length stringify workerPool init).1] at hl
      split_ifs at hl
    · intro h
      rw [h]
      rfl

end UltraThink

namespace UltraThink

/-! ## The scheduler: scheduling efficiency -/

/-- C25 (the code departs from the claim). `calculateSchedulingEfficiency` does arithmetic on
the read `poolStatus.resourceUtilization`, a property the pool status does not have, so it
returns `NaN` (here `none`) for every pool state; for an idle, freshly initialised pool the
formula gives 1/3 and the code gives `NaN`. -/
theorem calculateSchedulingEfficiency_nan (s : IntelligentScheduler) :
    s.calculateSchedulingEfficiency = none ∧
    (IntelligentScheduler.new (AdvancedWorkerPool.fresh 1)).calculateSchedulingEfficiency =
      none ∧
    formulaSchedulingEfficiency
      (AdvancedWorkerPool.fresh 1).getPoolStatus.stats.resourceUtilization
      (AdvancedWorkerPool.fresh 1).getPoolStatus.stats.completedTasks
      (AdvancedWorkerPool.fresh 1).getPoolStatus.stats.totalTasks
      (AdvancedWorkerPool.fresh 1).getPoolStatus.stats.averageWaitTime = 1 / 3 := by
  refine ⟨rfl, rfl, ?_⟩
  rw [AdvancedWorkerPool.fresh_eq]
  simp [formulaSchedulingEfficiency, AdvancedWorkerPool.getPoolStatus, AdvancedWorkerPool.new]

/-! ## The worker: dispatch by task type -/

/-- C26 (the code departs from the claim). For a task of type `analysis`, the routine throws
(`resourceRequirements is not defined`) and `executeTask` returns a Result with
`success == false` and increments `stats.errors`; for every other type the Result has
`success == true`, `data.taskType` is the type when it is `research`, `implementation` or
`testing` and `generic` otherwise, and `stats.errors` is unchanged. -/
theorem worker_dispatch_by_type (w : UltraThinkWorker) (taskData : TaskData)
    (startTime endTime : ℚ) :
    (failingTask "a").type = "analysis" ∧
    (∃ w1 r, w.executeTask (failingTask "a") startTime endTime = .ok (w1, r) ∧
      r.success = false ∧ r.data = none ∧
      r.error = some "resourceRequirements is not defined" ∧
      w1.stats.errors = w.stats.errors + 1) ∧
    (taskData.type = "analysis" →
      ∃ w1 r, w.executeTask taskData startTime endTime = .ok (w1, r) ∧
        r.success = false ∧ w1.stats.errors = w.stats.errors + 1) ∧
    (taskData.type ≠ "analysis" →
      ∃ w1 r data, w.executeTask taskData startTime endTime = .ok (w1, r) ∧
        r.success = true ∧ r.data = some data ∧ w1.stats.errors = w.stats.errors ∧
        data.taskType =
          if taskData.type = "research" ∨ taskData.type = "implementation" ∨
            taskData.type = "testing" then taskData.type
          else "generic") := by
  have hfail : ∀ td : TaskData, td.type = "analysis" →
      ∃ w1 r, w.executeTask td startTime endTime = .ok (w1, r) ∧
        r.success = false ∧ r.data = none ∧
        r.error = some "resourceRequirements is not defined" ∧
        w1.stats.errors = w.stats.errors + 1 := by
    intro td htd
    simp only [UltraThinkWorker.executeTask,
      simulate_error_of_analysis (w.beginTask td) td htd, UltraThinkWorker.finishTask]
    exact ⟨_, _, rfl, rfl, rfl, rfl, by
      simp [UltraThinkWorker.updateStats, UltraThinkWorker.release,
        UltraThinkWorker.beginTask]⟩
  refine ⟨rfl, hfail _ rfl, ?_, ?_⟩
  · intro htd
    obtain ⟨w1, r, h1, h2, _, _, h5⟩ := hfail taskData htd
    exact ⟨w1, r, h1, h2, h5⟩
  · intro htd
    simp only [UltraThinkWorker.executeTask, UltraThinkWorker.simulateTaskExecution, if_neg htd]
    by_cases h2 : taskData.type = "research"
    · simp only [if_pos h2, UltraThinkWorker.simulateResearch, UltraThinkWorker.finishTask]
      refine ⟨_, _, _, rfl, rfl, rfl, ?_, ?_⟩
      · simp [UltraThinkWorker.updateStats, UltraThinkWorker.release,
          UltraThinkWorker.beginTask]
      · simp [h2]
    · by_cases h3 : taskData.type = "implementation"
      · simp only [if_neg h2, if_pos h3, UltraThinkWorker.simulateImplementation,
          UltraThinkWorker.finishTask]
        refine ⟨_, _, _, rfl, rfl, rfl, ?_, ?_⟩
        · simp [UltraThinkWorker.updateStats, UltraThinkWorker.release,
            UltraThinkWorker.beginTask]
        · simp [h3]
      · by_cases h4 : taskData.type = "testing"
        · simp only [if_neg h2, if_neg h3, if_pos h4, UltraThinkWorker.simulateTesting,
            UltraThinkWorker.finishTask]
          refine ⟨_, _, _, rfl, rfl, rfl, ?_, ?_⟩
          · simp [UltraThinkWorker.updateStats, UltraThinkWorker.release,
              UltraThinkWorker.beginTask]
          · simp [h4]
        · simp only [if_neg h2, if_neg h3, if_neg h4, UltraThinkWorker.simulateGenericTask,
            UltraThinkWorker.finishTask]
          refine ⟨_, _, _, rfl, rfl, rfl, ?_, ?_⟩
          · simp [UltraThinkWorker.updateStats, UltraThinkWorker.release,
              UltraThinkWorker.beginTask]
          · simp [h2, h3, h4]

end UltraThink

namespace UltraThink

/-! ## Task accounting -/

/-- Every event but a shutdown poll keeps the accounting equation. -/
theorem tallied_step (clock : Nat → ℚ) (e : PoolEvent) (hlive : e ≠ PoolEvent.shutdown) :
    ∀ p : AdvancedWorkerPool, Partitioned p ∧ Ordered p ∧ Tallied p →
      Partitioned (p.step clock e) ∧ Ordered (p.step clock e) ∧ Tallied (p.step clock e) := by
  refine @AdvancedWorkerPool.step_induct_at
    (fun p => Partitioned p ∧ Ordered p ∧ Tallied p) clock e ?_ ?_ ?_ ?_ ?_ ?_
  · intro p td pr _ ⟨hp, ho, ha⟩
    have hlen : (p.enqueue clock td pr).taskQueue.length = p.taskQueue.length + 1 := by
      show (sortQueue (p.taskQueue ++ [_])).length = _
      unfold sortQueue
      rw [List.length_insertionSort]
      simp
    refine ⟨⟨hp.nodup, hp.perm, hp.running, hp.size, hp.valid⟩,
      ordered_enqueue clock p td pr ho, ?_⟩
    show p.stats.totalTasks + 1 = p.stats.completedTasks + p.running.length +
      (p.enqueue clock td pr).taskQueue.length
    rw [hlen]
    have : p.stats.totalTasks = _ := ha
    omega
  · intro p tw rest w ⟨hp, ho, ha⟩ hq hw
    refine ⟨partitioned_dispatch clock p tw rest w hp hw,
      ordered_dispatch clock p tw rest w ho hq, ?_⟩
    have hrl : (p.dispatch clock tw rest w).running.length = p.running.length + 1 := by
      simp [AdvancedWorkerPool.dispatch, AdvancedWorkerPool.startRunTask]
    show p.stats.totalTasks = p.stats.completedTasks +
      (p.dispatch clock tw rest w).running.length + rest.length
    rw [hrl]
    have : p.stats.totalTasks = _ := ha
    rw [hq, List.length_cons] at this
    omega
  · intro p ⟨hp, ho, ha⟩
    exact ⟨⟨hp.nodup, hp.perm, hp.running, hp.size, hp.valid⟩,
      ⟨ho.nodup, ho.bound, ho.log, ho.noThrow, ho.rejected⟩, ha⟩
  · intro p w _ ⟨hp, ho, ha⟩
    refine ⟨partitioned_workerSettles clock p w hp, ordered_workerSettles clock p w ho, ?_⟩
    obtain ⟨_, _, _, h4, h5, _, _, _, _, h10⟩ := AdvancedWorkerPool.workerSettles_frame clock p w
    show (p.workerSettles clock w).stats.totalTasks =
      (p.workerSettles clock w).stats.completedTasks + (p.workerSettles clock w).running.length +
        (p.workerSettles clock w).taskQueue.length
    rw [h5, h10, h4]
    exact ha
  · intro p r _ ⟨hp, ho, ha⟩ hr hsome
    obtain ⟨res, hres⟩ : ∃ res, r.result = some (.ok res) := by
      cases hrr : r.result with
      | none => rw [hrr] at hsome; simp at hsome
      | some c =>
        cases c with
        | ok res => exact ⟨res, rfl⟩
        | error e => exact absurd hrr (ho.noThrow r hr e)
    have hcomp : p.complete r =
        { p with
          stats := { p.stats with
            completedTasks := p.stats.completedTasks + 1
            averageWaitTime :=
              (p.stats.averageWaitTime * (((p.stats.completedTasks + 1 : Nat) : ℚ) - 1) +
                r.taskWrapper.waitTime) / ((p.stats.completedTasks + 1 : Nat) : ℚ) }
          resolved := p.resolved ++ [(r.taskWrapper.handle, res)] } := by
      unfold AdvancedWorkerPool.complete
      rw [hres]
    have hsplit := (running_split p.running r hp.running_nodup hr).length_eq
    rw [List.length_cons] at hsplit
    refine ⟨partitioned_release p r hp hr, ordered_release p r ho hp hr hsome, ?_⟩
    rw [hcomp]
    show p.stats.totalTasks = p.stats.completedTasks + 1 +
      (p.running.filter (fun x => x.worker ≠ r.worker)).length + p.taskQueue.length
    have : p.stats.totalTasks = _ := ha
    omega
  · intro p hx
    exact absurd hx hlive

/-- A shutdown poll on a pool that still holds workers keeps the accounting equation: it
clears the pool only when nothing is in flight, and then nothing is queued. -/
theorem tallied_shutdown (p : AdvancedWorkerPool) (hp : Partitioned p) (hs : Settled p)
    (ha : Tallied p) (hw : p.workers ≠ []) : Tallied p.shutdown := by
  unfold AdvancedWorkerPool.shutdown
  split
  · exact ha
  · rename_i hb
    have hb0 : p.busyWorkers = [] := by
      cases hbw : p.busyWorkers with
      | nil => rfl
      | cons a l => rw [hbw] at hb; simp at hb
    have hav : p.availableWorkers ≠ [] := by
      intro h
      have hperm := hp.perm
      rw [h, hb0] at hperm
      exact hw (List.Perm.nil_eq hperm).symm
    have hq : p.taskQueue = [] := by
      by_contra hne
      exact hav (hs.conserving hne)
    have : p.stats.totalTasks = _ := ha
    rw [hq] at this
    exact this

/-- An event leaves the workers of the pool as they are or clears them. -/
theorem AdvancedWorkerPool.step_workers (clock : Nat → ℚ) (p : AdvancedWorkerPool)
    (e : PoolEvent) : (p.step clock e).workers = p.workers ∨ (p.step clock e).workers = [] := by
  refine @AdvancedWorkerPool.step_induct
    (fun q => q.workers = p.workers ∨ q.workers = []) clock ?_ ?_ ?_ ?_ ?_ ?_ p e (Or.inl rfl)
  · intro q td pr h; exact h
  · intro q tw rest w h _ _; exact h
  · intro q h; exact h
  · intro q w h
    rw [(AdvancedWorkerPool.workerSettles_frame clock q w).2.2.1]
    exact h
  · intro q r h _ _
    have : ((q.complete r).releaseWorker r.worker).workers = q.workers := by
      unfold AdvancedWorkerPool.complete AdvancedWorkerPool.releaseWorker
      split <;> rfl
    rw [this]
    exact h
  · intro q h
    unfold AdvancedWorkerPool.shutdown
    split
    · exact h
    · exact Or.inr rfl

/-- A pool without workers stays without workers. -/
theorem AdvancedWorkerPool.run_workers_nil (clock : Nat → ℚ) (evs : List PoolEvent) :
    ∀ p : AdvancedWorkerPool, p.workers = [] → (p.run clock evs).workers = [] := by
  induction evs with
  | nil => intro p h; exact h
  | cons e evs ih =>
    intro p h
    rw [AdvancedWorkerPool.run_cons]
    apply ih
    rcases AdvancedWorkerPool.step_workers clock p e with h1 | h1
    · rw [h1]; exact h
    · exact h1

/-- The accounting equation along a run that polls no shutdown, or that ends in a pool still
holding workers. -/
theorem tallied_run (clock : Nat → ℚ) (evs : List PoolEvent) :
    ∀ p : AdvancedWorkerPool, Partitioned p → Ordered p → Settled p → Tallied p →
      ((∀ e ∈ evs, e ≠ PoolEvent.shutdown) ∨ (p.run clock evs).workers ≠ []) →
      Tallied (p.run clock evs) := by
  induction evs with
  | nil => intro p _ _ _ ha _; exact ha
  | cons e evs ih =>
    intro p hp ho hs ha hlive
    rw [AdvancedWorkerPool.run_cons] at hlive ⊢
    have hnext : (∀ x ∈ evs, x ≠ PoolEvent.shutdown) ∨
        ((p.step clock e).run clock evs).workers ≠ [] := by
      rcases hlive with h | h
      · exact Or.inl (fun x hx => h x (List.mem_cons_of_mem _ hx))
      · exact Or.inr h
    have hpo := ordered_step clock p e ⟨hp, ho⟩
    refine ih _ hpo.1 hpo.2 (settled_step clock p e hs) ?_ hnext
    by_cases he : e = PoolEvent.shutdown
    · subst he
      have hw : p.workers ≠ [] := by
        rcases hlive with h | h
        · exact absurd rfl (h _ (List.mem_cons_self _ _))
        · intro hnil
          apply h
          apply AdvancedWorkerPool.run_workers_nil
          rcases AdvancedWorkerPool.step_workers clock p PoolEvent.shutdown with h1 | h1
          · rw [h1]; exact hnil
          · exact h1
      exact tallied_shutdown p hp hs ha hw
    · exact (tallied_step clock e he p ⟨hp, ho, ha⟩).2.2

end UltraThink

namespace UltraThink

/-- C27. Task accounting: in every state reached from an initialised pool by a run that polls
no shutdown, or in which the pool still holds its workers, `stats.totalTasks ==
stats.completedTasks + |busyWorkers| + taskQueue.length`; so `completedTasks <= totalTasks`;
and `completedTasks` is the number of Results resolved, whatever their `success` is. -/
theorem pool_task_accounting (N : Nat) (clock : Nat → ℚ) (evs : List PoolEvent)
    (hlive : (∀ e ∈ evs, e ≠ PoolEvent.shutdown) ∨ (reached N clock evs).workers ≠ []) :
    (reached N clock evs).stats.totalTasks =
      (reached N clock evs).stats.completedTasks + (reached N clock evs).busyWorkers.length +
        (reached N clock evs).taskQueue.length ∧
    (reached N clock evs).stats.completedTasks ≤ (reached N clock evs).stats.totalTasks ∧
    (reached N clock evs).resolved.length = (reached N clock evs).stats.completedTasks := by
  have hfresh : Tallied (AdvancedWorkerPool.fresh N) := by
    rw [AdvancedWorkerPool.fresh_eq]
    rfl
  have ht : Tallied (reached N clock evs) :=
    tallied_run clock evs _ (partitioned_fresh N) (ordered_fresh N) (settled_run clock N [])
      hfresh hlive
  have hbusy := (partitioned_run clock N evs).busy_le.2
  have hcount := (waitAveraged_run clock N evs).count
  have ht2 : (reached N clock evs).stats.totalTasks = _ := ht
  refine ⟨?_, ?_, hcount⟩
  · rw [ht2, hbusy]
  · omega

/-- C27 at a run in which the only task fails: it is counted as completed. -/
theorem pool_task_accounting_witness :
    ((∀ e ∈ [PoolEvent.executeTask (failingTask "a") "normal", .workerSettles 0,
        .runTaskResumes 0], e ≠ PoolEvent.shutdown) ∨
      (reached 1 zeroClock [.executeTask (failingTask "a") "normal", .workerSettles 0,
        .runTaskResumes 0]).workers ≠ []) ∧
    (reached 1 zeroClock [.executeTask (failingTask "a") "normal", .workerSettles 0,
      .runTaskResumes 0]).resolved.map (fun x => x.2.success) = [false] ∧
    (reached 1 zeroClock [.executeTask (failingTask "a") "normal", .workerSettles 0,
      .runTaskResumes 0]).stats.completedTasks = 1 ∧
    (reached 1 zeroClock [.executeTask (failingTask "a") "normal", .workerSettles 0,
      .runTaskResumes 0]).stats.totalTasks =
      (reached 1 zeroClock [.executeTask (failingTask "a") "normal", .workerSettles 0,
        .runTaskResumes 0]).stats.completedTasks +
      (reached 1 zeroClock [.executeTask (failingTask "a") "normal", .workerSettles 0,
        .runTaskResumes 0]).busyWorkers.length +
      (reached 1 zeroClock [.executeTask (failingTask "a") "normal", .workerSettles 0,
        .runTaskResumes 0]).taskQueue.length :=
  ⟨Or.inl (by simp), by decide, by decide,
   (pool_task_accounting 1 zeroClock [.executeTask (failingTask "a") "normal",
      .workerSettles 0, .runTaskResumes 0] (Or.inl (by simp))).1⟩

end UltraThink

namespace UltraThink

/-! ## The hint of the scheduler and the worker the pool takes -/

/-- The workers of the status of a freshly initialised pool. -/
theorem fresh_status (N : Nat) :
    (AdvancedWorkerPool.fresh N).getPoolStatus.workers =
      (List.range N).map (fun i => (UltraThinkWorker.new ("worker-" ++ toString i)).getStatus) := by
  rw [AdvancedWorkerPool.fresh_eq]
  simp only [AdvancedWorkerPool.getPoolStatus]
  trans List.filterMap
    (some ∘ fun i => (UltraThinkWorker.new ("worker-" ++ toString i)).getStatus) (List.range N)
  · apply List.filterMap_congr
    intro i hi
    have hlt : i < N := List.mem_range.1 hi
    simp [List.getElem?_map, List.getElem?_range hlt]
  · simp

/-- The loop of `selectOptimalWorker` keeps the worker it holds while no idle worker scores
more. -/
theorem IntelligentScheduler.scan_keep (s : IntelligentScheduler) (taskData : TaskData) :
    ∀ (workers : List WorkerStatus) (w : WorkerStatus) (b : ℚ),
      (∀ x ∈ workers, s.calculateWorkerScore x taskData ≤ b) →
      workers.foldl (s.considerWorker taskData) (some w, b) = (some w, b) := by
  intro workers
  induction workers with
  | nil => intro w b _; rfl
  | cons x xs ih =>
    intro w b h
    have hx := h x (List.mem_cons_self _ _)
    have hstep : s.considerWorker taskData (some w, b) x = (some w, b) := by
      simp only [IntelligentScheduler.considerWorker]
      split_ifs with h1 h2
      · rfl
      · exact absurd hx (not_le.2 h2)
      · rfl
    rw [List.foldl_cons, hstep]
    exact ih w b (fun y hy => h y (List.mem_cons_of_mem _ hy))

/-- The score of a worker that has completed no task, for a scheduler without history. -/
theorem new_worker_score (workerPool : AdvancedWorkerPool) (workerId : String)
    (taskData : TaskData) :
    (IntelligentScheduler.new workerPool).calculateWorkerScore
      (UltraThinkWorker.new workerId).getStatus taskData = 70 := by
  simp [IntelligentScheduler.calculateWorkerScore, IntelligentScheduler.new,
    UltraThinkWorker.getStatus, UltraThinkWorker.new]
  norm_num

/-- The hint of a new scheduler on a freshly initialised pool with at least one worker. -/
theorem fresh_hint (n : Nat) (taskData : TaskData) :
    (IntelligentScheduler.new (AdvancedWorkerPool.fresh (n + 1))).selectOptimalWorker taskData =
      "worker-0" := by
  have hid : ("worker-" ++ toString 0 : String) = "worker-0" := by decide
  show workerHint (List.foldl
    ((IntelligentScheduler.new (AdvancedWorkerPool.fresh (n + 1))).considerWorker taskData)
    (none, -1) (AdvancedWorkerPool.fresh (n + 1)).getPoolStatus.workers).1 = "worker-0"
  rw [fresh_status, List.range_succ_eq_map, List.map_cons, List.foldl_cons]
  have hfirst : (IntelligentScheduler.new (AdvancedWorkerPool.fresh (n + 1))).considerWorker
      taskData (none, -1) (UltraThinkWorker.new ("worker-" ++ toString 0)).getStatus =
      (some (UltraThinkWorker.new ("worker-" ++ toString 0)).getStatus, 70) := by
    simp only [IntelligentScheduler.considerWorker, new_worker_score]
    simp [UltraThinkWorker.getStatus, UltraThinkWorker.new]
    norm_num
  rw [hfirst, IntelligentScheduler.scan_keep]
  · simp [workerHint, UltraThinkWorker.getStatus, UltraThinkWorker.new, hid]
  · intro x hx
    simp only [List.mem_map] at hx
    obtain ⟨i, _, rfl⟩ := hx
    rw [new_worker_score]

end UltraThink

namespace UltraThink

theorem toDigitsCore_length (fuel : Nat) :
    ∀ (n : Nat) (ds : List Char),
      ds.length + 1 ≤ (Nat.toDigitsCore 10 (fuel + 1) n ds).length := by
  induction fuel with
  | zero =>
    intro n ds
    simp only [Nat.toDigitsCore]
    split_ifs <;> simp [Nat.toDigitsCore]
  | succ k ih =>
    intro n ds
    rw [Nat.toDigitsCore]
    split_ifs
    · simp
    · have := ih (n / 10) (Nat.digitChar (n % 10) :: ds)
      simp only [List.length_cons] at this
      omega

/-- The decimal numeral of a positive number is not `0`. -/
theorem toString_succ_ne_zero (n : Nat) : toString (n + 1) ≠ "0" := by
  intro h
  have h1 : (Nat.toDigits 10 (n + 1)).asString = "0" := h
  have h2 : Nat.toDigits 10 (n + 1) = ['0'] := by
    have := congrArg String.data h1
    simpa using this
  unfold Nat.toDigits at h2
  rw [Nat.toDigitsCore] at h2
  split_ifs at h2 with h3
  · have hlt : n + 1 < 10 := by omega
    have hmod : (n + 1) % 10 = n + 1 := Nat.mod_eq_of_lt hlt
    rw [hmod] at h2
    have hn : n < 9 := by omega
    interval_cases n <;> simp [Nat.digitChar] at h2
  · have := toDigitsCore_length n ((n + 1) / 10) [Nat.digitChar ((n + 1) % 10)]
    rw [h2] at this
    simp at this

/-- The identifier of a worker other than the first is not `worker-0`. -/
theorem worker_id_ne (n : Nat) : ("worker-" ++ toString (n + 1) : String) ≠ "worker-0" := by
  intro h
  have hid : ("worker-0" : String) = "worker-" ++ "0" := by decide
  rw [hid] at h
  have := congrArg String.data h
  simp only [String.data_append, List.append_cancel_left_eq] at this
  exact toString_succ_ne_zero n (String.ext this)

/-- The admission pass gives the head of the queue to the last of `availableWorkers`. -/
theorem AdvancedWorkerPool.processTaskQueue_takes_last (clock : Nat → ℚ)
    (p : AdvancedWorkerPool) (tw : TaskWrapper) (rest : List TaskWrapper) (w : Nat)
    (hq : p.taskQueue = tw :: rest) (hlast : p.availableWorkers.getLast? = some w) :
    ∃ d ∈ (p.processTaskQueue clock).dispatchLog, d.worker = w ∧ d.task.handle = tw.handle ∧
      d.task.taskData = tw.taskData ∧ d.stillQueued = rest := by
  have hloop : AdvancedWorkerPool.admissionLoop clock (tw :: rest) p =
      AdvancedWorkerPool.admissionLoop clock rest (p.dispatch clock tw rest w) := by
    rw [AdvancedWorkerPool.admissionLoop, hlast]
  show ∃ d ∈ (AdvancedWorkerPool.admissionLoop clock p.taskQueue p).updateGauges.dispatchLog, _
  rw [hq, hloop]
  refine ⟨{ task := { tw with waitTime := clock p.clockReads - tw.startTime }, worker := w,
            stillQueued := rest }, ?_, rfl, rfl, rfl, rfl⟩
  show _ ∈ (AdvancedWorkerPool.admissionLoop clock rest (p.dispatch clock tw rest w)).dispatchLog
  apply AdvancedWorkerPool.admissionLoop_log_mono clock _ rest _ rfl
  simp only [AdvancedWorkerPool.dispatch, AdvancedWorkerPool.startRunTask]
  exact List.mem_append_right _ (List.mem_singleton_self _)

/-- A task given to a freshly initialised pool of `n + 1` workers is in flight on the worker
at position `n`, whose `workerId` is `worker-n`. -/
theorem fresh_executeTask (n : Nat) (clock : Nat → ℚ) (td : TaskData) (pr : String) :
    (∃ r ∈ ((AdvancedWorkerPool.fresh (n + 1)).executeTask clock td pr).running,
      r.worker = n ∧ r.result = none ∧ r.taskWrapper.handle = 0 ∧
      r.taskWrapper.taskData = td) ∧
    (∃ wk, ((AdvancedWorkerPool.fresh (n + 1)).executeTask clock td pr).heap[n]? = some wk ∧
      wk.workerId = "worker-" ++ toString n) ∧
    ((AdvancedWorkerPool.fresh (n + 1)).executeTask clock td pr).resolved = [] ∧
    (AdvancedWorkerPool.fresh (n + 1)).promises = 0 := by
  rw [AdvancedWorkerPool.fresh_eq]
  refine ⟨?_, ?_, ?_, rfl⟩
  · simp [AdvancedWorkerPool.executeTask, AdvancedWorkerPool.enqueue, sortQueue,
      AdvancedWorkerPool.processTaskQueue, AdvancedWorkerPool.admissionLoop,
      AdvancedWorkerPool.dispatch, AdvancedWorkerPool.startRunTask,
      AdvancedWorkerPool.updateGauges, AdvancedWorkerPool.new, List.range_succ]
  · simp [AdvancedWorkerPool.executeTask, AdvancedWorkerPool.enqueue, sortQueue,
      AdvancedWorkerPool.processTaskQueue, AdvancedWorkerPool.admissionLoop,
      AdvancedWorkerPool.dispatch, AdvancedWorkerPool.startRunTask,
      AdvancedWorkerPool.updateGauges, AdvancedWorkerPool.new, List.range_succ, updateWorker,
      UltraThinkWorker.beginTask, UltraThinkWorker.new]
  · simp [AdvancedWorkerPool.executeTask, AdvancedWorkerPool.enqueue, sortQueue,
      AdvancedWorkerPool.processTaskQueue, AdvancedWorkerPool.admissionLoop,
      AdvancedWorkerPool.dispatch, AdvancedWorkerPool.startRunTask,
      AdvancedWorkerPool.updateGauges, AdvancedWorkerPool.new, List.range_succ]

/-- A task given to a freshly initialised pool of `n + 1` workers is resolved, once its worker
has finished and its `runTask` has resumed, with a Result whose `workerId` is `worker-n`. -/
theorem fresh_executeTask_result (n : Nat) (clock : Nat → ℚ) (td : TaskData) (pr : String) :
    ∃ res, ((((AdvancedWorkerPool.fresh (n + 1)).executeTask clock td pr).workerSettles clock
        n).runTaskResumes clock n).resolved = [(0, res)] ∧
      res.workerId = "worker-" ++ toString n := by
  obtain ⟨⟨r, hr, hworker, hnone, hhandle, _⟩, ⟨wk, hwk, hid⟩, hres, _⟩ :=
    fresh_executeTask n clock td pr
  have hpart : Partitioned ((AdvancedWorkerPool.fresh (n + 1)).executeTask clock td pr) :=
    partitioned_run clock (n + 1) [.executeTask td pr]
  obtain ⟨wk2, wk1, res, hheap, hfin, hresolved, _⟩ :=
    AdvancedWorkerPool.settle_then_resume clock _ r hpart hr hnone
  rw [hworker] at hheap hresolved
  rw [hwk] at hheap
  have hwk2 : wk = wk2 := Option.some.inj hheap
  obtain ⟨wk1b, resb, hfinb, hidb, _⟩ := UltraThinkWorker.finishTask_ok wk2
    (wk2.simulateTaskExecution r.taskWrapper.taskData)
    (clock ((AdvancedWorkerPool.fresh (n + 1)).executeTask clock td pr).clockReads - r.startTime)
  rw [hfin] at hfinb
  have hrr : res = resb := by
    injection hfinb with h1
    exact (Prod.mk.inj h1).2
  refine ⟨res, ?_, ?_⟩
  · rw [hresolved, hres, hhandle]
    rfl
  · rw [hrr, hidb, ← hwk2, hid]

end UltraThink

namespace UltraThink

/-- C30. The admission pass ignores the scheduler's hint: `processTaskQueue` gives the task at
the head of the queue to the last element of `availableWorkers`, whatever the task data hold
(its `schedulingDecision.workerAssignment` included); so for a freshly initialised pool of size
`N >= 2` and a new scheduler (empty history), `scheduleTask` computes the hint `worker-0`, and
once the worker has finished it returns a Result whose `workerId` is `worker-(N-1)`, which is
not `worker-0`. -/
theorem scheduleTask_ignores_hint (N : Nat) (hN : 2 ≤ N) (clock : Nat → ℚ)
    (stringify : ResourceRequirements → String) (taskData : TaskData) (startTime endTime : ℚ)
    (timestamp : Nat) :
    (∀ (p : AdvancedWorkerPool) (tw : TaskWrapper) (rest : List TaskWrapper) (w : Nat),
      p.taskQueue = tw :: rest → p.availableWorkers.getLast? = some w →
      ∃ d ∈ (p.processTaskQueue clock).dispatchLog, d.worker = w ∧
        d.task.handle = tw.handle ∧ d.task.taskData = tw.taskData ∧ d.stillQueued = rest) ∧
    ((IntelligentScheduler.new (AdvancedWorkerPool.fresh N)).scheduleTaskSubmit clock taskData
      startTime).2.schedulingDecision.workerAssignment = "worker-0" ∧
    (∃ s result,
      ((((IntelligentScheduler.new (AdvancedWorkerPool.fresh N)).scheduleTaskSubmit clock
          taskData startTime).1.poolEvents clock
          [.workerSettles (N - 1), .runTaskResumes (N - 1)]).scheduleTaskResume stringify
        ((IntelligentScheduler.new (AdvancedWorkerPool.fresh N)).scheduleTaskSubmit clock
          taskData startTime).2 endTime timestamp) = some (.ok (s, result)) ∧
      result.workerId = "worker-" ++ toString (N - 1)) ∧
    ("worker-" ++ toString (N - 1) : String) ≠ "worker-0" := by
  obtain ⟨m, rfl⟩ : ∃ m, N = m + 1 := ⟨N - 1, by omega⟩
  have hne : ("worker-" ++ toString (m + 1 - 1) : String) ≠ "worker-0" := by
    have hm : m + 1 - 1 = (m - 1) + 1 := by omega
    rw [hm]
    exact worker_id_ne (m - 1)
  refine ⟨fun p tw rest w hq hlast =>
    AdvancedWorkerPool.processTaskQueue_takes_last clock p tw rest w hq hlast,
    fresh_hint m taskData, ?_, hne⟩
  obtain ⟨res, hresolved, hid⟩ := fresh_executeTask_result m clock
    { taskData with
      schedulingDecision := (some ((IntelligentScheduler.new
        (AdvancedWorkerPool.fresh (m + 1))).makeSchedulingDecision taskData)) }
    ((IntelligentScheduler.new (AdvancedWorkerPool.fresh (m + 1))).makeSchedulingDecision
      taskData).priority
  have hpromises : (AdvancedWorkerPool.fresh (m + 1)).promises = 0 :=
    (fresh_executeTask m clock taskData "").2.2.2
  obtain ⟨s, hs⟩ : ∃ s,
      ((((IntelligentScheduler.new (AdvancedWorkerPool.fresh (m + 1))).scheduleTaskSubmit clock
          taskData startTime).1.poolEvents clock
          [.workerSettles (m + 1 - 1), .runTaskResumes (m + 1 - 1)]).scheduleTaskResume
        stringify
        ((IntelligentScheduler.new (AdvancedWorkerPool.fresh (m + 1))).scheduleTaskSubmit clock
          taskData startTime).2 endTime timestamp) = some (.ok (s, res)) := by
    simp only [IntelligentScheduler.scheduleTaskResume, IntelligentScheduler.poolEvents,
      IntelligentScheduler.scheduleTaskSubmit, IntelligentScheduler.new,
      AdvancedWorkerPool.run, List.foldl_cons, List.foldl_nil, AdvancedWorkerPool.step,
      Nat.add_sub_cancel]
    simp only [IntelligentScheduler.new] at hresolved
    rw [hresolved]
    simp only [hpromises]
    exact ⟨_, rfl⟩
  refine ⟨s, res, hs, ?_⟩
  rw [Nat.add_sub_cancel]
  exact hid

/-- C30 at a pool of size 2: the hint is `worker-0` and the Result comes from `worker-1`. -/
theorem scheduleTask_ignores_hint_witness :
    2 ≤ 2 ∧
    ((IntelligentScheduler.new (AdvancedWorkerPool.fresh 2)).scheduleTaskSubmit zeroClock
      (exampleTask "a") 0).2.schedulingDecision.workerAssignment = "worker-0" ∧
    ∃ s result,
      ((((IntelligentScheduler.new (AdvancedWorkerPool.fresh 2)).scheduleTaskSubmit zeroClock
          (exampleTask "a") 0).1.poolEvents zeroClock
          [.workerSettles (2 - 1), .runTaskResumes (2 - 1)]).scheduleTaskResume exampleStringify
        ((IntelligentScheduler.new (AdvancedWorkerPool.fresh 2)).scheduleTaskSubmit zeroClock
          (exampleTask "a") 0).2 0 0) = some (.ok (s, result)) ∧
      result.workerId = "worker-" ++ toString (2 - 1) :=
  ⟨Nat.le_refl 2,
   (scheduleTask_ignores_hint 2 (Nat.le_refl 2) zeroClock exampleStringify (exampleTask "a")
      0 0 0).2.1,
   (scheduleTask_ignores_hint 2 (Nat.le_refl 2) zeroClock exampleStringify (exampleTask "a")
      0 0 0).2.2.1⟩

end UltraThink

namespace UltraThink

/-! ## When a task was submitted and when it was dispatched -/

/-- Without an available worker the admission loop dispatches nothing. -/
theorem AdvancedWorkerPool.admissionLoop_idle (clock : Nat → ℚ) (q : List TaskWrapper)
    (p : AdvancedWorkerPool) (h : p.availableWorkers = []) :
    AdvancedWorkerPool.admissionLoop clock q p = { p with taskQueue := q } := by
  cases q with
  | nil => rfl
  | cons t rest =>
    rw [AdvancedWorkerPool.admissionLoop, h]
    rfl

/-- What one event does to the queue and to the dispatch log of a pool in which no task is
queued beside an available worker: a queued task was queued before or is the one submitted,
and at most one task is dispatched, with the wait time read by the admission pass. -/
theorem AdvancedWorkerPool.step_timeline (clock : Nat → ℚ) (p : AdvancedWorkerPool)
    (e : PoolEvent) (hs : Settled p) :
    (∀ t ∈ (p.step clock e).taskQueue, t ∈ p.taskQueue ∨
      ∃ td pr, e = .executeTask td pr ∧
        t = { taskData := td, priority := pr, handle := p.promises,
              startTime := clock p.clockReads, waitTime := 0 }) ∧
    (∀ d ∈ (p.step clock e).dispatchLog, d ∈ p.dispatchLog ∨
      ∃ tw, (tw ∈ p.taskQueue ∨ ∃ td pr, e = .executeTask td pr ∧
          tw = { taskData := td, priority := pr, handle := p.promises,
                 startTime := clock p.clockReads, waitTime := 0 }) ∧
        d.task = { tw with
          waitTime := clock (p.clockReads + (if e.isSubmission then 1 else 0)) -
            tw.startTime }) := by
  cases e with
  | executeTask td pr =>
    show (∀ t ∈ (AdvancedWorkerPool.admissionLoop clock (p.enqueue clock td pr).taskQueue
        (p.enqueue clock td pr)).updateGauges.taskQueue, _) ∧
      (∀ d ∈ (AdvancedWorkerPool.admissionLoop clock (p.enqueue clock td pr).taskQueue
        (p.enqueue clock td pr)).updateGauges.dispatchLog, _)
    by_cases hq : p.taskQueue = []
    · have hq1 : (p.enqueue clock td pr).taskQueue =
          [{ taskData := td, priority := pr, handle := p.promises,
             startTime := clock p.clockReads, waitTime := 0 }] := by
        show sortQueue (p.taskQueue ++ [_]) = _
        rw [hq]
        rfl
      rw [hq1]
      cases hl : p.availableWorkers.getLast? with
      | none =>
        have hloop : AdvancedWorkerPool.admissionLoop clock
            [{ taskData := td, priority := pr, handle := p.promises,
               startTime := clock p.clockReads, waitTime := 0 }] (p.enqueue clock td pr) =
            { p.enqueue clock td pr with
              taskQueue := [{ taskData := td, priority := pr, handle := p.promises,
                              startTime := clock p.clockReads, waitTime := 0 }] } := by
          rw [AdvancedWorkerPool.admissionLoop]
          show (match p.availableWorkers.getLast? with
            | none => _
            | some worker => _) = _
          rw [hl]
        rw [hloop]
        constructor
        · intro t ht
          right
          exact ⟨td, pr, rfl, by simpa [AdvancedWorkerPool.updateGauges] using ht⟩
        · intro d hd
          exact Or.inl hd
      | some w =>
        have hloop : AdvancedWorkerPool.admissionLoop clock
            [{ taskData := td, priority := pr, handle := p.promises,
               startTime := clock p.clockReads, waitTime := 0 }] (p.enqueue clock td pr) =
            { (p.enqueue clock td pr).dispatch clock
                { taskData := td, priority := pr, handle := p.promises,
                  startTime := clock p.clockReads, waitTime := 0 } [] w with
              taskQueue := [] } := by
          rw [AdvancedWorkerPool.admissionLoop]
          show (match p.availableWorkers.getLast? with
            | none => _
            | some worker => _) = _
          rw [hl]
          rfl
        rw [hloop]
        constructor
        · intro t ht
          simp [AdvancedWorkerPool.updateGauges] at ht
        · intro d hd
          simp only [AdvancedWorkerPool.updateGauges, AdvancedWorkerPool.dispatch,
            AdvancedWorkerPool.startRunTask, AdvancedWorkerPool.enqueue, List.mem_append,
            List.mem_singleton] at hd
          rcases hd with hold | hnew
          · exact Or.inl hold
          · right
            refine ⟨_, Or.inr ⟨td, pr, rfl, rfl⟩, ?_⟩
            rw [hnew]
            rfl
    · have hav : (p.enqueue clock td pr).availableWorkers = [] := hs.conserving hq
      rw [AdvancedWorkerPool.admissionLoop_idle clock _ _ hav]
      constructor
      · intro t ht
        have ht2 : t ∈ sortQueue (p.taskQueue ++
            [{ taskData := td, priority := pr, handle := p.promises,
               startTime := clock p.clockReads, waitTime := 0 }]) := ht
        have ht3 := (List.perm_insertionSort priorityGE _).mem_iff.1 ht2
        rcases List.mem_append.1 ht3 with h1 | h1
        · exact Or.inl h1
        · exact Or.inr ⟨td, pr, rfl, List.mem_singleton.1 h1⟩
      · intro d hd
        exact Or.inl hd
  | workerSettles w =>
    obtain ⟨_, _, _, h4, _, _, _, _, h9, _⟩ := AdvancedWorkerPool.workerSettles_frame clock p w
    show (∀ t ∈ (p.workerSettles clock w).taskQueue, _) ∧
      (∀ d ∈ (p.workerSettles clock w).dispatchLog, _)
    rw [h4, h9]
    exact ⟨fun t ht => Or.inl ht, fun d hd => Or.inl hd⟩
  | runTaskResumes w =>
    show (∀ t ∈ (p.runTaskResumes clock w).taskQueue, _) ∧
      (∀ d ∈ (p.runTaskResumes clock w).dispatchLog, _)
    unfold AdvancedWorkerPool.runTaskResumes
    cases hf : p.running.find? (fun r => r.worker = w && r.result.isSome) with
    | none => exact ⟨fun t ht => Or.inl ht, fun d hd => Or.inl hd⟩
    | some r =>
      obtain ⟨f1, _, _, _, _, _, f7, _, f9⟩ := AdvancedWorkerPool.complete_frame p r
      have hclock : (p.complete r).clockReads = p.clockReads := by
        unfold AdvancedWorkerPool.complete
        split <;> rfl
      show (∀ t ∈ (AdvancedWorkerPool.admissionLoop clock
          ((p.complete r).releaseWorker w).taskQueue
          ((p.complete r).releaseWorker w)).updateGauges.taskQueue, _) ∧
        (∀ d ∈ (AdvancedWorkerPool.admissionLoop clock
          ((p.complete r).releaseWorker w).taskQueue
          ((p.complete r).releaseWorker w)).updateGauges.dispatchLog, _)
      have hq2 : ((p.complete r).releaseWorker w).taskQueue = p.taskQueue := f7
      have hlog2 : ((p.complete r).releaseWorker w).dispatchLog = p.dispatchLog := f9
      rw [hq2]
      cases hq : p.taskQueue with
      | nil =>
        have hloop : AdvancedWorkerPool.admissionLoop clock []
            ((p.complete r).releaseWorker w) =
            { (p.complete r).releaseWorker w with taskQueue := [] } := rfl
        rw [hloop]
        constructor
        · intro t ht
          simp [AdvancedWorkerPool.updateGauges] at ht
        · intro d hd
          left
          rw [← hlog2]
          exact hd
      | cons t rest =>
        have hav : p.availableWorkers = [] := hs.conserving (by rw [hq]; simp)
        have hlast : ((p.complete r).releaseWorker w).availableWorkers.getLast? = some w := by
          show ((p.complete r).availableWorkers ++ [w]).getLast? = some w
          simp
        have hidle : (((p.complete r).releaseWorker w).dispatch clock t rest
            w).availableWorkers = [] := by
          show ((p.complete r).availableWorkers ++ [w]).dropLast = []
          rw [f1, hav]
          rfl
        have hloop : AdvancedWorkerPool.admissionLoop clock (t :: rest)
            ((p.complete r).releaseWorker w) =
            { ((p.complete r).releaseWorker w).dispatch clock t rest w with
              taskQueue := rest } := by
          rw [AdvancedWorkerPool.admissionLoop, hlast]
          exact AdvancedWorkerPool.admissionLoop_idle clock rest _ hidle
        rw [hloop]
        constructor
        · intro x hx
          left
          exact List.mem_cons_of_mem _ hx
        · intro d hd
          simp only [AdvancedWorkerPool.updateGauges, AdvancedWorkerPool.dispatch,
            AdvancedWorkerPool.startRunTask, List.mem_append, List.mem_singleton] at hd
          rcases hd with hold | hnew
          · left
            rw [← hlog2]
            exact hold
          · right
            refine ⟨t, Or.inl (List.mem_cons_self _ _), ?_⟩
            rw [hnew]
            show ({ t with waitTime := clock ((p.complete r).releaseWorker w).clockReads -
              t.startTime } : TaskWrapper) = _
            have : ((p.complete r).releaseWorker w).clockReads = p.clockReads := hclock
            rw [this]
            rfl
  | shutdown =>
    show (∀ t ∈ p.shutdown.taskQueue, _) ∧ (∀ d ∈ p.shutdown.dispatchLog, _)
    unfold AdvancedWorkerPool.shutdown
    split
    · exact ⟨fun t ht => Or.inl ht, fun d hd => Or.inl hd⟩
    · constructor
      · intro t ht
        simp at ht
      · intro d hd
        exact Or.inl hd

/-- A task submitted in a run was submitted in every longer run. -/
theorem submittedIn_snoc (N : Nat) (clock : Nat → ℚ) (evs : List PoolEvent) (e : PoolEvent)
    (t : TaskWrapper) (h : SubmittedIn N clock evs t) : SubmittedIn N clock (evs ++ [e]) t := by
  obtain ⟨evs1, td, pr, evs2, h1, h2⟩ := h
  exact ⟨evs1, td, pr, evs2 ++ [e], by rw [h1]; simp, h2⟩

/-- A task dispatched in a run was dispatched in every longer run. -/
theorem dispatchedIn_snoc (N : Nat) (clock : Nat → ℚ) (evs : List PoolEvent) (e : PoolEvent)
    (d : Dispatch) (h : DispatchedIn N clock evs d) : DispatchedIn N clock (evs ++ [e]) d := by
  obtain ⟨evs3, e1, evs4, h1, h2⟩ := h
  exact ⟨evs3, e1, evs4 ++ [e], by rw [h1]; simp, h2⟩

/-- Every queued task carries the clock reading of the call that submitted it, and every
entry of the dispatch log the time from that reading to the reading of the admission pass
that dispatched it. -/
theorem run_timeline (N : Nat) (clock : Nat → ℚ) (evs : List PoolEvent) :
    (∀ t ∈ (reached N clock evs).taskQueue, SubmittedIn N clock evs t) ∧
    (∀ d ∈ (reached N clock evs).dispatchLog,
      SubmittedIn N clock evs d.task ∧ DispatchedIn N clock evs d) := by
  induction evs using List.reverseRecOn with
  | nil =>
    have hq : (reached N clock []).taskQueue = [] := by
      show (AdvancedWorkerPool.fresh N).taskQueue = []
      rw [AdvancedWorkerPool.fresh_eq]
      rfl
    have hl : (reached N clock []).dispatchLog = [] := by
      show (AdvancedWorkerPool.fresh N).dispatchLog = []
      rw [AdvancedWorkerPool.fresh_eq]
      rfl
    rw [hq, hl]
    exact ⟨fun t ht => absurd ht (List.not_mem_nil _), fun d hd => absurd hd (List.not_mem_nil _)⟩
  | append_singleton evs e ih =>
    have hrun : reached N clock (evs ++ [e]) = (reached N clock evs).step clock e := by
      show (AdvancedWorkerPool.fresh N).run clock (evs ++ [e]) = _
      rw [AdvancedWorkerPool.run_append]
      rfl
    have hs := settled_run clock N evs
    have ho := ordered_run clock N evs
    obtain ⟨hq, hl⟩ := AdvancedWorkerPool.step_timeline clock (reached N clock evs) e hs
    have hnew : ∀ td pr, e = .executeTask td pr →
        SubmittedIn N clock (evs ++ [e])
          { taskData := td, priority := pr, handle := (reached N clock evs).promises,
            startTime := clock (reached N clock evs).clockReads, waitTime := 0 } := by
      intro td pr he
      exact ⟨evs, td, pr, [], by rw [he], rfl, rfl, rfl, rfl⟩
    have hsub : ∀ tw, (tw ∈ (reached N clock evs).taskQueue ∨ ∃ td pr, e = .executeTask td pr ∧
        tw = { taskData := td, priority := pr, handle := (reached N clock evs).promises,
               startTime := clock (reached N clock evs).clockReads, waitTime := 0 }) →
        SubmittedIn N clock (evs ++ [e]) tw := by
      intro tw htw
      rcases htw with hold | ⟨td, pr, he, rfl⟩
      · exact submittedIn_snoc N clock evs e tw (ih.1 tw hold)
      · exact hnew td pr he
    have hfresh : ∀ tw, (tw ∈ (reached N clock evs).taskQueue ∨ ∃ td pr, e = .executeTask td pr ∧
        tw = { taskData := td, priority := pr, handle := (reached N clock evs).promises,
               startTime := clock (reached N clock evs).clockReads, waitTime := 0 }) →
        tw.handle ∉ (reached N clock evs).dispatchLog.map (fun d => d.task.handle) := by
      intro tw htw hmem
      have hdisp : tw.handle ∈ (reached N clock evs).dispatchedHandles := ho.log.mem_iff.1 hmem
      rcases htw with hold | ⟨td, pr, he, rfl⟩
      · have hnd := ho.nodup
        unfold AdvancedWorkerPool.handles at hnd
        exact (List.nodup_append.1 hnd).2.2
          (List.mem_map_of_mem (fun t => t.handle) hold) hdisp
      · have hb := ho.bound (reached N clock evs).promises (by
          unfold AdvancedWorkerPool.handles
          exact List.mem_append_right _ hdisp)
        exact absurd hb (lt_irrefl _)
    rw [hrun]
    constructor
    · intro t ht
      exact hsub t (hq t ht)
    · intro d hd
      rcases hl d hd with hold | ⟨tw, htw, hdt⟩
      · exact ⟨submittedIn_snoc N clock evs e _ (ih.2 d hold).1,
          dispatchedIn_snoc N clock evs e d (ih.2 d hold).2⟩
      · constructor
        · obtain ⟨evs1, td, pr, evs2, h1, h2, h3, h4, h5⟩ := hsub tw htw
          refine ⟨evs1, td, pr, evs2, h1, ?_, ?_, ?_, ?_⟩
          · rw [hdt]; exact h2
          · rw [hdt]; exact h3
          · rw [hdt]; exact h4
          · rw [hdt]; exact h5
        · refine ⟨evs, e, [], rfl, ?_, ?_, ?_⟩
          · intro hmem
            apply hfresh tw htw
            have hh : d.task.handle ∈
                (reached N clock evs).dispatchLog.map (fun d => d.task.handle) :=
              List.mem_map_of_mem (fun d => d.task.handle) hmem
            rw [hdt] at hh
            exact hh
          · rw [hrun]
            exact hd
          · rw [hdt]

/-- C13. Running average of wait time: in every state reached from an initialised pool in
which `n >= 1` tasks have completed, `stats.averageWaitTime` is the sum of the wait times of
the completed tasks (taken in completion order) divided by `n`, over the rationals; there is
one wait time per completed task, and the wait time of every dispatched task is the clock
reading at its dispatch minus the clock reading at its submission. The wait time counted for
a completed task is the one of its entry in the dispatch log, the completed tasks are
distinct, and that entry's task was made by a call of `executeTask` of the run, whose clock
reading is its `startTime`, and was dispatched by the admission pass of one event of the run,
whose clock reading minus `startTime` is its `waitTime`. -/
theorem pool_average_wait_time (N : Nat) (clock : Nat → ℚ) (evs : List PoolEvent)
    (hn : 1 ≤ (reached N clock evs).stats.completedTasks) :
    (reached N clock evs).stats.averageWaitTime =
      (reached N clock evs).completedWaitTimes.sum /
        ((reached N clock evs).stats.completedTasks : ℚ) ∧
    (reached N clock evs).completedWaitTimes.length =
      (reached N clock evs).stats.completedTasks ∧
    (∀ d ∈ (reached N clock evs).dispatchLog, ∃ i j, i < j ∧
      d.task.startTime = clock i ∧ d.task.waitTime = clock j - clock i) ∧
    ((reached N clock evs).resolved.map Prod.fst).Nodup ∧
    (∀ x ∈ (reached N clock evs).resolved, ∃ d ∈ (reached N clock evs).dispatchLog,
      d.task.handle = x.1 ∧ (reached N clock evs).waitTimeOf x.1 = d.task.waitTime ∧
      SubmittedIn N clock evs d.task ∧ DispatchedIn N clock evs d) := by
  have h := waitAveraged_run clock N evs
  have ho := ordered_run clock N evs
  refine ⟨?_, ?_, ?_, ?_, ?_⟩
  · have hpos : ((reached N clock evs).stats.completedTasks : ℚ) ≠ 0 := by
      have : (reached N clock evs).stats.completedTasks ≠ 0 := by omega
      exact_mod_cast this
    rw [← h.mean, mul_div_assoc, div_self hpos, mul_one]
  · unfold AdvancedWorkerPool.completedWaitTimes
    rw [List.length_map, h.count]
  · intro d hd
    obtain ⟨i, j, hij, _, hs, hw⟩ := h.measured d hd
    exact ⟨i, j, hij, hs, hw⟩
  · have hnd := ho.nodup
    unfold AdvancedWorkerPool.handles AdvancedWorkerPool.dispatchedHandles at hnd
    exact (List.nodup_append.1 (List.nodup_append.1 (List.nodup_append.1 hnd).2.1).2.1).1
  · intro x hx
    obtain ⟨d, hd, hdx⟩ := List.mem_map.1 (ordered_resolved_logged ho x hx)
    refine ⟨d, hd, hdx, ?_, (run_timeline N clock evs).2 d hd⟩
    unfold AdvancedWorkerPool.waitTimeOf
    rw [← hdx, find_dispatch _ d (ordered_log_nodup ho) hd]

/-- The run of the example for the running average: the wait times and the average. -/
theorem squareClock_run_values :
    (reached 1 squareClock [.executeTask (exampleTask "a") "normal",
      .executeTask (exampleTask "b") "normal", .workerSettles 0, .runTaskResumes 0,
      .workerSettles 0, .runTaskResumes 0]).completedWaitTimes = [1, 16] ∧
    (reached 1 squareClock [.executeTask (exampleTask "a") "normal",
      .executeTask (exampleTask "b") "normal", .workerSettles 0, .runTaskResumes 0,
      .workerSettles 0, .runTaskResumes 0]).stats.averageWaitTime = 17 / 2 := by
  have hid : ("worker-" ++ toString 0 : String) = "worker-0" := by decide
  have ha : (exampleTask "a").type ≠ "analysis" := by decide
  have hb : (exampleTask "b").type ≠ "analysis" := by decide
  have hsa := fun w => simulate_ok_of_ne_analysis w (exampleTask "a") ha
  have hsb := fun w => simulate_ok_of_ne_analysis w (exampleTask "b") hb
  choose f hf using hsa
  choose g hg using hsb
  simp [reached, AdvancedWorkerPool.run, AdvancedWorkerPool.step, AdvancedWorkerPool.fresh,
    AdvancedWorkerPool.initialise, AdvancedWorkerPool.new, AdvancedWorkerPool.addWorker,
    AdvancedWorkerPool.executeTask, AdvancedWorkerPool.enqueue, sortQueue,
    AdvancedWorkerPool.processTaskQueue, AdvancedWorkerPool.admissionLoop,
    AdvancedWorkerPool.dispatch, AdvancedWorkerPool.startRunTask, setAdd, setDelete,
    updateWorker, AdvancedWorkerPool.updateGauges, AdvancedWorkerPool.workerSettles,
    AdvancedWorkerPool.runTaskResumes, AdvancedWorkerPool.complete,
    AdvancedWorkerPool.releaseWorker, UltraThinkWorker.finishTask,
    UltraThinkWorker.beginTask, UltraThinkWorker.updateStats, UltraThinkWorker.release,
    UltraThinkWorker.new, List.range, List.range.loop, hf, hg, hid, Except.map,
    AdvancedWorkerPool.completedWaitTimes, AdvancedWorkerPool.waitTimeOf, squareClock,
    priorityGE, getPriorityValue]
  norm_num

/-- C13 at a concrete run: two tasks completed one after the other in a pool of size 1, on a
clock whose readings are the squares. The first waited from reading 0 to reading 1, the
second from reading 3 to reading 5, and the average is `(1 + 16) / 2`. -/
theorem pool_average_wait_time_witness :
    1 ≤ (reached 1 squareClock [.executeTask (exampleTask "a") "normal",
      .executeTask (exampleTask "b") "normal", .workerSettles 0, .runTaskResumes 0,
      .workerSettles 0, .runTaskResumes 0]).stats.completedTasks ∧
    (reached 1 squareClock [.executeTask (exampleTask "a") "normal",
      .executeTask (exampleTask "b") "normal", .workerSettles 0, .runTaskResumes 0,
      .workerSettles 0, .runTaskResumes 0]).stats.averageWaitTime =
    (reached 1 squareClock [.executeTask (exampleTask "a") "normal",
      .executeTask (exampleTask "b") "normal", .workerSettles 0, .runTaskResumes 0,
      .workerSettles 0, .runTaskResumes 0]).completedWaitTimes.sum /
    ((reached 1 squareClock [.executeTask (exampleTask "a") "normal",
      .executeTask (exampleTask "b") "normal", .workerSettles 0, .runTaskResumes 0,
      .workerSettles 0, .runTaskResumes 0]).stats.completedTasks : ℚ) ∧
    (reached 1 squareClock [.executeTask (exampleTask "a") "normal",
      .executeTask (exampleTask "b") "normal", .workerSettles 0, .runTaskResumes 0,
      .workerSettles 0, .runTaskResumes 0]).completedWaitTimes = [1, 16] ∧
    (reached 1 squareClock [.executeTask (exampleTask "a") "normal",
      .executeTask (exampleTask "b") "normal", .workerSettles 0, .runTaskResumes 0,
      .workerSettles 0, .runTaskResumes 0]).stats.averageWaitTime = 17 / 2 :=
  ⟨by decide,
    (pool_average_wait_time 1 squareClock [.executeTask (exampleTask "a") "normal",
      .executeTask (exampleTask "b") "normal", .workerSettles 0, .runTaskResumes 0,
      .workerSettles 0, .runTaskResumes 0] (by decide)).1,
    squareClock_run_values.1, squareClock_run_values.2⟩

end UltraThink
